import Mathlib

/-!
# Governance parameter registry and vote tally engine

A shallow embedding of `params/governance_paramset.go` and
`governance/handler.go`: the typed parameter registry, the parameter set
builders, vote validation and the per-block tally pipeline
(`HandleGovernanceVote`, `removePreviousVote`, `changeGovernanceTally`,
`addNewVote`, `removeVotesFromRemovedNode`).

Conventions of the embedding:
* a Go `interface{}` value is a `Value`; `reflect.TypeOf` is `typeOf`;
* `uint64` arithmetic is arithmetic on `Nat` followed by `% 2 ^ 64`;
* a Go map is an association list, iterated in list order;
* a Go slice that is rewritten in place is a list together with the
  explicit in-place update, so aliasing between slices is visible;
* a run-time panic and an exhausted loop budget are the two errors of the
  `Run` monad.
-/

namespace Klaytn

/-! ## Run-time model -/

/-- Abnormal ends of a run: a Go panic, or a loop that used up its budget. -/
inductive Err where
  | nilDereference
  | typeAssertion
  | uncomparable
  | outOfFuel
  deriving DecidableEq, Repr

/-- Computations that may panic or exhaust their budget. -/
abbrev Run (α : Type) : Type := Except Err α

deriving instance DecidableEq for Except

/-- The modulus of `uint64` arithmetic. -/
def uint64Size : Nat := 2 ^ 64

/-- Addition of two `uint64` values. -/
def addU64 (a b : Nat) : Nat := (a + b) % uint64Size

/-- The type `common.Address` (20 bytes), as the number its bytes spell. -/
abbrev Address := Nat

/-- A `float64` as the sources observe it: sign, magnitude `mant * 2 ^ exp`,
or one of the non-finite values. -/
inductive Float64 where
  | finite (neg : Bool) (mant : Nat) (exp : Int)
  | inf (neg : Bool)
  | nan
  deriving DecidableEq, Repr

/-- Dynamic types that `reflect.TypeOf` can report for the values in play. -/
inductive GoType where
  | nilT
  | intT
  | uintT
  | uint64T
  | float64T
  | stringT
  | boolT
  | addressT
  | addressSliceT
  | bigIntT
  deriving DecidableEq, Repr

/-- A Go `interface{}` value. `addressListNil` is the nil slice of type
`[]common.Address`, which `reflect.DeepEqual` tells apart from an empty one. -/
inductive Value where
  | nil
  | int (n : Int)
  | uint (n : Nat)
  | uint64 (n : Nat)
  | float64 (f : Float64)
  | str (s : String)
  | bool (b : Bool)
  | address (a : Address)
  | addressList (l : List Address)
  | addressListNil
  | bigInt (n : Int)
  deriving DecidableEq, Repr

/-- The function `reflect.TypeOf`. -/
def typeOf : Value → GoType
  | .nil => .nilT
  | .int _ => .intT
  | .uint _ => .uintT
  | .uint64 _ => .uint64T
  | .float64 _ => .float64T
  | .str _ => .stringT
  | .bool _ => .boolT
  | .address _ => .addressT
  | .addressList _ => .addressSliceT
  | .addressListNil => .addressSliceT
  | .bigInt _ => .bigIntT

/-- The comparison `v >= 0` on a `float64`. -/
def Float64.geZero : Float64 → Bool
  | .finite neg mant _ => !neg || mant == 0
  | .inf neg => !neg
  | .nan => false

/-- The magnitude of a finite `float64`, truncated toward zero. -/
def Float64.truncMagnitude (mant : Nat) (exp : Int) : Nat :=
  match exp with
  | Int.ofNat e => mant * 2 ^ e
  | Int.negSucc e => mant / 2 ^ (e + 1)

/-- The conversion `uint64(v)` of a `float64`. Inside the range of `uint64` it
truncates toward zero. Outside it Go leaves the result to the implementation;
the embedding fixes the two-complement wrap for finite values and `2 ^ 63`
for the non-finite ones. -/
def Float64.toUint64 : Float64 → Nat
  | .finite false mant exp => Float64.truncMagnitude mant exp % uint64Size
  | .finite true mant exp =>
      (uint64Size - Float64.truncMagnitude mant exp % uint64Size) % uint64Size
  | .inf _ => 2 ^ 63
  | .nan => 2 ^ 63

/-- Whether a finite magnitude `mant * 2 ^ exp` is a whole number. -/
def Float64.isIntegral (mant : Nat) (exp : Int) : Bool :=
  match exp with
  | Int.ofNat _ => true
  | Int.negSucc e => mant % 2 ^ (e + 1) == 0

/-- The test `float64(uint64(v)) == v`: it holds exactly for the finite,
non-negative whole numbers below `2 ^ 64`. -/
def Float64.roundTripsUint64 : Float64 → Bool
  | .finite neg mant exp =>
      (!neg || mant == 0) && Float64.isIntegral mant exp &&
        decide (Float64.truncMagnitude mant exp < uint64Size)
  | .inf _ => false
  | .nan => false

/-- The comparison `==` of two `float64` values. -/
def Float64.beq : Float64 → Float64 → Bool
  | .finite n1 m1 e1, .finite n2 m2 e2 =>
      let lo := min e1 e2
      (m1 == 0 && m2 == 0) ||
        (n1 == n2 && m1 * 2 ^ (e1 - lo).toNat == m2 * 2 ^ (e2 - lo).toNat)
  | .inf n1, .inf n2 => n1 == n2
  | _, _ => false

/-! ## Library functions on strings -/

/-- The function `strings.Split(s, sep)` for a one-character separator, on
character lists. -/
def splitChars (sep : Char) : List Char → List (List Char)
  | [] => [[]]
  | c :: cs =>
    match splitChars sep cs with
    | [] => [[]]
    | seg :: rest => if c = sep then [] :: seg :: rest else (c :: seg) :: rest

/-- The function `strings.Split(s, sep)` for a one-character separator. -/
def stringsSplit (s : String) (sep : Char) : List String :=
  (splitChars sep s.data).map String.mk

/-- The function `strings.Trim(s, " ")`. -/
def stringsTrimSpace (s : String) : String :=
  String.mk ((s.data.dropWhile (· = ' ')).reverse.dropWhile (· = ' ')).reverse

/-- The function `strings.ToLower`, on the ASCII letters: `A` to `Z` are mapped
to `a` to `z`. Go also maps the upper-case letters outside ASCII; the embedding
leaves those characters as they are, so it agrees with the code on every string
without such a letter. -/
def stringsToLower (s : String) : String :=
  String.mk (s.data.map Char.toLower)

/-- The value of a decimal digit character. -/
def digitValue (c : Char) : Option Nat :=
  if '0' ≤ c ∧ c ≤ '9' then some (c.toNat - '0'.toNat) else none

/-- Reads a run of decimal digits, most significant first, onto `acc`. -/
def readDigits : List Char → Nat → Option Nat
  | [], acc => some acc
  | c :: cs, acc =>
    match digitValue c with
    | some d => readDigits cs (acc * 10 + d)
    | none => none

/-- A non-empty run of decimal digits as a number. -/
def parseDecimal (cs : List Char) : Option Nat :=
  match cs with
  | [] => none
  | _ :: _ => readDigits cs 0

/-- The function `strconv.ParseUint(s, 10, 64)`: `none` is an error. -/
def strconvParseUint (s : String) : Option Nat :=
  match parseDecimal s.data with
  | some n => if n < uint64Size then some n else none
  | none => none

/-- An optional sign followed by a non-empty run of decimal digits. -/
def parseSignedDecimal (cs : List Char) : Option Int :=
  match cs with
  | '-' :: rest => (parseDecimal rest).map (fun n => - (n : Int))
  | '+' :: rest => (parseDecimal rest).map (fun n => (n : Int))
  | _ => (parseDecimal cs).map (fun n => (n : Int))

/-- The function `strconv.Atoi` on a 64-bit platform: `none` is an error. -/
def strconvAtoi (s : String) : Option Int :=
  match parseSignedDecimal s.data with
  | some n => if - (2 : Int) ^ 63 ≤ n ∧ n < (2 : Int) ^ 63 then some n else none
  | none => none

/-- The method `new(big.Int).SetString(s, 10)`: `none` is failure. -/
def bigSetString (s : String) : Option Int :=
  parseSignedDecimal s.data

/-- The method `(*big.Int).String`: the decimal text of the number. -/
def bigString (n : Int) : String :=
  match n with
  | Int.ofNat m => Nat.repr m
  | Int.negSucc m => "-" ++ Nat.repr (m + 1)

/-- Wraps an integer into the range of a 64-bit signed `int`. -/
def wrapInt64 (n : Int) : Int :=
  (n + 2 ^ 63) % 2 ^ 64 - 2 ^ 63

/-- The value of a hexadecimal digit character. -/
def hexDigitValue (c : Char) : Option Nat :=
  if '0' ≤ c ∧ c ≤ '9' then some (c.toNat - '0'.toNat)
  else if 'a' ≤ c ∧ c ≤ 'f' then some (c.toNat - 'a'.toNat + 10)
  else if 'A' ≤ c ∧ c ≤ 'F' then some (c.toNat - 'A'.toNat + 10)
  else none

/-- Drops a leading `0x` or `0X`. -/
def dropHexMarker : List Char → List Char
  | '0' :: 'x' :: rest => rest
  | '0' :: 'X' :: rest => rest
  | cs => cs

/-- Modelled from the spec: `common.IsHexAddress` is declared outside the given
sources; a valid hex address is the text of an address of exactly address
length (20 bytes, so 40 hexadecimal digits), with or without the `0x` marker. -/
def IsHexAddress (s : String) : Bool :=
  let body := dropHexMarker s.data
  body.length == 40 && body.all (fun c => (hexDigitValue c).isSome)

/-- Modelled from the spec: `common.HexToAddress` is declared outside the given
sources; on a valid hex address it yields the address the digits spell. -/
def HexToAddress (s : String) : Address :=
  (dropHexMarker s.data).foldl (fun acc c => acc * 16 + (hexDigitValue c).getD 0) 0

/-! ## Go maps as association lists -/

/-- The lookup `m[k]` in its two-result form. -/
def mapGet {κ α : Type} [DecidableEq κ] : List (κ × α) → κ → Option α
  | [], _ => none
  | (k1, v1) :: rest, k => if k1 = k then some v1 else mapGet rest k

/-- The assignment `m[k] = v`: overwrite the entry of `k`, or add one. -/
def mapSet {κ α : Type} [DecidableEq κ] : List (κ × α) → κ → α → List (κ × α)
  | [], k, v => [(k, v)]
  | (k1, v1) :: rest, k, v =>
    if k1 = k then (k, v) :: rest else (k1, v1) :: mapSet rest k v

/-- The keys of a map, in iteration order. -/
def mapKeys {κ α : Type} (m : List (κ × α)) : List κ := m.map Prod.fst

/-! ## Parameter keys -/

/-- Modelled from the spec: the integer identifiers of the parameters
(`params.GovernanceMode`, `params.Epoch`, and so on) are declared outside the
given sources. A key is one of the named constants, which are pairwise distinct
because map literals use them as keys, or an integer that none of them names. -/
inductive GovParamKey where
  | GovernanceMode
  | GoverningNode
  | Epoch
  | Policy
  | CommitteeSize
  | UnitPrice
  | MintingAmount
  | Ratio
  | UseGiniCoeff
  | DeferredTxFee
  | MinimumStake
  | StakeUpdateInterval
  | ProposerRefreshInterval
  | AddValidator
  | RemoveValidator
  | ConstTxGasHumanReadable
  | Timeout
  | LowerBoundBaseFee
  | UpperBoundBaseFee
  | GasTarget
  | MaxBlockGasUsedForBaseFee
  | BaseFeeDenominator
  | GovParamContract
  | Kip82Ratio
  | DeriveShaImpl
  | unnamed (n : Nat)
  deriving DecidableEq, Repr

/-- Modelled from the spec: the constants `GovernanceMode_None`,
`GovernanceMode_Single` and `GovernanceMode_Ballot` are declared outside the
given sources; a mode integer is one of the three or some other integer. -/
inductive GovernanceModeInt where
  | GovernanceMode_None
  | GovernanceMode_Single
  | GovernanceMode_Ballot
  | unnamed (n : Nat)
  deriving DecidableEq, Repr

/-! ## Parameter type registry (`params/governance_paramset.go`) -/

/-- The descriptor `govParamType`: canonical type, the two parsers (each
returning a value and an `ok` flag) and the semantic check, which may be nil. -/
structure govParamType where
  canonicalType : GoType
  parseValue : Value → Value × Bool
  parseBytes : List Nat → Value × Bool
  validate : Option (Value → Run Bool)

/-- The method `govParamType.Validate`. -/
def govParamType.Validate (ty : govParamType) (v : Value) : Run Bool :=
  if ty.canonicalType ≠ typeOf v then pure false
  else
    match ty.validate with
    | none => pure true
    | some f =>
      match f v with
      | .error e => .error e
      | .ok ok => if !ok then pure false else pure true

/-- The method `govParamType.ParseValue`. -/
def govParamType.ParseValue (ty : govParamType) (v : Value) : Run (Value × Bool) :=
  match ty.parseValue v with
  | (x, true) =>
    match ty.Validate x with
    | .error e => .error e
    | .ok ok => pure (x, ok)
  | (_, false) => pure (Value.nil, false)

/-- The method `govParamType.ParseBytes`. -/
def govParamType.ParseBytes (ty : govParamType) (b : List Nat) : Run (Value × Bool) :=
  match ty.parseBytes b with
  | (x, true) =>
    match ty.Validate x with
    | .error e => .error e
    | .ok ok => pure (x, ok)
  | (_, false) => pure (Value.nil, false)

/-- The table `govModeNames`. -/
def govModeNames : List (String × GovernanceModeInt) :=
  [("none", .GovernanceMode_None),
   ("single", .GovernanceMode_Single),
   ("ballot", .GovernanceMode_Ballot)]

/-- The parser `parseValueString`. -/
def parseValueString : Value → Value × Bool
  | .str s => (.str s, true)
  | _ => (.str "", false)

/-- The conversion `string(b)` of a byte slice: one character per byte. -/
def bytesToString (b : List Nat) : String :=
  String.mk (b.map (fun x => Char.ofNat (x % 256)))

/-- The big-endian number a byte slice spells (`new(big.Int).SetBytes(b)`). -/
def bytesToNat (b : List Nat) : Nat :=
  b.foldl (fun acc x => acc * 256 + x % 256) 0

/-- The parser `parseBytesString`. -/
def parseBytesString (b : List Nat) : Value × Bool :=
  (.str (bytesToString b), true)

/-- The check `validatePass`. -/
def validatePass (_ : Value) : Run Bool := pure true

/-- The constant `uint64ByteLen`. -/
def uint64ByteLen : Nat := 8

/-- Modelled from the spec: `common.AddressLength` is declared outside the
given sources; an address is 20 bytes long. -/
def AddressLength : Nat := 20

/-- Modelled from the spec: `common.BytesToAddress` is declared outside the
given sources; it keeps the last `AddressLength` bytes of its argument. -/
def BytesToAddress (b : List Nat) : Address :=
  bytesToNat b % 2 ^ (8 * AddressLength)

/-- The descriptor `govParamTypeGovMode`. -/
def govParamTypeGovMode : govParamType where
  canonicalType := .stringT
  parseValue := parseValueString
  parseBytes := parseBytesString
  validate := some (fun v =>
    match v with
    | .str s => pure (mapGet govModeNames s).isSome
    | _ => .error .typeAssertion)

/-- The descriptor `govParamTypeAddress`. -/
def govParamTypeAddress : govParamType where
  canonicalType := .addressT
  parseValue := fun v =>
    match v with
    | .str s => (.address (HexToAddress s), IsHexAddress s)
    | .address a => (.address a, true)
    | _ => (.nil, false)
  parseBytes := fun b => (.address (BytesToAddress b), b.length == AddressLength)
  validate := some validatePass

/-- The descriptor `govParamTypeUint64`. -/
def govParamTypeUint64 : govParamType where
  canonicalType := .uint64T
  parseValue := fun v =>
    match v with
    | .int n => (.uint64 (n % (uint64Size : Int)).toNat, decide (0 ≤ n))
    | .uint n => (.uint64 n, true)
    | .uint64 n => (.uint64 n, true)
    | .float64 f => (.uint64 f.toUint64, f.geZero)
    | _ => (.nil, false)
  parseBytes := fun b => (.uint64 (bytesToNat b % uint64Size), decide (b.length ≤ uint64ByteLen))
  validate := some validatePass

/-- The descriptor `govParamTypeBigInt`. -/
def govParamTypeBigInt : govParamType where
  canonicalType := .stringT
  parseValue := fun v =>
    match v with
    | .str s => (.str s, (bigSetString s).isSome)
    | .bigInt n => (.str (bigString n), true)
    | _ => (.nil, false)
  parseBytes := fun b => (.str (bigString (bytesToNat b : Nat)), true)
  validate := some (fun v =>
    match v with
    | .str s =>
      match bigSetString s with
      | some n => pure (decide (0 ≤ n))
      | none => pure false
    | _ => .error .typeAssertion)

/-- The loop of the ratio check: every slice must read as an `int` that is not
negative; the slices are summed in `int` arithmetic. -/
def ratioSumLoop : List String → Int → Option Int
  | [], sum => some sum
  | s :: rest, sum =>
    match strconvAtoi s with
    | none => none
    | some n => if n < 0 then none else ratioSumLoop rest (wrapInt64 (sum + n))

/-- The descriptor `govParamTypeRatio`. -/
def govParamTypeRatio : govParamType where
  canonicalType := .stringT
  parseValue := parseValueString
  parseBytes := parseBytesString
  validate := some (fun v =>
    match v with
    | .str s =>
      let strs := stringsSplit s '/'
      if strs.length ≠ 3 then pure false
      else
        match ratioSumLoop strs 0 with
        | none => pure false
        | some sum => pure (decide (sum = 100))
    | _ => .error .typeAssertion)

/-- The descriptor `govParamTypeBool`. -/
def govParamTypeBool : govParamType where
  canonicalType := .boolT
  parseValue := fun v =>
    match v with
    | .bool b => (.bool b, true)
    | _ => (.bool false, false)
  parseBytes := fun b =>
    if b = [1] then (.bool true, true)
    else if b = [0] then (.bool false, true)
    else (.nil, false)
  validate := some validatePass

/-- The table `govParamTypes`, in its two-result lookup form. -/
def govParamTypes : GovParamKey → Option govParamType
  | .GovernanceMode => some govParamTypeGovMode
  | .GoverningNode => some govParamTypeAddress
  | .Epoch => some govParamTypeUint64
  | .Policy => some govParamTypeUint64
  | .CommitteeSize => some govParamTypeUint64
  | .UnitPrice => some govParamTypeUint64
  | .MintingAmount => some govParamTypeBigInt
  | .Ratio => some govParamTypeRatio
  | .UseGiniCoeff => some govParamTypeBool
  | .DeferredTxFee => some govParamTypeBool
  | .MinimumStake => some govParamTypeBigInt
  | .StakeUpdateInterval => some govParamTypeUint64
  | .ProposerRefreshInterval => some govParamTypeUint64
  | _ => none

/-- The table `govParamNames`. -/
def govParamNames : List (String × GovParamKey) :=
  [("governance.governancemode", .GovernanceMode),
   ("governance.governingnode", .GoverningNode),
   ("istanbul.epoch", .Epoch),
   ("istanbul.policy", .Policy),
   ("istanbul.committeesize", .CommitteeSize),
   ("governance.unitprice", .UnitPrice),
   ("reward.mintingamount", .MintingAmount),
   ("reward.ratio", .Ratio),
   ("reward.useginicoeff", .UseGiniCoeff),
   ("reward.deferredtxfee", .DeferredTxFee),
   ("reward.minimumstake", .MinimumStake),
   ("reward.stakingupdateinterval", .StakeUpdateInterval),
   ("reward.proposerupdateinterval", .ProposerRefreshInterval)]

/-- The table `govParamNamesReverse`, as `init` fills it. -/
def govParamNamesReverse : List (GovParamKey × String) :=
  govParamNames.foldl (fun m e => mapSet m e.2 e.1) []

/-- The one-result lookup `govParamNamesReverse[key]`: the empty string when
the key is absent. -/
def reverseName (key : GovParamKey) : String :=
  (mapGet govParamNamesReverse key).getD ""

/-! ## Parameter sets -/

/-- The type `GovParamSet`: items in canonical type. -/
structure GovParamSet where
  items : List (GovParamKey × Value)
  deriving DecidableEq, Repr

/-- The `error` values the builders return. -/
inductive BuildError where
  | unknownName (name : String)
  | unknownKey
  | malformedValue
  deriving DecidableEq, Repr

/-- The constructor `NewGovParamSet`. -/
def NewGovParamSet : GovParamSet := ⟨[]⟩

/-- The method `GovParamSet.set`: the updated set, or the returned `error`. -/
def GovParamSet.set (p : GovParamSet) (key : GovParamKey) (value : Value) :
    Run (Except BuildError GovParamSet) :=
  match govParamTypes key with
  | none => pure (.error .unknownKey)
  | some ty =>
    match ty.ParseValue value with
    | .error e => .error e
    | .ok (parsed, ok) =>
      if !ok then pure (.error .malformedValue)
      else pure (.ok ⟨mapSet p.items key parsed⟩)

/-- The loop of `NewGovParamSetIntMap` over the entries still to visit. -/
def intMapLoop : List (GovParamKey × Value) → GovParamSet →
    Run (Except BuildError GovParamSet)
  | [], p => pure (.ok p)
  | (key, value) :: rest, p =>
    match p.set key value with
    | .error e => .error e
    | .ok (.error err) => pure (.error err)
    | .ok (.ok p1) => intMapLoop rest p1

/-- The builder `NewGovParamSetIntMap`. -/
def NewGovParamSetIntMap (items : List (GovParamKey × Value)) :
    Run (Except BuildError GovParamSet) :=
  intMapLoop items NewGovParamSet

/-- The loop of `NewGovParamSetStrMap` over the entries still to visit. -/
def strMapLoop : List (String × Value) → GovParamSet →
    Run (Except BuildError GovParamSet)
  | [], p => pure (.ok p)
  | (name, value) :: rest, p =>
    match mapGet govParamNames name with
    | none => pure (.error (.unknownName name))
    | some key =>
      match p.set key value with
      | .error e => .error e
      | .ok (.error err) => pure (.error err)
      | .ok (.ok p1) => strMapLoop rest p1

/-- The builder `NewGovParamSetStrMap`. -/
def NewGovParamSetStrMap (items : List (String × Value)) :
    Run (Except BuildError GovParamSet) :=
  strMapLoop items NewGovParamSet

/-- Modelled from the spec: the configuration structures are declared outside
the given sources; this is the Istanbul section, with the field types the
tests compare the fields at. -/
structure IstanbulConfig where
  Epoch : Nat
  ProposerPolicy : Nat
  SubGroupSize : Nat
  deriving DecidableEq, Repr

/-- Modelled from the spec: the reward section of the configuration, declared
outside the given sources; a big integer field may be nil. -/
structure RewardConfig where
  MintingAmount : Option Int
  Ratio : String
  UseGiniCoeff : Bool
  DeferredTxFee : Bool
  StakingUpdateInterval : Nat
  ProposerUpdateInterval : Nat
  MinimumStake : Option Int
  deriving DecidableEq, Repr

/-- Modelled from the spec: the governance section of the configuration,
declared outside the given sources. -/
structure GovernanceConfig where
  GoverningNode : Address
  GovernanceMode : String
  Reward : Option RewardConfig
  deriving DecidableEq, Repr

/-- Modelled from the spec: the chain configuration, declared outside the given
sources; absent nested sections are `none`. -/
structure ChainConfig where
  Istanbul : Option IstanbulConfig
  UnitPrice : Nat
  Governance : Option GovernanceConfig
  deriving DecidableEq, Repr

/-- The entries `NewGovParamSetChainConfig` writes for the reward section. -/
def rewardItems (items : List (GovParamKey × Value)) (r : RewardConfig) :
    List (GovParamKey × Value) :=
  let items := match r.MintingAmount with
    | some n => mapSet items .MintingAmount (.str (bigString n))
    | none => items
  let items := mapSet items .Ratio (.str r.Ratio)
  let items := mapSet items .UseGiniCoeff (.bool r.UseGiniCoeff)
  let items := mapSet items .DeferredTxFee (.bool r.DeferredTxFee)
  let items := mapSet items .StakeUpdateInterval (.uint64 r.StakingUpdateInterval)
  let items := mapSet items .ProposerRefreshInterval (.uint64 r.ProposerUpdateInterval)
  match r.MinimumStake with
  | some n => mapSet items .MinimumStake (.str (bigString n))
  | none => items

/-- The map `items` that `NewGovParamSetChainConfig` fills from a configuration. -/
def chainConfigItems (config : ChainConfig) : List (GovParamKey × Value) :=
  let items : List (GovParamKey × Value) := []
  let items := match config.Istanbul with
    | some ist =>
      mapSet (mapSet (mapSet items .Epoch (.uint64 ist.Epoch))
        .Policy (.uint64 ist.ProposerPolicy)) .CommitteeSize (.uint64 ist.SubGroupSize)
    | none => items
  let items := mapSet items .UnitPrice (.uint64 config.UnitPrice)
  match config.Governance with
  | some g =>
    let items := mapSet items .GoverningNode (.address g.GoverningNode)
    let items := mapSet items .GovernanceMode (.str g.GovernanceMode)
    match g.Reward with
    | some r => rewardItems items r
    | none => items
  | none => items

/-- The builder `NewGovParamSetChainConfig`. -/
def NewGovParamSetChainConfig (config : ChainConfig) :
    Run (Except BuildError GovParamSet) :=
  NewGovParamSetIntMap (chainConfigItems config)

/-- The method `GovParamSet.StrMap`. -/
def GovParamSet.StrMap (p : GovParamSet) : List (String × Value) :=
  p.items.foldl (fun m e => mapSet m (reverseName e.1) e.2) []

/-- The method `GovParamSet.IntMap`. -/
def GovParamSet.IntMap (p : GovParamSet) : List (GovParamKey × Value) :=
  p.items.foldl (fun m e => mapSet m e.1 e.2) []

/-- The method `GovParamSet.Get`: the value and the `ok` flag. -/
def GovParamSet.Get (p : GovParamSet) (key : GovParamKey) : Value × Bool :=
  match mapGet p.items key with
  | some v => (v, true)
  | none => (.nil, false)

/-! ## Votes, tallies and the collaborators of the handler -/

/-- The type `GovernanceVote`. -/
structure GovernanceVote where
  Validator : Address
  Key : String
  Value : Value
  deriving DecidableEq, Repr

/-- The type `GovernanceTallyItem`. -/
structure GovernanceTallyItem where
  Key : String
  Value : Value
  Votes : Nat
  deriving DecidableEq, Repr

/-- Modelled from the spec: `istanbul.Validator` is an interface declared
outside the given sources; a validator has an address and carries a
voting-power weight. -/
structure Validator where
  address : Address
  votingPower : Nat
  deriving DecidableEq, Repr

/-- Modelled from the spec: `istanbul.ValidatorSet` is an interface declared
outside the given sources; these are the methods the handler consumes, over
an arbitrary representation `σ` of the set. A lookup yields the validator or
nothing (Go: a nil validator). -/
structure ValidatorSet (σ : Type) where
  GetByAddress : σ → Address → Option Validator
  GetDemotedByAddress : σ → Address → Option Validator
  AddValidator : σ → Address → σ
  RemoveValidator : σ → Address → σ
  TotalVotingPower : σ → Nat

/-- Modelled from the spec: the receiver `*Governance` and the package tables
`GovernanceKeyMap` and `GovernanceForbiddenKeyMap` are declared outside the
given sources. `GovernanceKeyMap` is the one-result lookup (an absent name
yields the integer zero, whichever key that is), `GovernanceForbiddenKeyMap`
tells whether a name is present in the forbidden table, `getKey` normalises a
name, `governanceMode` and `governingNode` are what `Params()` reports, and
`lastGovernanceStateBlock` is the counter of the same name. -/
structure Governance where
  GovernanceKeyMap : String → GovParamKey
  GovernanceForbiddenKeyMap : String → Bool
  getKey : String → String
  governanceMode : GovernanceModeInt
  governingNode : Address
  lastGovernanceStateBlock : Nat

/-- Modelled from the spec: `rlp.DecodeBytes` and `ParseVoteValue` are
declared outside the given sources; a header carries what the two make of its
`Vote` bytes: no bytes at all, bytes that do not decode, a decoded vote whose
value does not parse, or the parsed vote. -/
inductive HeaderVote where
  | empty
  | undecodable
  | unparsable
  | parsed (gVote : GovernanceVote)
  deriving DecidableEq, Repr

/-- The fields of `types.Header` the handler reads. -/
structure Header where
  Vote : HeaderVote
  Number : Nat
  deriving DecidableEq, Repr

/-- Effects of the handler outside the three values it returns. The stores
they act on (`changeSet`, `voteMap`, the live timeout, the snapshot storage)
are declared outside the given sources, so each call is recorded. -/
inductive Effect where
  | removeDuplicatedVote (gVote : GovernanceVote) (number : Nat)
  | changeSetRemoveIfEqual (key : GovParamKey) (name : String) (value : Value)
  | storeTimeout (timeout : Nat)
  | reflectVotes (gVote : GovernanceVote)
  | importVotes (votes : List GovernanceVote)
  | importTallies (tally : List GovernanceTallyItem)
  deriving DecidableEq, Repr

/-- What `HandleGovernanceVote` and `addNewVote` hand back, with the recorded
effects. -/
structure Outcome (σ : Type) where
  valset : σ
  votes : List GovernanceVote
  tally : List GovernanceTallyItem
  effects : List Effect
  deriving DecidableEq, Repr

/-! ## Vote validation (`governance/handler.go`) -/

/-- Modelled from the spec: `params.RewardSliceCount` is declared outside the
given sources; the general reward ratio has 3 slices. -/
def RewardSliceCount : Nat := 3

/-- Modelled from the spec: `params.RewardKip82SliceCount` is declared outside
the given sources; the KIP-82 ratio has 2 slices. -/
def RewardKip82SliceCount : Nat := 2

/-- Modelled from the spec: `GovernanceModeMap` is declared outside the given
sources; governance-mode strings are none, single and ballot. -/
def GovernanceModeMap : List (String × GovernanceModeInt) :=
  [("none", .GovernanceMode_None),
   ("single", .GovernanceMode_Single),
   ("ballot", .GovernanceMode_Ballot)]

/-- The loop shared by `checkRatio` and `checkKip82Ratio`: every slice must
read as a `uint64`; the slices are summed in `uint64` arithmetic. -/
def ratioUintSumLoop : List String → Nat → Option Nat
  | [], sum => some sum
  | item :: rest, sum =>
    match strconvParseUint item with
    | none => none
    | some v => ratioUintSumLoop rest (addU64 sum v)

/-- The validator `checkRatio`. -/
def checkRatio (_k : String) (v : Value) : Run Bool :=
  match v with
  | .str s =>
    let x := stringsSplit s '/'
    if x.length ≠ RewardSliceCount then pure false
    else
      match ratioUintSumLoop x 0 with
      | none => pure false
      | some sum => if sum = 100 then pure true else pure false
  | _ => .error .typeAssertion

/-- The validator `checkKip82Ratio`. -/
def checkKip82Ratio (_k : String) (v : Value) : Run Bool :=
  match v with
  | .str s =>
    let x := stringsSplit s '/'
    if x.length ≠ RewardKip82SliceCount then pure false
    else
      match ratioUintSumLoop x 0 with
      | none => pure false
      | some sum => if sum = 100 then pure true else pure false
  | _ => .error .typeAssertion

/-- The validator `checkGovernanceMode`. -/
def checkGovernanceMode (_k : String) (v : Value) : Run Bool :=
  match v with
  | .str s => if (mapGet GovernanceModeMap s).isSome then pure true else pure false
  | _ => .error .typeAssertion

/-- The validator `checkUint64andBool`. -/
def checkUint64andBool (_k : String) (v : Value) : Run Bool :=
  if typeOf v = .uint64T ∨ typeOf v = .boolT then pure true else pure false

/-- The validator `checkCommitteeSize`. -/
def checkCommitteeSize (k : String) (v : Value) : Run Bool :=
  match checkUint64andBool k v with
  | .error e => .error e
  | .ok ok =>
    if !ok then pure false
    else if v = .uint64 0 then pure false
    else pure true

/-- The validator `checkBigInt`. -/
def checkBigInt (_k : String) (v : Value) : Run Bool :=
  match v with
  | .str s => if (bigSetString s).isSome then pure true else pure false
  | _ => .error .typeAssertion

/-- The validator `checkRewardMinimumStake`. -/
def checkRewardMinimumStake (k : String) (v : Value) : Run Bool :=
  match checkBigInt k v with
  | .error e => .error e
  | .ok ok =>
    if !ok then pure false
    else
      match v with
      | .str s =>
        match bigSetString s with
        | some n => if n < 0 then pure false else pure true
        | none => pure true
      | _ => .error .typeAssertion

/-- The validator `checkAddress`. -/
def checkAddress (_k : String) (v : Value) : Run Bool :=
  match v with
  | .address _ => pure true
  | _ => pure false

/-- The loop of `checkAddressOrListOfUniqueAddresses`: `seen` holds the keys
of `addressExists`. -/
def uniqueAddressLoop : List Address → List Address → Bool
  | [], _ => true
  | address :: rest, seen =>
    if address ∈ seen then false else uniqueAddressLoop rest (address :: seen)

/-- The validator `checkAddressOrListOfUniqueAddresses`. -/
def checkAddressOrListOfUniqueAddresses (k : String) (v : Value) : Run Bool :=
  match checkAddress k v with
  | .error e => .error e
  | .ok true => pure true
  | .ok false =>
    match v with
    | .addressList l => pure (uniqueAddressLoop l [])
    | .addressListNil => pure true
    | _ => pure false

/-- The type `check`, without the `trigger` field, which the given sources
never call. -/
structure check where
  t : GoType
  validator : String → Value → Run Bool

/-- The table `GovernanceItems`, in its two-result lookup form. -/
def GovernanceItems : GovParamKey → Option check
  | .GovernanceMode => some ⟨.stringT, checkGovernanceMode⟩
  | .GoverningNode => some ⟨.addressT, checkAddress⟩
  | .GovParamContract => some ⟨.addressT, checkAddress⟩
  | .UnitPrice => some ⟨.uint64T, checkUint64andBool⟩
  | .DeriveShaImpl => some ⟨.uint64T, checkUint64andBool⟩
  | .LowerBoundBaseFee => some ⟨.uint64T, checkUint64andBool⟩
  | .UpperBoundBaseFee => some ⟨.uint64T, checkUint64andBool⟩
  | .GasTarget => some ⟨.uint64T, checkUint64andBool⟩
  | .MaxBlockGasUsedForBaseFee => some ⟨.uint64T, checkUint64andBool⟩
  | .BaseFeeDenominator => some ⟨.uint64T, checkUint64andBool⟩
  | .AddValidator => some ⟨.addressT, checkAddressOrListOfUniqueAddresses⟩
  | .RemoveValidator => some ⟨.addressT, checkAddressOrListOfUniqueAddresses⟩
  | .MintingAmount => some ⟨.stringT, checkBigInt⟩
  | .Ratio => some ⟨.stringT, checkRatio⟩
  | .UseGiniCoeff => some ⟨.boolT, checkUint64andBool⟩
  | .Kip82Ratio => some ⟨.stringT, checkKip82Ratio⟩
  | .DeferredTxFee => some ⟨.boolT, checkUint64andBool⟩
  | .MinimumStake => some ⟨.stringT, checkRewardMinimumStake⟩
  | .StakeUpdateInterval => some ⟨.uint64T, checkUint64andBool⟩
  | .ProposerRefreshInterval => some ⟨.uint64T, checkUint64andBool⟩
  | .Epoch => some ⟨.uint64T, checkUint64andBool⟩
  | .Policy => some ⟨.uint64T, checkUint64andBool⟩
  | .CommitteeSize => some ⟨.uint64T, checkCommitteeSize⟩
  | .ConstTxGasHumanReadable => some ⟨.uint64T, checkUint64andBool⟩
  | .Timeout => some ⟨.uint64T, checkUint64andBool⟩
  | .unnamed _ => none

/-- The expression `GovernanceItems[k].t`: the nil type when `k` is absent. -/
def itemType (k : GovParamKey) : GoType :=
  match GovernanceItems k with
  | some c => c.t
  | none => .nilT

/-- The loop of `adjustValueType` over the comma-separated segments. -/
def adjustAddressLoop (val : Value) : List String → List Address → Value
  | [], nodeAddresses => .addressList nodeAddresses
  | str :: rest, nodeAddresses =>
    let str := stringsTrimSpace str
    if IsHexAddress str then adjustAddressLoop val rest (nodeAddresses ++ [HexToAddress str])
    else val

/-- The method `adjustValueType`. -/
def adjustValueType (gov : Governance) (key : String) (val : Value) : Value :=
  let k := gov.GovernanceKeyMap key
  if itemType k = .uint64T then
    match val with
    | .float64 v => if v.roundTripsUint64 then .uint64 v.toUint64 else val
    | _ => val
  else
    match val with
    | .str v =>
      if itemType k = .addressT then
        let addresses := stringsSplit v ','
        match addresses.length with
        | 0 => val
        | 1 =>
          let str := stringsTrimSpace v
          if IsHexAddress str then .address (HexToAddress str) else val
        | _ => adjustAddressLoop val addresses []
      else .str (stringsToLower v)
    | _ => val

/-- The function `checkValueType`. -/
def checkValueType (v : Value) (expectType : GoType) : Bool :=
  match expectType with
  | .uint64T => typeOf v = .uint64T
  | .stringT => typeOf v = .stringT
  | .addressT => typeOf v = .addressT || typeOf v = .addressSliceT
  | .boolT => typeOf v = .boolT
  | _ => false

/-- The function `checkKey`. -/
def checkKey (gov : Governance) (k : String) : Bool :=
  (GovernanceItems (gov.GovernanceKeyMap k)).isSome

/-- The method `ValidateVote`: the vote with its key and value rewritten, and
the verdict. -/
def ValidateVote (gov : Governance) (vote : GovernanceVote) : Run (GovernanceVote × Bool) :=
  let vote : GovernanceVote := ⟨vote.Validator, gov.getKey vote.Key, vote.Value⟩
  let key := gov.GovernanceKeyMap vote.Key
  let vote : GovernanceVote := ⟨vote.Validator, vote.Key, adjustValueType gov vote.Key vote.Value⟩
  if checkKey gov vote.Key && checkValueType vote.Value (itemType key) then
    match GovernanceItems key with
    | none => .error .nilDereference
    | some c =>
      match c.validator vote.Key vote.Value with
      | .error e => .error e
      | .ok ok => pure (vote, ok)
  else pure (vote, false)

/-- The method `AddVote`: the verdict, and the entry it writes to `voteMap`
when the vote is valid. The vote it builds has no validator yet. -/
def AddVote (gov : Governance) (key : String) (val : Value) :
    Run (Bool × Option (String × Value)) :=
  let key := gov.getKey key
  if gov.GovernanceForbiddenKeyMap key then pure (false, none)
  else
    match ValidateVote gov ⟨0, key, val⟩ with
    | .error e => .error e
    | .ok (vote, true) => pure (true, some (key, vote.Value))
    | .ok (_, false) => pure (false, none)

/-- The comparison `v1 == v2` of two interface values: values of different
dynamic type differ, and comparing two slices panics. A `*big.Int` is
identified with the number it points to. -/
def interfaceEq (v1 v2 : Value) : Run Bool :=
  if typeOf v1 ≠ typeOf v2 then pure false
  else
    match v1, v2 with
    | .float64 f1, .float64 f2 => pure (Float64.beq f1 f2)
    | .addressList _, _ => .error .uncomparable
    | .addressListNil, _ => .error .uncomparable
    | _, _ => pure (decide (v1 = v2))

/-- The function `isEqualValue`. -/
def isEqualValue (k : GovParamKey) (v1 v2 : Value) : Run Bool :=
  if typeOf v1 ≠ typeOf v2 then pure false
  else if itemType k = .addressT ∧ typeOf v1 ≠ .addressT then
    if typeOf v1 = .addressSliceT ∧ typeOf v2 = .addressSliceT then
      pure (decide (v1 = v2))
    else pure false
  else interfaceEq v1 v2

/-! ## The tally engine (`governance/handler.go`) -/

section Engine

variable {σ : Type}

/-- The method `checkVote`. -/
def checkVote (ops : ValidatorSet σ) (address : Address) (isKeyAddValidator : Bool)
    (valset : σ) : Bool :=
  let validator := ops.GetByAddress valset address
  let validator :=
    if validator.isNone then ops.GetDemotedByAddress valset address else validator
  (validator.isSome && !isKeyAddValidator) || (validator.isNone && isKeyAddValidator)

/-- The method `isGovernanceModeSingleOrNone`. -/
def isGovernanceModeSingleOrNone (governanceMode : GovernanceModeInt)
    (governingNode : Address) (voter : Address) : Bool :=
  governanceMode = .GovernanceMode_None ||
    (governanceMode = .GovernanceMode_Single && voter = governingNode)

/-- The loop of `changeGovernanceTally` from index `idx` on, `rest` being
`tally[idx:]`. On a match it yields `currentVote` and the new `ret`; without
one it yields nothing. -/
def changeGovernanceTallyLoop (gov : Governance) (tally : List GovernanceTallyItem)
    (key : String) (value : Value) (vp : Nat) (isAdd : Bool) :
    Nat → List GovernanceTallyItem → Run (Option (Nat × List GovernanceTallyItem))
  | _, [] => pure none
  | idx, v :: rest =>
    let equal : Run Bool :=
      if v.Key = key then isEqualValue (gov.GovernanceKeyMap key) v.Value value
      else pure false
    match equal with
    | .error e => .error e
    | .ok true =>
      let votes :=
        if isAdd then addU64 v.Votes vp
        else if v.Votes > vp then v.Votes - vp
        else 0
      let ret := tally.set idx ⟨v.Key, v.Value, votes⟩
      let currentVote := votes
      let ret := if currentVote = 0 then tally.take idx ++ tally.drop (idx + 1) else ret
      pure (some (currentVote, ret))
    | .ok false => changeGovernanceTallyLoop gov tally key value vp isAdd (idx + 1) rest

/-- The method `changeGovernanceTally`. -/
def changeGovernanceTally (gov : Governance) (tally : List GovernanceTallyItem)
    (key : String) (value : Value) (vp : Nat) (isAdd : Bool) :
    Run (Nat × List GovernanceTallyItem) :=
  match changeGovernanceTallyLoop gov tally key value vp isAdd 0 tally with
  | .error e => .error e
  | .ok (some (currentVote, ret)) => pure (currentVote, ret)
  | .ok none =>
    if isAdd then pure (vp, tally ++ [⟨key, value, vp⟩])
    else pure (0, tally)

/-- The loop of `removePreviousVote` from index `idx` on, `rest` being
`votes[idx:]`. -/
def removePreviousVoteLoop (gov : Governance) (ops : ValidatorSet σ) (valset : σ)
    (votes : List GovernanceVote) (tally : List GovernanceTallyItem)
    (validator : Address) (gVote : GovernanceVote) (governanceMode : GovernanceModeInt)
    (governingNode : Address) (writable : Bool) :
    Nat → List GovernanceVote →
      Run (List GovernanceVote × List GovernanceTallyItem × List Effect)
  | _, [] => pure (votes, tally, [])
  | idx, vote :: rest =>
    if vote.Validator = validator ∧ vote.Key = gVote.Key then
      match ops.GetByAddress valset vote.Validator with
      | none => .error .nilDereference
      | some v =>
        let vp := v.votingPower
        match changeGovernanceTally gov tally vote.Key vote.Value vp false with
        | .error e => .error e
        | .ok (currentVotes, tally) =>
          let ret := votes.take idx ++ votes.drop (idx + 1)
          let effects :=
            if writable &&
                (isGovernanceModeSingleOrNone governanceMode governingNode gVote.Validator ||
                  (governanceMode = .GovernanceMode_Ballot &&
                    decide (currentVotes ≤ ops.TotalVotingPower valset / 2)))
            then [Effect.changeSetRemoveIfEqual (gov.GovernanceKeyMap vote.Key) vote.Key vote.Value]
            else []
          pure (ret, tally, effects)
    else
      removePreviousVoteLoop gov ops valset votes tally validator gVote governanceMode
        governingNode writable (idx + 1) rest

/-- The method `removePreviousVote`. -/
def removePreviousVote (gov : Governance) (ops : ValidatorSet σ) (valset : σ)
    (votes : List GovernanceVote) (tally : List GovernanceTallyItem)
    (validator : Address) (gVote : GovernanceVote) (governanceMode : GovernanceModeInt)
    (governingNode : Address) (writable : Bool) :
    Run (List GovernanceVote × List GovernanceTallyItem × List Effect) :=
  removePreviousVoteLoop gov ops valset votes tally validator gVote governanceMode
    governingNode writable 0 votes

/-- The statement `ret = append(votes[:i], votes[i+1:]...)`. The slice
`votes[:i]` has room for the copy, so the elements after `i` move one cell
down inside the array of `votes` and its last cell keeps what it held. Yields
`ret` and the cells of `votes` after the copy. -/
def appendInPlace (votes : List GovernanceVote) (i : Nat) :
    List GovernanceVote × List GovernanceVote :=
  let ret := votes.take i ++ votes.drop (i + 1)
  (ret, ret ++ votes.drop (votes.length - 1))

/-- The loop of `removeVotesFromRemovedNode`: `votes` are the cells of the
argument slice, whose length never changes, `i` is the index and `ret` the
slice to return. After a match `i--` and the `i++` of the loop cancel. -/
def removeVotesLoop (addr : Address) :
    Nat → List GovernanceVote → Nat → List GovernanceVote → Run (List GovernanceVote)
  | 0, _, _, _ => .error .outOfFuel
  | fuel + 1, votes, i, ret =>
    match votes.get? i with
    | none => pure ret
    | some vote =>
      if vote.Validator = addr then
        let (ret1, votes1) := appendInPlace votes i
        removeVotesLoop addr fuel votes1 i ret1
      else removeVotesLoop addr fuel votes (i + 1) ret

/-- The method `removeVotesFromRemovedNode`, with a budget of loop iterations. -/
def removeVotesFromRemovedNode (fuel : Nat) (votes : List GovernanceVote) (addr : Address) :
    Run (List GovernanceVote) :=
  removeVotesLoop addr fuel votes 0 votes

/-- The loop over the targets of an activated `RemoveValidator` list vote. -/
def removeValidatorsLoop (ops : ValidatorSet σ) (fuel : Nat) :
    List Address → σ → List GovernanceVote → Run (σ × List GovernanceVote)
  | [], valset, votes => pure (valset, votes)
  | target :: rest, valset, votes =>
    let valset := ops.RemoveValidator valset target
    match removeVotesFromRemovedNode fuel votes target with
    | .error e => .error e
    | .ok votes => removeValidatorsLoop ops fuel rest valset votes

/-- The first half of `addNewVote` (up to the `if`): the lookup of the caster,
the tally update and the activation test. Yields nothing when the caster is
not an active validator, else whether the vote activates, and the tally. -/
def addNewVoteTally (gov : Governance) (ops : ValidatorSet σ) (valset : σ)
    (tally : List GovernanceTallyItem) (gVote : GovernanceVote)
    (governanceMode : GovernanceModeInt) (governingNode : Address) :
    Run (Option (Bool × List GovernanceTallyItem)) :=
  match ops.GetByAddress valset gVote.Validator with
  | none => pure none
  | some v =>
    let vp := v.votingPower
    match changeGovernanceTally gov tally gVote.Key gVote.Value vp true with
    | .error e => .error e
    | .ok (currentVotes, tally) =>
      pure (some
        (isGovernanceModeSingleOrNone governanceMode governingNode gVote.Validator ||
          (governanceMode = .GovernanceMode_Ballot &&
            decide (currentVotes > ops.TotalVotingPower valset / 2)), tally))

/-- The `default` case of the `switch` in `addNewVote`. -/
def reflectIfWritable (gov : Governance) (gVote : GovernanceVote) (blockNum : Nat)
    (writable : Bool) : List Effect :=
  if writable && decide (blockNum > gov.lastGovernanceStateBlock) then
    [Effect.reflectVotes gVote]
  else []

/-- The second half of `addNewVote`: the `switch` an activated vote enters. -/
def applyActivatedVote (gov : Governance) (ops : ValidatorSet σ) (fuel : Nat) (valset : σ)
    (votes : List GovernanceVote) (tally : List GovernanceTallyItem) (gVote : GovernanceVote)
    (blockNum : Nat) (writable : Bool) : Run (Outcome σ) :=
  match gov.GovernanceKeyMap gVote.Key with
  | .AddValidator =>
    match gVote.Value with
    | .address addr => pure ⟨ops.AddValidator valset addr, votes, tally, []⟩
    | .addressList l => pure ⟨l.foldl ops.AddValidator valset, votes, tally, []⟩
    | .addressListNil => pure ⟨valset, votes, tally, []⟩
    | _ => .error .typeAssertion
  | .RemoveValidator =>
    match gVote.Value with
    | .address addr => pure ⟨ops.RemoveValidator valset addr, votes, tally, []⟩
    | .addressList l =>
      match removeValidatorsLoop ops fuel l valset votes with
      | .error e => .error e
      | .ok (valset, votes) => pure ⟨valset, votes, tally, []⟩
    | .addressListNil => pure ⟨valset, votes, tally, []⟩
    | _ => .error .typeAssertion
  | .Timeout =>
    match gVote.Value with
    | .uint64 timeout =>
      pure ⟨valset, votes, tally,
        Effect.storeTimeout timeout :: reflectIfWritable gov gVote blockNum writable⟩
    | _ => .error .typeAssertion
  | _ => pure ⟨valset, votes, tally, reflectIfWritable gov gVote blockNum writable⟩

/-- The method `addNewVote`, with a budget for the loops of
`removeVotesFromRemovedNode`. -/
def addNewVote (gov : Governance) (ops : ValidatorSet σ) (fuel : Nat) (valset : σ)
    (votes : List GovernanceVote) (tally : List GovernanceTallyItem) (gVote : GovernanceVote)
    (governanceMode : GovernanceModeInt) (governingNode : Address) (blockNum : Nat)
    (writable : Bool) : Run (Outcome σ) :=
  match addNewVoteTally gov ops valset tally gVote governanceMode governingNode with
  | .error e => .error e
  | .ok none => pure ⟨valset, votes, tally, []⟩
  | .ok (some (true, tally)) =>
    applyActivatedVote gov ops fuel valset votes tally gVote blockNum writable
  | .ok (some (false, tally)) => pure ⟨valset, votes, tally, []⟩

/-- The addresses `HandleGovernanceVote` checks for a vote on `AddValidator`
or `RemoveValidator`. -/
def listedAddresses : Value → List Address
  | .address addr => [addr]
  | .addressList addrs => addrs
  | _ => []

/-- The effect of the two calls of `removeDuplicatedVote`, which are made when
the node is write-enabled and is the proposer. -/
def removeDuplicatedIfOwn (gVote : GovernanceVote) (number : Nat) (proposer self : Address)
    (writable : Bool) : List Effect :=
  if writable && decide (proposer = self) then [Effect.removeDuplicatedVote gVote number]
  else []

/-- The three steps `HandleGovernanceVote` takes for a valid vote: supersede
the previous vote (`removePreviousVote`), append the new vote to the log, tally
it (`addNewVote`). -/
def castVote (gov : Governance) (ops : ValidatorSet σ) (fuel : Nat) (valset : σ)
    (votes : List GovernanceVote) (tally : List GovernanceTallyItem) (proposer : Address)
    (gVote : GovernanceVote) (governanceMode : GovernanceModeInt) (governingNode : Address)
    (number : Nat) (writable : Bool) : Run (Outcome σ) :=
  match removePreviousVote gov ops valset votes tally proposer gVote governanceMode
      governingNode writable with
  | .error e => .error e
  | .ok (votes, tally, effects1) =>
    let votes := votes ++ [gVote]
    match addNewVote gov ops fuel valset votes tally gVote governanceMode governingNode
        number writable with
    | .error e => .error e
    | .ok o => pure ⟨o.valset, o.votes, o.tally, effects1 ++ o.effects⟩

/-- The last statement of `HandleGovernanceVote` before it returns: the import
of the votes and the tally into the snapshot storage. -/
def persistOutcome (gov : Governance) (number : Nat) (writable : Bool) (o : Outcome σ) :
    Outcome σ :=
  if writable && decide (number > gov.lastGovernanceStateBlock) then
    ⟨o.valset, o.votes, o.tally,
      o.effects ++ [Effect.importVotes o.votes, Effect.importTallies o.tally]⟩
  else o

/-- The part of `HandleGovernanceVote` from `number := ...` on: validation,
the three steps of a valid vote, and the import of the new state. -/
def processVote (gov : Governance) (ops : ValidatorSet σ) (fuel : Nat) (valset : σ)
    (votes : List GovernanceVote) (tally : List GovernanceTallyItem) (header : Header)
    (gVote : GovernanceVote) (proposer self : Address) (writable : Bool) : Run (Outcome σ) :=
  let number := header.Number % uint64Size
  match ValidateVote gov gVote with
  | .error e => .error e
  | .ok (gVote, true) =>
    match castVote gov ops fuel valset votes tally proposer gVote gov.governanceMode
        gov.governingNode number writable with
    | .error e => .error e
    | .ok o =>
      pure (persistOutcome gov number writable ⟨o.valset, o.votes, o.tally,
        o.effects ++
          removeDuplicatedIfOwn gVote (header.Number % uint64Size) self proposer writable⟩)
  | .ok (_, false) => pure (persistOutcome gov number writable ⟨valset, votes, tally, []⟩)

/-- The loop of `HandleGovernanceVote` over the listed addresses: whether one
of them fails `checkVote`. -/
def anyInadmissible (ops : ValidatorSet σ) (valset : σ) (isAdd : Bool) : List Address → Bool
  | [] => false
  | address :: rest =>
    if !checkVote ops address isAdd valset then true
    else anyInadmissible ops valset isAdd rest

/-- The method `HandleGovernanceVote`, with a budget for the loops of
`removeVotesFromRemovedNode`. -/
def HandleGovernanceVote (gov : Governance) (ops : ValidatorSet σ) (fuel : Nat) (valset : σ)
    (votes : List GovernanceVote) (tally : List GovernanceTallyItem) (header : Header)
    (proposer self : Address) (writable : Bool) : Run (Outcome σ) :=
  match header.Vote with
  | .empty => pure ⟨valset, votes, tally, []⟩
  | .undecodable => pure ⟨valset, votes, tally, []⟩
  | .unparsable => pure ⟨valset, votes, tally, []⟩
  | .parsed gVote =>
    if gov.GovernanceForbiddenKeyMap gVote.Key then pure ⟨valset, votes, tally, []⟩
    else
      let key := gov.GovernanceKeyMap gVote.Key
      match key with
      | .GoverningNode =>
        match gVote.Value with
        | .address v =>
          if (ops.GetByAddress valset v).isNone then pure ⟨valset, votes, tally, []⟩
          else processVote gov ops fuel valset votes tally header gVote proposer self writable
        | _ => pure ⟨valset, votes, tally, []⟩
      | .AddValidator =>
        if anyInadmissible ops valset true (listedAddresses gVote.Value) then
          pure ⟨valset, votes, tally,
            removeDuplicatedIfOwn gVote (header.Number % uint64Size) proposer self writable⟩
        else processVote gov ops fuel valset votes tally header gVote proposer self writable
      | .RemoveValidator =>
        if anyInadmissible ops valset false (listedAddresses gVote.Value) then
          pure ⟨valset, votes, tally,
            removeDuplicatedIfOwn gVote (header.Number % uint64Size) proposer self writable⟩
        else processVote gov ops fuel valset votes tally header gVote proposer self writable
      | _ => processVote gov ops fuel valset votes tally header gVote proposer self writable

end Engine

/-! ## A list-backed validator set -/

/-- Modelled from the spec: the container behind `istanbul.ValidatorSet` is
declared outside the given sources; an ordered list of active validators plus
the demoted ones, and the voting power a validator starts with when it is
added. -/
structure Council where
  validators : List Validator
  demoted : List Validator
  initialPower : Nat
  deriving DecidableEq, Repr

/-- The first validator of a list with the given address. -/
def findValidator (l : List Validator) (addr : Address) : Option Validator :=
  l.find? (fun v => v.address = addr)

/-- Modelled from the spec: the methods of the list-backed set. Adding puts an
absent address among the active validators, removing takes the address out of
both lists, and the total voting power is the sum over the active validators. -/
def councilOps : ValidatorSet Council where
  GetByAddress := fun c addr => findValidator c.validators addr
  GetDemotedByAddress := fun c addr => findValidator c.demoted addr
  AddValidator := fun c addr =>
    if (findValidator c.validators addr).isSome || (findValidator c.demoted addr).isSome then c
    else ⟨c.validators ++ [⟨addr, c.initialPower⟩], c.demoted, c.initialPower⟩
  RemoveValidator := fun c addr =>
    ⟨c.validators.filter (fun v => v.address ≠ addr),
      c.demoted.filter (fun v => v.address ≠ addr), c.initialPower⟩
  TotalVotingPower := fun c => (c.validators.map (fun v => v.votingPower)).sum % uint64Size

/-! ## Notions the properties are stated with -/

/-- Whether an entry of a key-keyed input map is acceptable: its key is in the
type registry and `ParseValue` of that key accepts its value. -/
def entryAccepted (key : GovParamKey) (value : Value) : Bool :=
  match govParamTypes key with
  | none => false
  | some ty =>
    match ty.ParseValue value with
    | .ok (_, ok) => ok
    | .error _ => false

/-- The canonical value `ParseValue` of the key yields for a value. -/
def parsedValue (key : GovParamKey) (value : Value) : Value :=
  match govParamTypes key with
  | none => .nil
  | some ty =>
    match ty.ParseValue value with
    | .ok (x, _) => x
    | .error _ => .nil

/-- Whether an entry of a name-keyed input map is acceptable: its name is in
the name table and the entry is acceptable under the key it resolves to. -/
def namedEntryAccepted (name : String) (value : Value) : Bool :=
  match mapGet govParamNames name with
  | none => false
  | some key => entryAccepted key value

/-- The key a name resolves to, for names of the name table. -/
def resolvedKey (name : String) : GovParamKey :=
  (mapGet govParamNames name).getD (.unnamed 0)

/-- An item has the canonical type registered for its key and passes the
semantic validator of the key. -/
def validItem (key : GovParamKey) (value : Value) : Prop :=
  ∃ ty, govParamTypes key = some ty ∧ ty.canonicalType = typeOf value ∧
    ty.Validate value = .ok true

/-- The items of a set are valid and have pairwise distinct keys. -/
def wellFormedItems (items : List (GovParamKey × Value)) : Prop :=
  (∀ e ∈ items, validItem e.1 e.2) ∧ (mapKeys items).Nodup

/-- A parameter set that one of the four builders returned. -/
def builtByBuilder (p : GovParamSet) : Prop :=
  p = NewGovParamSet ∨
  (∃ items, NewGovParamSetIntMap items = .ok (.ok p)) ∨
  (∃ items, NewGovParamSetStrMap items = .ok (.ok p)) ∨
  (∃ config, NewGovParamSetChainConfig config = .ok (.ok p))

/-- Whether an address is present in the validator set, as an active or as a
demoted validator. -/
def presentInSet {σ : Type} (ops : ValidatorSet σ) (valset : σ) (addr : Address) : Bool :=
  (ops.GetByAddress valset addr).isSome || (ops.GetDemotedByAddress valset addr).isSome

/-- Whether the target of a `GoverningNode` vote is an address of an active
validator. -/
def governingNodeTargetActive {σ : Type} (ops : ValidatorSet σ) (valset : σ) : Value → Bool
  | .address v => (ops.GetByAddress valset v).isSome
  | _ => false

/-- The gates at which the vote of a header is rejected: no vote or one that
does not decode, a forbidden key, a `GoverningNode` target that is not an
active validator, an inadmissible target of `AddValidator` or
`RemoveValidator`, or a verdict of `ValidateVote` that is not ok. -/
def rejectsVote {σ : Type} (gov : Governance) (ops : ValidatorSet σ) (valset : σ)
    (header : Header) : Bool :=
  match header.Vote with
  | .empty => true
  | .undecodable => true
  | .unparsable => true
  | .parsed gVote =>
    gov.GovernanceForbiddenKeyMap gVote.Key ||
    (decide (gov.GovernanceKeyMap gVote.Key = .GoverningNode) &&
      !governingNodeTargetActive ops valset gVote.Value) ||
    (decide (gov.GovernanceKeyMap gVote.Key = .AddValidator) &&
      (listedAddresses gVote.Value).any (fun a => !checkVote ops a true valset)) ||
    (decide (gov.GovernanceKeyMap gVote.Key = .RemoveValidator) &&
      (listedAddresses gVote.Value).any (fun a => !checkVote ops a false valset)) ||
    (match ValidateVote gov gVote with
      | .ok (_, ok) => !ok
      | .error _ => false)

/-- The accumulated voting power of a (key, value) pair in a tally: the votes
of the first entry that `changeGovernanceTally` matches with the pair, or
nothing when no entry matches. -/
def tallyPower (gov : Governance) (key : String) (value : Value) :
    List GovernanceTallyItem → Run (Option Nat)
  | [] => pure none
  | v :: rest =>
    let equal : Run Bool :=
      if v.Key = key then isEqualValue (gov.GovernanceKeyMap key) v.Value value
      else pure false
    match equal with
    | .error e => .error e
    | .ok true => pure (some v.Votes)
    | .ok false => tallyPower gov key value rest

/-- Whether a vote of the log was cast by `validator` for the key `key`: the
test of `removePreviousVote`. -/
def castBy (validator : Address) (key : String) (vote : GovernanceVote) : Bool :=
  decide (vote.Validator = validator) && decide (vote.Key = key)

/-- Whether `changeGovernanceTally` matches a tally entry with a (key, value)
pair. -/
def matchesPair (gov : Governance) (key : String) (value : Value)
    (e : GovernanceTallyItem) : Bool :=
  match (if e.Key = key then isEqualValue (gov.GovernanceKeyMap key) e.Value value
    else pure false) with
  | .ok b => b
  | .error _ => false

/-- Rewrites the votes of the first entry that `m` selects with `f`, dropping
the entry when no votes are left; yields the new votes and the new list, or
nothing when `m` selects no entry. -/
def adjustFirst (m : GovernanceTallyItem → Bool) (f : Nat → Nat) :
    List GovernanceTallyItem → Option (Nat × List GovernanceTallyItem)
  | [] => none
  | e :: rest =>
    if m e then
      some (f e.Votes, if f e.Votes = 0 then rest else ⟨e.Key, e.Value, f e.Votes⟩ :: rest)
    else (adjustFirst m f rest).map (fun r => (r.1, e :: r.2))

/-- What `changeGovernanceTally` returns when the power `vp` is added to a
pair: the votes the pair then holds, and the tally. -/
def addedResult (gov : Governance) (key : String) (value : Value) (vp : Nat)
    (tally : List GovernanceTallyItem) : Nat × List GovernanceTallyItem :=
  match adjustFirst (matchesPair gov key value) (fun q => addU64 q vp) tally with
  | some r => r
  | none => (vp, tally ++ [⟨key, value, vp⟩])

/-- The activation test of `addNewVote` for a caster and the votes its pair
holds. -/
def activationTest {σ : Type} (ops : ValidatorSet σ) (valset : σ)
    (governanceMode : GovernanceModeInt) (governingNode : Address) (voter : Address)
    (currentVotes : Nat) : Bool :=
  isGovernanceModeSingleOrNone governanceMode governingNode voter ||
    (governanceMode = .GovernanceMode_Ballot &&
      decide (currentVotes > ops.TotalVotingPower valset / 2))

/-- The tally after the power `vp` has been added to a pair: the entry of the
pair gains `vp` votes in `uint64` arithmetic (and is dropped if that leaves
zero); a tally without an entry for the pair gets a new last entry. -/
def addedTally (gov : Governance) (key : String) (value : Value) (vp : Nat)
    (tally : List GovernanceTallyItem) : List GovernanceTallyItem :=
  match adjustFirst (matchesPair gov key value) (fun q => addU64 q vp) tally with
  | some r => r.2
  | none => tally ++ [⟨key, value, vp⟩]

/-- The tally after the power `vp` has been taken from the entry of a pair: the
entry loses `vp` votes, not going below zero, and is dropped when it is left
with none; a tally without an entry for the pair stays as it is. -/
def reducedTally (gov : Governance) (key : String) (value : Value) (vp : Nat)
    (tally : List GovernanceTallyItem) : List GovernanceTallyItem :=
  match adjustFirst (matchesPair gov key value) (fun q => q - vp) tally with
  | some r => r.2
  | none => tally

/-! ## A sample environment -/

/-- A name table for the sample environment: the names of the external
interface, and names of the same pattern for the validator-set keys and the
timeout. An absent name yields `GovernanceMode`, standing for the integer
zero. -/
def sampleKeyMap (name : String) : GovParamKey :=
  match mapGet govParamNames name with
  | some key => key
  | none =>
    if name = "governance.addvalidator" then .AddValidator
    else if name = "governance.removevalidator" then .RemoveValidator
    else if name = "istanbul.timeout" then .Timeout
    else .GovernanceMode

/-- A sample environment with the given mode and governing node: no forbidden
key, names normalised by lower-casing and trimming. -/
def sampleGov (mode : GovernanceModeInt) (node : Address) : Governance where
  GovernanceKeyMap := sampleKeyMap
  GovernanceForbiddenKeyMap := fun _ => false
  getKey := fun k => stringsTrimSpace (stringsToLower k)
  governanceMode := mode
  governingNode := node
  lastGovernanceStateBlock := 0

/-- A council of active validators with voting power 1 each. -/
def unitCouncil (addrs : List Address) : Council :=
  ⟨addrs.map (fun a => ⟨a, 1⟩), [], 1⟩

/-! ## Further notions the properties are stated with -/

/-- At most one entry per (key, value) pair: no entry of the tally is matched
by `changeGovernanceTally` with the key and the value of an entry further down
the list. -/
def uniquePairs (gov : Governance) (tally : List GovernanceTallyItem) : Prop :=
  tally.Pairwise (fun a b => matchesPair gov b.Key b.Value a = false)

/-- Whether no comparison that `changeGovernanceTally` makes with the value can
panic: the value is no address slice, or the key is registered with the address
type. -/
def comparableUnder (gov : Governance) (key : String) (value : Value) : Bool :=
  decide (typeOf value ≠ .addressSliceT) ||
    decide (itemType (gov.GovernanceKeyMap key) = .addressT)

/-- The big-endian value of a byte string in the words of the specification:
the sum of `b[i] * 256 ^ (len(b) - 1 - i)` over the indices `i` of `b`. -/
def bigEndianValue (b : List Nat) : Nat :=
  ((List.range b.length).map (fun i => b.getD i 0 * 256 ^ (b.length - 1 - i))).sum

/-- Modelled from the spec: the integers of the key constants are declared
outside the given sources. The constants form an enumeration that every table
of the sources lists from `GovernanceMode` on, so `GovernanceMode` is taken for
the integer zero, the value a one-result map lookup yields for an absent name. -/
def zeroKey : GovParamKey := .GovernanceMode

/-- The entries of the name table of the sample environment: the names of the
external interface, and names of the same pattern for the validator-set keys
and the timeout. -/
def sampleKeyEntries : List (String × GovParamKey) :=
  govParamNames ++
    [("governance.addvalidator", .AddValidator),
     ("governance.removevalidator", .RemoveValidator),
     ("istanbul.timeout", .Timeout)]

/-- The one-result lookup `m[name]` in a name table: an absent name yields
`zero`, the key whose integer is zero. -/
def lookupKey (entries : List (String × GovParamKey)) (zero : GovParamKey) (name : String) :
    GovParamKey :=
  (mapGet entries name).getD zero

/-- The sample environment under a numbering of the keys in which `zero` is the
key whose integer is zero. -/
def sampleGovWith (zero : GovParamKey) : Governance where
  GovernanceKeyMap := lookupKey sampleKeyEntries zero
  GovernanceForbiddenKeyMap := fun _ => false
  getKey := fun k => stringsTrimSpace (stringsToLower k)
  governanceMode := .GovernanceMode_Ballot
  governingNode := 1
  lastGovernanceStateBlock := 0

/-- A value that the validator registered for a key accepts. -/
def sampleValue : GovParamKey → Value
  | .GovernanceMode => .str "single"
  | .GoverningNode => .address 1
  | .GovParamContract => .address 1
  | .AddValidator => .address 1
  | .RemoveValidator => .address 1
  | .MintingAmount => .str "1"
  | .MinimumStake => .str "1"
  | .Ratio => .str "100/0/0"
  | .Kip82Ratio => .str "50/50"
  | .UseGiniCoeff => .bool true
  | .DeferredTxFee => .bool true
  | _ => .uint64 1

/-- The reward section of a configuration, when the governance section and its
reward section are present. -/
def rewardSection (config : ChainConfig) : Option RewardConfig :=
  match config.Governance with
  | some g => g.Reward
  | none => none

/-- The configuration field a key is read from, in the words of the claim:
the unit price always; epoch, policy and committee size from the Istanbul
section; governing node and governance mode from the governance section; the
reward keys from the reward section, the two big integers as their decimal
text and only when they are not nil; no field for any other key. -/
def configField (config : ChainConfig) : GovParamKey → Option Value
  | .UnitPrice => some (.uint64 config.UnitPrice)
  | .Epoch => config.Istanbul.map (fun ist => .uint64 ist.Epoch)
  | .Policy => config.Istanbul.map (fun ist => .uint64 ist.ProposerPolicy)
  | .CommitteeSize => config.Istanbul.map (fun ist => .uint64 ist.SubGroupSize)
  | .GoverningNode => config.Governance.map (fun g => .address g.GoverningNode)
  | .GovernanceMode => config.Governance.map (fun g => .str g.GovernanceMode)
  | .Ratio => (rewardSection config).map (fun r => .str r.Ratio)
  | .UseGiniCoeff => (rewardSection config).map (fun r => .bool r.UseGiniCoeff)
  | .DeferredTxFee => (rewardSection config).map (fun r => .bool r.DeferredTxFee)
  | .StakeUpdateInterval =>
    (rewardSection config).map (fun r => .uint64 r.StakingUpdateInterval)
  | .ProposerRefreshInterval =>
    (rewardSection config).map (fun r => .uint64 r.ProposerUpdateInterval)
  | .MintingAmount =>
    match rewardSection config with
    | some r => r.MintingAmount.map (fun n => .str (bigString n))
    | none => none
  | .MinimumStake =>
    match rewardSection config with
    | some r => r.MinimumStake.map (fun n => .str (bigString n))
    | none => none
  | _ => none

/-- Modelled from the spec: `NewGovParamSetMerged` is declared outside the given
sources; a merge produces a new set containing the keys of `base`, each key in
`update` replacing the identical key of `base`, and mutates neither input. -/
def NewGovParamSetMerged (base update : GovParamSet) : GovParamSet :=
  ⟨update.items.foldl (fun m e => mapSet m e.1 e.2)
    (base.items.foldl (fun m e => mapSet m e.1 e.2) [])⟩

/-- The number of halvings that bring a number below `2 ^ 53`, within a budget. -/
def excessBits (n : Nat) : Nat → Nat
  | 0 => 0
  | fuel + 1 => if n < 2 ^ 53 then 0 else 1 + excessBits (n / 2) fuel

/-- The conversion `float64(n)` of an unsigned 64-bit integer, which is also what
reading the decimal text of `n` as a `float64` yields: `n` itself below
`2 ^ 53`, else the nearest value with a mantissa of 53 bits, a tie going to the
even mantissa. -/
def Float64.ofUint64 (n : Nat) : Float64 :=
  let e := excessBits n 64
  let q := n / 2 ^ e
  let r := n % 2 ^ e
  if 2 * r > 2 ^ e ∨ (2 * r = 2 ^ e ∧ q % 2 = 1) then .finite false (q + 1) (Int.ofNat e)
  else .finite false q (Int.ofNat e)

/-- Whether a `float64` holds an unsigned 64-bit integer exactly: the bits below
its leading 53 bits are zero. -/
def exactInFloat64 (n : Nat) : Bool :=
  n % 2 ^ excessBits n 64 == 0

/-- The lower-case hexadecimal digit of a number below 16. -/
def hexDigitChar (d : Nat) : Char :=
  if d < 10 then Char.ofNat ('0'.toNat + d) else Char.ofNat ('a'.toNat + (d - 10))

/-- The last `k` hexadecimal digits of a number, most significant first. -/
def hexDigitsOf : Nat → Nat → List Char
  | 0, _ => []
  | k + 1, a => hexDigitsOf k (a / 16) ++ [hexDigitChar (a % 16)]

/-- Modelled from the spec: the text form of `common.Address` is declared outside
the given sources; in a JSON document an address is its hex string, the marker
`0x` and the 40 hexadecimal digits of its 20 bytes. -/
def addressHex (a : Address) : String :=
  String.mk ('0' :: 'x' :: hexDigitsOf (2 * AddressLength) a)

/-- What a cycle of `json.Marshal` and `json.Unmarshal` into a generic map makes
of a value of a parameter set: an unsigned integer comes back as a `float64`,
an address as its hex string, strings and booleans as they are. -/
def jsonCycleValue : Value → Value
  | .uint64 n => .float64 (Float64.ofUint64 n)
  | .address a => .str (addressHex a)
  | v => v

/-- Whether a value is within the reach of the JSON cycle: an unsigned integer is
a 64-bit value that a `float64` holds exactly, an address has 20 bytes. -/
def jsonExact : Value → Bool
  | .uint64 n => decide (n < 2 ^ 64) && exactInFloat64 n
  | .address a => decide (a < 2 ^ (8 * AddressLength))
  | _ => true

/-- The cycle of `json.Marshal` and `json.Unmarshal` on a name-keyed map. -/
def jsonCycle (m : List (String × Value)) : List (String × Value) :=
  m.map (fun e => (e.1, jsonCycleValue e.2))

/-- A sample vote value: the hex strings of two addresses, separated by a comma
and a blank. -/
def sampleAddressPair : String :=
  "0x0000000000000000000000000000000000000400, 0x0000000000000000000000000000000000000401"

/-- Whether a slice carries no sign: it does not begin with `+` or `-`. -/
def unsignedSlice (seg : String) : Bool :=
  match seg.data with
  | '+' :: _ => false
  | '-' :: _ => false
  | _ => true

/-- Whether a slice that `strconv.ParseUint` reads lies in the range of `int`;
a slice it does not read counts as within. -/
def withinIntRange (seg : String) : Bool :=
  match strconvParseUint seg with
  | some n => decide (n < 2 ^ 63)
  | none => true


/-! ## Properties -/

section Properties

variable {σ : Type}

@[simp] theorem run_pure {α : Type} (a : α) : (pure a : Except Err α) = Except.ok a := rfl

theorem anyInadmissible_eq_any (ops : ValidatorSet σ) (valset : σ) (isAdd : Bool)
    (l : List Address) :
    anyInadmissible ops valset isAdd l = l.any (fun a => !checkVote ops a isAdd valset) := by
  induction l with
  | nil => rfl
  | cons a rest ih =>
    simp only [anyInadmissible, List.any_cons, ih]
    cases checkVote ops a isAdd valset <;> simp

theorem checkVote_iff (ops : ValidatorSet σ) (valset : σ) (addr : Address) (isAdd : Bool) :
    checkVote ops addr isAdd valset = true ↔ presentInSet ops valset addr ≠ isAdd := by
  unfold checkVote presentInSet
  cases h1 : ops.GetByAddress valset addr <;> cases h2 : ops.GetDemotedByAddress valset addr <;>
    cases isAdd <;> simp

theorem processVote_invalid (gov : Governance) (ops : ValidatorSet σ) (fuel : Nat) (valset : σ)
    (votes : List GovernanceVote) (tally : List GovernanceTallyItem) (header : Header)
    (gVote g1 : GovernanceVote) (proposer self : Address) (writable : Bool)
    (h : ValidateVote gov gVote = .ok (g1, false)) :
    ∃ effects, processVote gov ops fuel valset votes tally header gVote proposer self writable =
      .ok ⟨valset, votes, tally, effects⟩ := by
  unfold processVote
  simp only [h, persistOutcome]
  split <;> exact ⟨_, rfl⟩

theorem handle_parsed_cases (gov : Governance) (ops : ValidatorSet σ) (fuel : Nat) (valset : σ)
    (votes : List GovernanceVote) (tally : List GovernanceTallyItem) (header : Header)
    (gVote : GovernanceVote) (proposer self : Address) (writable : Bool)
    (hv : header.Vote = .parsed gVote) :
    (∃ effects, HandleGovernanceVote gov ops fuel valset votes tally header proposer self
      writable = .ok ⟨valset, votes, tally, effects⟩) ∨
    HandleGovernanceVote gov ops fuel valset votes tally header proposer self writable =
      processVote gov ops fuel valset votes tally header gVote proposer self writable := by
  unfold HandleGovernanceVote
  simp only [hv]
  repeat' split
  all_goals first
    | exact Or.inr rfl
    | exact Or.inl ⟨_, rfl⟩

/-- Claim C8. `checkVote` holds exactly when the presence of the address in the
validator set (active or demoted) differs from `isAdd`; so a vote on
`AddValidator` listing an address that is present, or on `RemoveValidator`
listing an address that is absent, makes `HandleGovernanceVote` return the
validator set, the vote log and the tally it was given. -/
theorem checkVote_admissibility (gov : Governance) (ops : ValidatorSet σ) (fuel : Nat)
    (valset : σ) (votes : List GovernanceVote) (tally : List GovernanceTallyItem)
    (number : Nat) (gVote : GovernanceVote) (proposer self : Address) (writable : Bool)
    (addr : Address) (isAdd : Bool)
    (hkey : gov.GovernanceKeyMap gVote.Key =
      if isAdd then GovParamKey.AddValidator else GovParamKey.RemoveValidator)
    (hmem : addr ∈ listedAddresses gVote.Value)
    (hbad : presentInSet ops valset addr = isAdd) :
    (∀ a b, checkVote ops a b valset = true ↔ presentInSet ops valset a ≠ b) ∧
    ∃ effects, HandleGovernanceVote gov ops fuel valset votes tally ⟨.parsed gVote, number⟩
      proposer self writable = .ok ⟨valset, votes, tally, effects⟩ := by
  refine ⟨fun a b => checkVote_iff ops valset a b, ?_⟩
  have hfail : checkVote ops addr isAdd valset = false := by
    cases hc : checkVote ops addr isAdd valset
    · rfl
    · exact absurd hbad ((checkVote_iff ops valset addr isAdd).1 hc)
  have hany : anyInadmissible ops valset isAdd (listedAddresses gVote.Value) = true := by
    rw [anyInadmissible_eq_any]
    exact List.any_eq_true.2 ⟨addr, hmem, by simp [hfail]⟩
  unfold HandleGovernanceVote
  by_cases hf : gov.GovernanceForbiddenKeyMap gVote.Key = true
  · exact ⟨[], by simp [hf]⟩
  · cases isAdd
    · simp only [Bool.false_eq_true, if_false] at hkey
      exact ⟨removeDuplicatedIfOwn gVote (number % uint64Size) proposer self writable,
        by simp [hf, hkey, hany]⟩
    · simp only [if_true] at hkey
      exact ⟨removeDuplicatedIfOwn gVote (number % uint64Size) proposer self writable,
        by simp [hf, hkey, hany]⟩

theorem checkVote_admissibility_witness :
    ∃ effects, HandleGovernanceVote (sampleGov .GovernanceMode_Ballot 1) councilOps 10
      (unitCouncil [1, 2, 3]) [] [] ⟨.parsed ⟨1, "governance.addvalidator", .address 2⟩, 5⟩
      1 1 false = .ok ⟨unitCouncil [1, 2, 3], [], [], effects⟩ :=
  (checkVote_admissibility (sampleGov .GovernanceMode_Ballot 1) councilOps 10
    (unitCouncil [1, 2, 3]) [] [] 5 ⟨1, "governance.addvalidator", .address 2⟩ 1 1 false 2 true
    (by decide) (by decide) (by decide)).2

/-- Claim C9. Whenever `HandleGovernanceVote` rejects the vote of the header at
one of its gates, it returns the validator set, the vote log and the tally it
was given. -/
theorem rejection_is_noop (gov : Governance) (ops : ValidatorSet σ) (fuel : Nat) (valset : σ)
    (votes : List GovernanceVote) (tally : List GovernanceTallyItem) (header : Header)
    (proposer self : Address) (writable : Bool)
    (hrej : rejectsVote gov ops valset header = true) :
    ∃ effects, HandleGovernanceVote gov ops fuel valset votes tally header proposer self
      writable = .ok ⟨valset, votes, tally, effects⟩ := by
  unfold HandleGovernanceVote
  unfold rejectsVote at hrej
  cases hv : header.Vote with
  | empty => exact ⟨[], rfl⟩
  | undecodable => exact ⟨[], rfl⟩
  | unparsable => exact ⟨[], rfl⟩
  | parsed gVote =>
    simp only [hv] at hrej
    by_cases hf : gov.GovernanceForbiddenKeyMap gVote.Key = true
    · exact ⟨[], by simp [hf]⟩
    · simp only [hf, if_false]
      simp only [Bool.not_eq_true] at hf
      simp only [hf, Bool.false_or, Bool.or_eq_true, Bool.and_eq_true, decide_eq_true_eq,
        ← anyInadmissible_eq_any] at hrej
      have hproc : (∃ g1, ValidateVote gov gVote = .ok (g1, false)) →
          ∃ effects, processVote gov ops fuel valset votes tally header gVote proposer self
            writable = .ok ⟨valset, votes, tally, effects⟩ :=
        fun ⟨g1, h⟩ => processVote_invalid gov ops fuel valset votes tally header gVote g1
          proposer self writable h
      have hval : (match ValidateVote gov gVote with
            | .ok (_, ok) => !ok
            | .error _ => false) = true → ∃ g1, ValidateVote gov gVote = .ok (g1, false) := by
        intro h
        cases hvv : ValidateVote gov gVote with
        | error e => simp [hvv] at h
        | ok r =>
          obtain ⟨g1, ok⟩ := r
          cases ok
          · exact ⟨g1, rfl⟩
          · simp [hvv] at h
      rcases hrej with (((hgn | hadd) | hrem) | hinv)
      · obtain ⟨hk, ht⟩ := hgn
        simp only [hk]
        cases hval2 : gVote.Value <;> simp_all [governingNodeTargetActive]
      · obtain ⟨hk, ht⟩ := hadd
        exact ⟨removeDuplicatedIfOwn gVote (header.Number % uint64Size) proposer self writable,
          by simp [hk, ht]⟩
      · obtain ⟨hk, ht⟩ := hrem
        exact ⟨removeDuplicatedIfOwn gVote (header.Number % uint64Size) proposer self writable,
          by simp [hk, ht]⟩
      · have hp := hproc (hval hinv)
        have hcases := handle_parsed_cases gov ops fuel valset votes tally header gVote
          proposer self writable hv
        unfold HandleGovernanceVote at hcases
        simp only [hv, hf, Bool.false_eq_true, if_false] at hcases
        rcases hcases with h | h
        · exact h
        · rw [h]; exact hp

theorem rejection_is_noop_witness :
    ∃ effects, HandleGovernanceVote (sampleGov .GovernanceMode_Ballot 1) councilOps 10
      (unitCouncil [1, 2, 3]) [⟨2, "istanbul.epoch", .uint64 7⟩] [⟨"istanbul.epoch", .uint64 7, 1⟩]
      ⟨.parsed ⟨1, "reward.ratio", .str "50/50/1"⟩, 5⟩ 1 1 true =
      .ok ⟨unitCouncil [1, 2, 3], [⟨2, "istanbul.epoch", .uint64 7⟩],
        [⟨"istanbul.epoch", .uint64 7, 1⟩], effects⟩ :=
  rejection_is_noop (sampleGov .GovernanceMode_Ballot 1) councilOps 10
    (unitCouncil [1, 2, 3]) [⟨2, "istanbul.epoch", .uint64 7⟩] [⟨"istanbul.epoch", .uint64 7, 1⟩]
    ⟨.parsed ⟨1, "reward.ratio", .str "50/50/1"⟩, 5⟩ 1 1 true (by decide)

theorem validateVote_checked (gov : Governance) (g0 gVote : GovernanceVote)
    (h : ValidateVote gov g0 = .ok (gVote, true)) :
    checkKey gov gVote.Key = true ∧
      checkValueType gVote.Value (itemType (gov.GovernanceKeyMap gVote.Key)) = true := by
  unfold ValidateVote at h
  simp only at h
  split at h
  · rename_i hc
    simp only [Bool.and_eq_true] at hc
    split at h
    · cases h
    · split at h
      · cases h
      · simp only [run_pure, Except.ok.injEq, Prod.mk.injEq] at h
        obtain ⟨hg, _⟩ := h
        subst hg
        exact hc
  · simp at h

theorem isEqualValue_total (k : GovParamKey) (v1 v2 : Value)
    (h : checkValueType v2 (itemType k) = true) : ∃ b, isEqualValue k v1 v2 = .ok b := by
  unfold isEqualValue
  split
  · exact ⟨_, rfl⟩
  · rename_i hty
    simp only [ne_eq, Decidable.not_not] at hty
    split
    · split <;> exact ⟨_, rfl⟩
    · rename_i hk
      unfold interfaceEq
      simp only [hty, ne_eq, not_true_eq_false, if_false]
      cases v1 <;> cases v2 <;> simp_all [typeOf, checkValueType] <;>
        (cases hit : itemType k <;> simp_all [checkValueType, typeOf])

/-- The votes an entry holds after `changeGovernanceTally` has matched it. -/
theorem changeGovernanceTallyLoop_spec (gov : Governance) (tally : List GovernanceTallyItem)
    (key : String) (value : Value) (vp : Nat) (isAdd : Bool)
    (hE : ∀ v1, ∃ b, isEqualValue (gov.GovernanceKeyMap key) v1 value = .ok b) :
    ∀ (rest : List GovernanceTallyItem) (idx : Nat),
      ∃ r, tallyPower gov key value rest = .ok r ∧
        match r with
        | none => changeGovernanceTallyLoop gov tally key value vp isAdd idx rest = .ok none
        | some p => ∃ ret, changeGovernanceTallyLoop gov tally key value vp isAdd idx rest =
            .ok (some ((if isAdd then addU64 p vp else if p > vp then p - vp else 0), ret)) := by
  intro rest
  induction rest with
  | nil => intro idx; exact ⟨none, rfl, rfl⟩
  | cons v rest ih =>
    intro idx
    unfold tallyPower changeGovernanceTallyLoop
    by_cases hk : v.Key = key
    · obtain ⟨b, hb⟩ := hE v.Value
      simp only [hk, if_true, hb]
      cases b
      · simpa using ih (idx + 1)
      · exact ⟨some v.Votes, rfl, _, rfl⟩
    · simp only [hk, if_false, run_pure]
      simpa using ih (idx + 1)

theorem lt_two_mul_iff_half_lt (cv total : Nat) : total / 2 < cv ↔ total < 2 * cv := by
  omega

/-- Claim C1. In Ballot mode, for a valid vote cast by an active validator,
`addNewVote` activates the (key, value) pair exactly when twice the power
accumulated for the pair, the caster's power included, exceeds the total voting
power of the set; at exactly half it does not activate. -/
theorem ballot_threshold (gov : Governance) (ops : ValidatorSet σ) (valset : σ)
    (tally : List GovernanceTallyItem) (g0 gVote : GovernanceVote) (v : Validator)
    (governingNode : Address)
    (hvalid : ValidateVote gov g0 = .ok (gVote, true))
    (hin : ops.GetByAddress valset gVote.Validator = some v) :
    ∃ prior power tally1,
      tallyPower gov gVote.Key gVote.Value tally = .ok prior ∧
      power = (match prior with
        | some p => addU64 p v.votingPower
        | none => v.votingPower) ∧
      addNewVoteTally gov ops valset tally gVote .GovernanceMode_Ballot governingNode =
        .ok (some (decide (ops.TotalVotingPower valset < 2 * power), tally1)) ∧
      (2 * power = ops.TotalVotingPower valset →
        addNewVoteTally gov ops valset tally gVote .GovernanceMode_Ballot governingNode =
          .ok (some (false, tally1))) ∧
      ∀ (fuel : Nat) (votes : List GovernanceVote) (blockNum : Nat) (writable : Bool),
        addNewVote gov ops fuel valset votes tally gVote .GovernanceMode_Ballot governingNode
            blockNum writable =
          if ops.TotalVotingPower valset < 2 * power then
            applyActivatedVote gov ops fuel valset votes tally1 gVote blockNum writable
          else .ok ⟨valset, votes, tally1, []⟩ := by
  have hE : ∀ v1, ∃ b, isEqualValue (gov.GovernanceKeyMap gVote.Key) v1 gVote.Value = .ok b :=
    fun v1 => isEqualValue_total _ v1 _ (validateVote_checked gov g0 gVote hvalid).2
  have key : ∃ prior power tally1,
      tallyPower gov gVote.Key gVote.Value tally = .ok prior ∧
      power = (match prior with
        | some p => addU64 p v.votingPower
        | none => v.votingPower) ∧
      changeGovernanceTally gov tally gVote.Key gVote.Value v.votingPower true =
        .ok (power, tally1) := by
    obtain ⟨prior, hprior, hloop⟩ :=
      changeGovernanceTallyLoop_spec gov tally gVote.Key gVote.Value v.votingPower true hE tally 0
    unfold changeGovernanceTally
    cases prior with
    | none =>
      simp only at hloop
      exact ⟨none, v.votingPower,
        tally ++ [⟨gVote.Key, gVote.Value, v.votingPower⟩], hprior, rfl, by simp [hloop]⟩
    | some p =>
      obtain ⟨ret, hret⟩ := hloop
      exact ⟨some p, addU64 p v.votingPower, ret, hprior, rfl, by simp [hret]⟩
  obtain ⟨prior, power, tally1, hprior, hpow, hct⟩ := key
  have htally : addNewVoteTally gov ops valset tally gVote .GovernanceMode_Ballot governingNode =
      .ok (some (decide (ops.TotalVotingPower valset < 2 * power), tally1)) := by
    unfold addNewVoteTally
    simp only [hin, hct, isGovernanceModeSingleOrNone, run_pure]
    have hd : decide (power > ops.TotalVotingPower valset / 2) =
        decide (ops.TotalVotingPower valset < 2 * power) := by
      apply decide_eq_decide.2
      exact lt_two_mul_iff_half_lt power (ops.TotalVotingPower valset)
    simp [hd]
  refine ⟨prior, power, tally1, hprior, hpow, htally, ?_, ?_⟩
  · intro hhalf
    rw [htally]
    have : ¬ ops.TotalVotingPower valset < 2 * power := by omega
    simp [this]
  · intro fuel votes blockNum writable
    unfold addNewVote
    rw [htally]
    by_cases hlt : ops.TotalVotingPower valset < 2 * power
    · simp [hlt]
    · simp [hlt]

theorem ballot_threshold_witness :
    ∃ prior power tally1,
      tallyPower (sampleGov .GovernanceMode_Ballot 1) "governance.addvalidator" (.address 9)
        [⟨"governance.addvalidator", .address 9, 1⟩] = .ok prior ∧
      power = (match prior with
        | some p => addU64 p 1
        | none => 1) ∧
      addNewVoteTally (sampleGov .GovernanceMode_Ballot 1) councilOps (unitCouncil [1, 2, 3])
        [⟨"governance.addvalidator", .address 9, 1⟩] ⟨2, "governance.addvalidator", .address 9⟩
        .GovernanceMode_Ballot 1 =
        .ok (some (decide (councilOps.TotalVotingPower (unitCouncil [1, 2, 3]) < 2 * power),
          tally1)) ∧
      (2 * power = councilOps.TotalVotingPower (unitCouncil [1, 2, 3]) →
        addNewVoteTally (sampleGov .GovernanceMode_Ballot 1) councilOps (unitCouncil [1, 2, 3])
          [⟨"governance.addvalidator", .address 9, 1⟩]
          ⟨2, "governance.addvalidator", .address 9⟩ .GovernanceMode_Ballot 1 =
          .ok (some (false, tally1))) ∧
      ∀ (fuel : Nat) (votes : List GovernanceVote) (blockNum : Nat) (writable : Bool),
        addNewVote (sampleGov .GovernanceMode_Ballot 1) councilOps fuel (unitCouncil [1, 2, 3])
            votes [⟨"governance.addvalidator", .address 9, 1⟩]
            ⟨2, "governance.addvalidator", .address 9⟩ .GovernanceMode_Ballot 1
            blockNum writable =
          if councilOps.TotalVotingPower (unitCouncil [1, 2, 3]) < 2 * power then
            applyActivatedVote (sampleGov .GovernanceMode_Ballot 1) councilOps fuel
              (unitCouncil [1, 2, 3]) votes tally1 ⟨2, "governance.addvalidator", .address 9⟩
              blockNum writable
          else .ok ⟨unitCouncil [1, 2, 3], votes, tally1, []⟩ :=
  ballot_threshold (sampleGov .GovernanceMode_Ballot 1) councilOps (unitCouncil [1, 2, 3])
    [⟨"governance.addvalidator", .address 9, 1⟩] ⟨2, " Governance.AddValidator", .address 9⟩
    ⟨2, "governance.addvalidator", .address 9⟩ ⟨2, 1⟩ 1 (by decide) (by decide)

/-- Claim C7, the code at the failing input. Under mode None, validator 1 votes
to remove the single address 3: the vote activates and 3 leaves the validator
set, yet the vote that 3 cast earlier stays in the returned vote log. -/
theorem removeValidator_single_keeps_votes :
    addNewVote (sampleGov .GovernanceMode_None 1) councilOps 10 (unitCouncil [1, 2, 3])
      [⟨3, "istanbul.epoch", .uint64 5⟩, ⟨1, "governance.removevalidator", .address 3⟩]
      [⟨"istanbul.epoch", .uint64 5, 1⟩] ⟨1, "governance.removevalidator", .address 3⟩
      .GovernanceMode_None 1 5 false =
    .ok ⟨unitCouncil [1, 2],
      [⟨3, "istanbul.epoch", .uint64 5⟩, ⟨1, "governance.removevalidator", .address 3⟩],
      [⟨"istanbul.epoch", .uint64 5, 1⟩, ⟨"governance.removevalidator", .address 3, 1⟩], []⟩ ∧
    addNewVote (sampleGov .GovernanceMode_None 1) councilOps 10 (unitCouncil [1, 2, 3])
      [⟨3, "istanbul.epoch", .uint64 5⟩, ⟨1, "governance.removevalidator", .addressList [3]⟩]
      [⟨"istanbul.epoch", .uint64 5, 1⟩] ⟨1, "governance.removevalidator", .addressList [3]⟩
      .GovernanceMode_None 1 5 false =
    .ok ⟨unitCouncil [1, 2],
      [⟨1, "governance.removevalidator", .addressList [3]⟩],
      [⟨"istanbul.epoch", .uint64 5, 1⟩, ⟨"governance.removevalidator", .addressList [3], 1⟩],
      []⟩ := by
  constructor <;> decide

/-- Claim C10, the code at the failing input. The proposer 4 is a demoted
validator whose earlier vote on the same key is in the log: `removePreviousVote`
takes the voting power of the validator that `GetByAddress` did not find. -/
theorem handleGovernanceVote_nil_dereference :
    HandleGovernanceVote (sampleGov .GovernanceMode_None 1) councilOps 10
      ⟨[⟨1, 1⟩, ⟨2, 1⟩, ⟨3, 1⟩], [⟨4, 1⟩], 1⟩
      [⟨4, "istanbul.epoch", .uint64 5⟩] [⟨"istanbul.epoch", .uint64 5, 1⟩]
      ⟨.parsed ⟨4, "istanbul.epoch", .uint64 6⟩, 5⟩ 4 7 false = .error .nilDereference := by
  decide

theorem matchesPair_of_total (gov : Governance) (key : String) (value : Value)
    (e : GovernanceTallyItem)
    (hE : ∀ v1, ∃ b, isEqualValue (gov.GovernanceKeyMap key) v1 value = .ok b) :
    (if e.Key = key then isEqualValue (gov.GovernanceKeyMap key) e.Value value
      else pure false) = .ok (matchesPair gov key value e) := by
  unfold matchesPair
  by_cases hk : e.Key = key
  · obtain ⟨b, hb⟩ := hE e.Value
    simp [hk, hb]
  · simp [hk]

theorem take_drop_middle {α : Type} (pre : List α) (e : α) (rest : List α) :
    (pre ++ e :: rest).take pre.length ++ (pre ++ e :: rest).drop (pre.length + 1) =
      pre ++ rest := by
  simp [List.take_append_eq_append_take, List.drop_append_eq_append_drop]

theorem set_middle {α : Type} (pre : List α) (e x : α) (rest : List α) :
    (pre ++ e :: rest).set pre.length x = pre ++ x :: rest := by
  induction pre with
  | nil => rfl
  | cons a pre ih => simp [ih]

/-- The loop of `changeGovernanceTally` rewrites the first matching entry. -/
theorem changeGovernanceTallyLoop_eq (gov : Governance) (key : String) (value : Value)
    (vp : Nat) (isAdd : Bool)
    (hE : ∀ v1, ∃ b, isEqualValue (gov.GovernanceKeyMap key) v1 value = .ok b) :
    ∀ (rest pre : List GovernanceTallyItem),
      changeGovernanceTallyLoop gov (pre ++ rest) key value vp isAdd pre.length rest =
        .ok ((adjustFirst (matchesPair gov key value)
          (fun q => if isAdd then addU64 q vp else if q > vp then q - vp else 0) rest).map
            (fun r => (r.1, pre ++ r.2))) := by
  intro rest
  induction rest with
  | nil => intro pre; rfl
  | cons e rest ih =>
    intro pre
    unfold changeGovernanceTallyLoop
    simp only [matchesPair_of_total gov key value e hE, adjustFirst]
    cases hm : matchesPair gov key value e
    · simp only [Bool.false_eq_true, if_false]
      have h := ih (pre ++ [e])
      simp only [List.append_assoc, List.singleton_append, List.length_append,
        List.length_singleton] at h
      rw [h]
      cases adjustFirst (matchesPair gov key value)
        (fun q => if isAdd then addU64 q vp else if q > vp then q - vp else 0) rest <;> simp
    · simp only [if_true, run_pure, Option.map_some', take_drop_middle, set_middle]
      by_cases hz : (if isAdd = true then addU64 e.Votes vp
          else if e.Votes > vp then e.Votes - vp else 0) = 0 <;> simp [hz]

theorem changeGovernanceTally_eq (gov : Governance) (tally : List GovernanceTallyItem)
    (key : String) (value : Value) (vp : Nat) (isAdd : Bool)
    (hE : ∀ v1, ∃ b, isEqualValue (gov.GovernanceKeyMap key) v1 value = .ok b) :
    changeGovernanceTally gov tally key value vp isAdd =
      .ok (match adjustFirst (matchesPair gov key value)
          (fun q => if isAdd then addU64 q vp else if q > vp then q - vp else 0) tally with
        | some r => r
        | none => if isAdd then (vp, tally ++ [⟨key, value, vp⟩]) else (0, tally)) := by
  unfold changeGovernanceTally
  have h := changeGovernanceTallyLoop_eq gov key value vp isAdd hE tally []
  simp only [List.nil_append, List.length_nil] at h
  rw [h]
  cases adjustFirst (matchesPair gov key value)
    (fun q => if isAdd then addU64 q vp else if q > vp then q - vp else 0) tally with
  | none => cases isAdd <;> simp
  | some r => simp

theorem sub_floor_eq (vp : Nat) :
    (fun q : Nat => if false = true then addU64 q vp else if q > vp then q - vp else 0) =
      fun q => q - vp := by
  funext q
  simp only [Bool.false_eq_true, if_false]
  split <;> omega

/-- Taking power from a pair with `changeGovernanceTally` yields `reducedTally`. -/
theorem changeGovernanceTally_remove (gov : Governance) (tally : List GovernanceTallyItem)
    (key : String) (value : Value) (vp : Nat)
    (hE : ∀ v1, ∃ b, isEqualValue (gov.GovernanceKeyMap key) v1 value = .ok b) :
    ∃ cv, changeGovernanceTally gov tally key value vp false =
      .ok (cv, reducedTally gov key value vp tally) := by
  rw [changeGovernanceTally_eq gov tally key value vp false hE, sub_floor_eq]
  unfold reducedTally
  cases adjustFirst (matchesPair gov key value) (fun q => q - vp) tally with
  | none => exact ⟨0, by simp⟩
  | some r => exact ⟨r.1, rfl⟩

theorem castBy_iff (validator : Address) (key : String) (vote : GovernanceVote) :
    castBy validator key vote = true ↔ vote.Validator = validator ∧ vote.Key = key := by
  simp [castBy]

theorem eraseP_append_of_none {α : Type} (p : α → Bool) (pre : List α) (e : α)
    (rest : List α) (hpre : ∀ x ∈ pre, p x = false) (he : p e = true) :
    (pre ++ e :: rest).eraseP p = pre ++ rest := by
  induction pre with
  | nil => simp [List.eraseP_cons, he]
  | cons a pre ih =>
    have ha : p a = false := hpre a (List.mem_cons_self _ _)
    have := ih (fun x hx => hpre x (List.mem_cons_of_mem _ hx))
    simp [List.eraseP_cons, ha, this]

/-- The loop of `removePreviousVote` when no vote of the log matches. -/
theorem removePreviousVoteLoop_none (gov : Governance) (ops : ValidatorSet σ) (valset : σ)
    (votes : List GovernanceVote) (tally : List GovernanceTallyItem) (validator : Address)
    (gVote : GovernanceVote) (governanceMode : GovernanceModeInt) (governingNode : Address)
    (writable : Bool) :
    ∀ (rest : List GovernanceVote) (idx : Nat),
      (∀ x ∈ rest, castBy validator gVote.Key x = false) →
      removePreviousVoteLoop gov ops valset votes tally validator gVote governanceMode
        governingNode writable idx rest = .ok (votes, tally, []) := by
  intro rest
  induction rest with
  | nil => intro idx _; rfl
  | cons e rest ih =>
    intro idx h
    unfold removePreviousVoteLoop
    have he : ¬ (e.Validator = validator ∧ e.Key = gVote.Key) := by
      rw [← castBy_iff]
      simp [h e (List.mem_cons_self _ _)]
    simp only [he, if_false]
    exact ih (idx + 1) (fun x hx => h x (List.mem_cons_of_mem _ hx))

/-- The loop of `removePreviousVote` when a vote of the log matches: the first
such vote is taken out and its power is taken from the tally. -/
theorem removePreviousVoteLoop_some (gov : Governance) (ops : ValidatorSet σ) (valset : σ)
    (tally tally1 : List GovernanceTallyItem) (validator : Address)
    (gVote old : GovernanceVote) (governanceMode : GovernanceModeInt) (governingNode : Address)
    (writable : Bool) (v : Validator) (cv : Nat)
    (hget : ops.GetByAddress valset old.Validator = some v)
    (hct : changeGovernanceTally gov tally old.Key old.Value v.votingPower false =
      .ok (cv, tally1)) :
    ∀ (rest pre : List GovernanceVote),
      (∀ x ∈ pre, castBy validator gVote.Key x = false) →
      rest.find? (castBy validator gVote.Key) = some old →
      ∃ effects, removePreviousVoteLoop gov ops valset (pre ++ rest) tally validator gVote
        governanceMode governingNode writable pre.length rest =
          .ok ((pre ++ rest).eraseP (castBy validator gVote.Key), tally1, effects) := by
  intro rest
  induction rest with
  | nil => intro pre _ h; simp at h
  | cons e rest ih =>
    intro pre hpre hfind
    unfold removePreviousVoteLoop
    cases hc : castBy validator gVote.Key e
    · have he : ¬ (e.Validator = validator ∧ e.Key = gVote.Key) := by
        rw [← castBy_iff]; simp [hc]
      simp only [he, if_false]
      rw [List.find?_cons, hc] at hfind
      have hpre2 : ∀ x ∈ pre ++ [e], castBy validator gVote.Key x = false := by
        intro x hx
        rcases List.mem_append.1 hx with h | h
        · exact hpre x h
        · rw [List.mem_singleton.1 h]; exact hc
      have := ih (pre ++ [e]) hpre2 hfind
      simpa using this
    · have he : e.Validator = validator ∧ e.Key = gVote.Key := (castBy_iff _ _ _).1 hc
      rw [List.find?_cons, hc] at hfind
      simp only [Option.some.injEq] at hfind
      subst hfind
      rw [if_pos he]
      simp only [hget, hct, take_drop_middle, eraseP_append_of_none _ pre e rest hpre hc]
      exact ⟨_, rfl⟩

theorem filter_not_eraseP {α : Type} (p : α → Bool) (l : List α) :
    (l.eraseP p).filter (fun x => !p x) = l.filter (fun x => !p x) := by
  induction l with
  | nil => rfl
  | cons a l ih =>
    cases ha : p a
    · simp [List.eraseP_cons, ha, List.filter_cons, ih]
    · simp [List.eraseP_cons, ha, List.filter_cons]

theorem countP_eraseP_of_find {α : Type} (p : α → Bool) (l : List α) (a : α)
    (h : l.find? p = some a) : (l.eraseP p).countP p + 1 = l.countP p := by
  induction l with
  | nil => simp at h
  | cons b l ih =>
    cases hb : p b
    · rw [List.find?_cons, hb] at h
      simp [List.eraseP_cons, hb, List.countP_cons, ih h]
    · simp [List.eraseP_cons, hb, List.countP_cons]

/-- An activated vote on a key other than `RemoveValidator` leaves the vote log
and the tally as they are. -/
theorem applyActivatedVote_keeps_votes (gov : Governance) (ops : ValidatorSet σ) (fuel : Nat)
    (valset : σ) (votes : List GovernanceVote) (tally : List GovernanceTallyItem)
    (gVote : GovernanceVote) (blockNum : Nat) (writable : Bool)
    (hkey : gov.GovernanceKeyMap gVote.Key ≠ .RemoveValidator)
    (hty : checkValueType gVote.Value (itemType (gov.GovernanceKeyMap gVote.Key)) = true) :
    ∃ valset1 effects, applyActivatedVote gov ops fuel valset votes tally gVote blockNum
      writable = .ok ⟨valset1, votes, tally, effects⟩ := by
  unfold applyActivatedVote
  cases hk : gov.GovernanceKeyMap gVote.Key <;> simp only [hk] at hty hkey ⊢ <;>
    first
    | exact ⟨_, _, rfl⟩
    | exact absurd rfl hkey
    | (cases hv : gVote.Value <;> simp_all [checkValueType, itemType, GovernanceItems, typeOf])

theorem handle_accepts (gov : Governance) (ops : ValidatorSet σ) (fuel : Nat) (valset : σ)
    (votes : List GovernanceVote) (tally : List GovernanceTallyItem) (header : Header)
    (gVote : GovernanceVote) (proposer self : Address) (writable : Bool)
    (hv : header.Vote = .parsed gVote)
    (hacc : rejectsVote gov ops valset header = false) :
    HandleGovernanceVote gov ops fuel valset votes tally header proposer self writable =
      processVote gov ops fuel valset votes tally header gVote proposer self writable := by
  unfold rejectsVote at hacc
  simp only [hv, Bool.or_eq_false_iff, Bool.and_eq_false_imp, decide_eq_true_eq,
    ← anyInadmissible_eq_any] at hacc
  obtain ⟨⟨⟨⟨hf, hgn⟩, hadd⟩, hrem⟩, _⟩ := hacc
  unfold HandleGovernanceVote
  simp only [hv, hf, Bool.false_eq_true, if_false]
  cases hk : gov.GovernanceKeyMap gVote.Key <;> simp only []
  case GoverningNode =>
    have := hgn hk
    cases hval : gVote.Value <;> simp_all [governingNodeTargetActive]
    intro hnone
    simp [hnone] at hgn
  case AddValidator => simp [hadd hk]
  case RemoveValidator => simp [hrem hk]

theorem addNewVoteTally_total (gov : Governance) (ops : ValidatorSet σ) (valset : σ)
    (tally : List GovernanceTallyItem) (gVote : GovernanceVote) (v : Validator)
    (governanceMode : GovernanceModeInt) (governingNode : Address)
    (hty : checkValueType gVote.Value (itemType (gov.GovernanceKeyMap gVote.Key)) = true)
    (hin : ops.GetByAddress valset gVote.Validator = some v) :
    ∃ act tally2, addNewVoteTally gov ops valset tally gVote governanceMode governingNode =
      .ok (some (act, tally2)) := by
  have hE : ∀ v1, ∃ b, isEqualValue (gov.GovernanceKeyMap gVote.Key) v1 gVote.Value = .ok b :=
    fun v1 => isEqualValue_total _ v1 _ hty
  unfold addNewVoteTally
  simp only [hin, changeGovernanceTally_eq gov tally gVote.Key gVote.Value v.votingPower true hE]
  exact ⟨_, _, rfl⟩

theorem addNewVote_keeps_votes (gov : Governance) (ops : ValidatorSet σ) (fuel : Nat)
    (valset : σ) (votes : List GovernanceVote) (tally tally2 : List GovernanceTallyItem)
    (gVote : GovernanceVote) (governanceMode : GovernanceModeInt) (governingNode : Address)
    (blockNum : Nat) (writable : Bool) (act : Bool)
    (hkey : gov.GovernanceKeyMap gVote.Key ≠ .RemoveValidator)
    (hty : checkValueType gVote.Value (itemType (gov.GovernanceKeyMap gVote.Key)) = true)
    (ht : addNewVoteTally gov ops valset tally gVote governanceMode governingNode =
      .ok (some (act, tally2))) :
    ∃ valset1 effects, addNewVote gov ops fuel valset votes tally gVote governanceMode
      governingNode blockNum writable = .ok ⟨valset1, votes, tally2, effects⟩ := by
  unfold addNewVote
  rw [ht]
  cases act
  · exact ⟨_, _, rfl⟩
  · exact applyActivatedVote_keeps_votes gov ops fuel valset votes tally2 gVote blockNum
      writable hkey hty

theorem persistOutcome_fields (gov : Governance) (number : Nat) (writable : Bool)
    (o : Outcome σ) :
    ∃ effects, persistOutcome gov number writable o = ⟨o.valset, o.votes, o.tally, effects⟩ := by
  unfold persistOutcome
  split <;> exact ⟨_, rfl⟩

/-- The loop of `removeVotesFromRemovedNode` over a log without a vote of the
address: it passes every cell and returns the slice it was given. -/
theorem removeVotesLoop_no_match (addr : Address) :
    ∀ (fuel : Nat) (votes : List GovernanceVote) (i : Nat) (ret : List GovernanceVote),
      (∀ x ∈ votes, x.Validator ≠ addr) → votes.length - i < fuel →
      removeVotesLoop addr fuel votes i ret = .ok ret := by
  intro fuel
  induction fuel with
  | zero => intro votes i ret _ h; omega
  | succ fuel ih =>
    intro votes i ret hno hfuel
    unfold removeVotesLoop
    cases hget : votes.get? i with
    | none => rfl
    | some vote =>
      have hi : i < votes.length := by
        by_contra hcon
        rw [List.get?_eq_none.2 (by omega)] at hget
        cases hget
      have hne : vote.Validator ≠ addr := hno vote (List.get?_mem hget)
      simp only [hne, if_false]
      exact ih votes (i + 1) ret hno (by omega)

/-- The loop over the targets of an activated removal, none of which has a vote
in the log: the log comes back as it is. -/
theorem removeValidatorsLoop_no_match (ops : ValidatorSet σ) (fuel : Nat)
    (votes : List GovernanceVote) (hfuel : votes.length < fuel) :
    ∀ (targets : List Address) (valset : σ),
      (∀ x ∈ votes, x.Validator ∉ targets) →
      ∃ valset1, removeValidatorsLoop ops fuel targets valset votes = .ok (valset1, votes) := by
  intro targets
  induction targets with
  | nil => intro valset _; exact ⟨valset, rfl⟩
  | cons target rest ih =>
    intro valset hno
    unfold removeValidatorsLoop
    have h1 : removeVotesFromRemovedNode fuel votes target = .ok votes := by
      unfold removeVotesFromRemovedNode
      apply removeVotesLoop_no_match
      · intro x hx heq
        exact hno x hx (by rw [heq]; exact List.mem_cons_self _ _)
      · omega
    simp only [h1]
    exact ih _ (fun x hx hmem => hno x hx (List.mem_cons_of_mem _ hmem))

/-- An activated vote leaves the vote log and the tally as they are, unless it
is a `RemoveValidator` vote one of whose targets has a vote in the log. -/
theorem applyActivatedVote_same_votes (gov : Governance) (ops : ValidatorSet σ) (fuel : Nat)
    (valset : σ) (votes : List GovernanceVote) (tally : List GovernanceTallyItem)
    (gVote : GovernanceVote) (blockNum : Nat) (writable : Bool)
    (hty : checkValueType gVote.Value (itemType (gov.GovernanceKeyMap gVote.Key)) = true)
    (hrm : gov.GovernanceKeyMap gVote.Key = .RemoveValidator →
      votes.length < fuel ∧ ∀ x ∈ votes, x.Validator ∉ listedAddresses gVote.Value) :
    ∃ valset1 effects, applyActivatedVote gov ops fuel valset votes tally gVote blockNum
      writable = .ok ⟨valset1, votes, tally, effects⟩ := by
  by_cases hkey : gov.GovernanceKeyMap gVote.Key = .RemoveValidator
  · obtain ⟨hfuel, hno⟩ := hrm hkey
    unfold applyActivatedVote
    rw [hkey] at hty ⊢
    cases hv : gVote.Value with
    | address a => exact ⟨_, _, rfl⟩
    | addressListNil => exact ⟨_, _, rfl⟩
    | addressList l =>
      rw [hv] at hno
      obtain ⟨valset1, h1⟩ := removeValidatorsLoop_no_match ops fuel votes hfuel l valset hno
      simp only [h1]
      exact ⟨_, _, rfl⟩
    | _ => simp [hv, checkValueType, itemType, GovernanceItems, typeOf] at hty
  · exact applyActivatedVote_keeps_votes gov ops fuel valset votes tally gVote blockNum
      writable hkey hty

theorem addNewVote_same_votes (gov : Governance) (ops : ValidatorSet σ) (fuel : Nat)
    (valset : σ) (votes : List GovernanceVote) (tally tally2 : List GovernanceTallyItem)
    (gVote : GovernanceVote) (governanceMode : GovernanceModeInt) (governingNode : Address)
    (blockNum : Nat) (writable : Bool) (act : Bool)
    (hty : checkValueType gVote.Value (itemType (gov.GovernanceKeyMap gVote.Key)) = true)
    (ht : addNewVoteTally gov ops valset tally gVote governanceMode governingNode =
      .ok (some (act, tally2)))
    (hrm : gov.GovernanceKeyMap gVote.Key = .RemoveValidator → act = true →
      votes.length < fuel ∧ ∀ x ∈ votes, x.Validator ∉ listedAddresses gVote.Value) :
    ∃ valset1 effects, addNewVote gov ops fuel valset votes tally gVote governanceMode
      governingNode blockNum writable = .ok ⟨valset1, votes, tally2, effects⟩ := by
  unfold addNewVote
  rw [ht]
  cases act
  · exact ⟨_, _, rfl⟩
  · exact applyActivatedVote_same_votes gov ops fuel valset votes tally2 gVote blockNum
      writable hty (fun hk => hrm hk rfl)

/-- Claim C5, as amended. A valid vote that passes the gates, cast by the
proposer, who is an active validator, supersedes the first vote the log holds
from the proposer for the key, whose value has the type of the key:
`HandleGovernanceVote` returns, the returned log is the given log without that
old vote and with the new vote appended last, all other votes keep their order,
a log that held exactly one vote of the proposer for the key holds exactly one
again, and the returned tally is the given tally with the old value's entry
reduced by the proposer's voting power (not below zero, dropped at zero) and
the new vote then tallied. The one case left out is a `RemoveValidator` vote
that activates while one of its targets has a vote in the log or casts the new
vote; for a removal that activates the budget must cover one pass over the
log. -/
theorem supersede_previous_vote (gov : Governance) (ops : ValidatorSet σ) (fuel : Nat)
    (valset : σ) (votes : List GovernanceVote) (tally : List GovernanceTallyItem)
    (header : Header) (g0 gVote old : GovernanceVote) (proposer self : Address)
    (writable : Bool) (v : Validator)
    (hv : header.Vote = .parsed g0)
    (hacc : rejectsVote gov ops valset header = false)
    (hvalid : ValidateVote gov g0 = .ok (gVote, true))
    (hcaster : gVote.Validator = proposer)
    (hactive : ops.GetByAddress valset proposer = some v)
    (hold : votes.find? (castBy proposer gVote.Key) = some old)
    (holdty : checkValueType old.Value (itemType (gov.GovernanceKeyMap old.Key)) = true)
    (hpurge : gov.GovernanceKeyMap gVote.Key = .RemoveValidator →
      (∃ t, addNewVoteTally gov ops valset
        (reducedTally gov old.Key old.Value v.votingPower tally) gVote gov.governanceMode
        gov.governingNode = .ok (some (true, t))) →
      votes.length < fuel ∧
        ∀ x ∈ votes ++ [gVote], x.Validator ∉ listedAddresses gVote.Value) :
    ∃ o act,
      HandleGovernanceVote gov ops fuel valset votes tally header proposer self writable =
        .ok o ∧
      o.votes = votes.eraseP (castBy proposer gVote.Key) ++ [gVote] ∧
      o.votes.filter (fun x => !castBy proposer gVote.Key x) =
        votes.filter (fun x => !castBy proposer gVote.Key x) ∧
      (votes.countP (castBy proposer gVote.Key) = 1 →
        o.votes.countP (castBy proposer gVote.Key) = 1) ∧
      addNewVoteTally gov ops valset (reducedTally gov old.Key old.Value v.votingPower tally)
        gVote gov.governanceMode gov.governingNode = .ok (some (act, o.tally)) := by
  have hty := (validateVote_checked gov g0 gVote hvalid).2
  have hfound := List.find?_some hold
  have hmem : old ∈ votes := List.mem_of_find?_eq_some hold
  have holdv : old.Validator = proposer := ((castBy_iff _ _ _).1 hfound).1
  have hE : ∀ v1, ∃ b, isEqualValue (gov.GovernanceKeyMap old.Key) v1 old.Value = .ok b :=
    fun v1 => isEqualValue_total _ v1 _ holdty
  obtain ⟨cv, hct⟩ := changeGovernanceTally_remove gov tally old.Key old.Value v.votingPower hE
  obtain ⟨effects1, hrem⟩ := removePreviousVoteLoop_some gov ops valset tally
    (reducedTally gov old.Key old.Value v.votingPower tally) proposer gVote old
    gov.governanceMode gov.governingNode writable v cv (by rw [holdv]; exact hactive) hct
    votes [] (by simp) hold
  simp only [List.nil_append, List.length_nil] at hrem
  obtain ⟨act, tally2, htally⟩ := addNewVoteTally_total gov ops valset
    (reducedTally gov old.Key old.Value v.votingPower tally) gVote v gov.governanceMode
    gov.governingNode hty (by rw [hcaster]; exact hactive)
  have hlen : (votes.eraseP (castBy proposer gVote.Key) ++ [gVote]).length = votes.length := by
    have h1 := List.length_eraseP_of_mem hmem hfound
    have h2 : 0 < votes.length := List.length_pos_of_mem hmem
    simp only [List.length_append, List.length_singleton, h1]
    omega
  obtain ⟨valset1, effects2, hadd⟩ := addNewVote_same_votes gov ops fuel valset
    (votes.eraseP (castBy proposer gVote.Key) ++ [gVote])
    (reducedTally gov old.Key old.Value v.votingPower tally) tally2 gVote gov.governanceMode
    gov.governingNode (header.Number % uint64Size) writable act hty htally
    (by
      intro hk hact
      subst hact
      obtain ⟨hfuel, hno⟩ := hpurge hk ⟨tally2, htally⟩
      refine ⟨by rw [hlen]; exact hfuel, ?_⟩
      intro x hx
      apply hno x
      rcases List.mem_append.1 hx with h | h
      · exact List.mem_append_left _ (List.mem_of_mem_eraseP h)
      · exact List.mem_append_right _ h)
  obtain ⟨effects3, hper⟩ := persistOutcome_fields gov (header.Number % uint64Size) writable
    (⟨valset1, votes.eraseP (castBy proposer gVote.Key) ++ [gVote], tally2,
      effects1 ++ effects2 ++
        removeDuplicatedIfOwn gVote (header.Number % uint64Size) self proposer writable⟩ :
      Outcome σ)
  have hgself : castBy proposer gVote.Key gVote = true := (castBy_iff _ _ _).2 ⟨hcaster, rfl⟩
  refine ⟨⟨valset1, votes.eraseP (castBy proposer gVote.Key) ++ [gVote], tally2, effects3⟩,
    act, ?_, rfl, ?_, ?_, htally⟩
  · rw [handle_accepts gov ops fuel valset votes tally header g0 proposer self writable hv hacc]
    unfold processVote
    simp only [hvalid]
    unfold castVote removePreviousVote
    simp only [hrem, hadd, run_pure, hper]
  · simp only [List.filter_append, filter_not_eraseP]
    simp [List.filter_cons, hgself]
  · intro hone
    have := countP_eraseP_of_find (castBy proposer gVote.Key) votes old hold
    simp only [List.countP_append, List.countP_cons, List.countP_nil, hgself, if_true]
    omega

/-- A `RemoveValidator` vote of proposer 1 that supersedes its earlier vote and
activates with the third vote for the removal of validator 4, who has no vote
in the log. -/
theorem supersede_previous_vote_witness :
    ∃ o act,
      HandleGovernanceVote (sampleGov .GovernanceMode_Ballot 1) councilOps 10
        (unitCouncil [1, 2, 3, 4])
        [⟨2, "governance.removevalidator", .addressList [4]⟩,
          ⟨1, "governance.removevalidator", .addressList [3]⟩,
          ⟨3, "governance.removevalidator", .addressList [4]⟩]
        [⟨"governance.removevalidator", .addressList [4], 2⟩,
          ⟨"governance.removevalidator", .addressList [3], 1⟩]
        ⟨.parsed ⟨1, "Governance.RemoveValidator", .addressList [4]⟩, 9⟩ 1 7 false = .ok o ∧
      o.votes =
        [⟨2, "governance.removevalidator", .addressList [4]⟩,
          ⟨1, "governance.removevalidator", .addressList [3]⟩,
          ⟨3, "governance.removevalidator", .addressList [4]⟩].eraseP
            (castBy 1 "governance.removevalidator") ++
          [⟨1, "governance.removevalidator", .addressList [4]⟩] ∧
      o.votes.filter (fun x => !castBy 1 "governance.removevalidator" x) =
        [⟨2, "governance.removevalidator", .addressList [4]⟩,
          ⟨1, "governance.removevalidator", .addressList [3]⟩,
          ⟨3, "governance.removevalidator", .addressList [4]⟩].filter
            (fun x => !castBy 1 "governance.removevalidator" x) ∧
      ([⟨2, "governance.removevalidator", .addressList [4]⟩,
          ⟨1, "governance.removevalidator", .addressList [3]⟩,
          ⟨3, "governance.removevalidator", .addressList [4]⟩].countP
            (castBy 1 "governance.removevalidator") = 1 →
        o.votes.countP (castBy 1 "governance.removevalidator") = 1) ∧
      addNewVoteTally (sampleGov .GovernanceMode_Ballot 1) councilOps (unitCouncil [1, 2, 3, 4])
        (reducedTally (sampleGov .GovernanceMode_Ballot 1) "governance.removevalidator"
          (.addressList [3]) 1
          [⟨"governance.removevalidator", .addressList [4], 2⟩,
            ⟨"governance.removevalidator", .addressList [3], 1⟩])
        ⟨1, "governance.removevalidator", .addressList [4]⟩ .GovernanceMode_Ballot 1 =
          .ok (some (act, o.tally)) :=
  supersede_previous_vote (sampleGov .GovernanceMode_Ballot 1) councilOps 10
    (unitCouncil [1, 2, 3, 4])
    [⟨2, "governance.removevalidator", .addressList [4]⟩,
      ⟨1, "governance.removevalidator", .addressList [3]⟩,
      ⟨3, "governance.removevalidator", .addressList [4]⟩]
    [⟨"governance.removevalidator", .addressList [4], 2⟩,
      ⟨"governance.removevalidator", .addressList [3], 1⟩]
    ⟨.parsed ⟨1, "Governance.RemoveValidator", .addressList [4]⟩, 9⟩
    ⟨1, "Governance.RemoveValidator", .addressList [4]⟩
    ⟨1, "governance.removevalidator", .addressList [4]⟩
    ⟨1, "governance.removevalidator", .addressList [3]⟩ 1 7 false ⟨1, 1⟩
    rfl (by decide) (by decide) rfl (by decide) (by decide) (by decide)
    (fun _ _ => ⟨by decide, by decide⟩)

/-- Claim C5 fails as stated. (1) A vote on `RemoveValidator` that activates
purges the vote of the removed validator 3, so not all other votes are kept.
(2) Of two earlier votes of the caster for the key only the first is taken
out, so two votes of the caster for the key remain. (3) When the new value is
the old value, the entry of the old value ends with the power it had. (4) An
old vote that does not have the type of its key makes the tally comparison
panic, and nothing is returned. (5) `removePreviousVote` searches the votes of
the proposer: a vote that names validator 1 in a block of proposer 2 leaves the
earlier vote of validator 1 in the log and its power in the tally. (6) For a
proposer that is not an active validator the voting power of the validator that
was not found is taken, and nothing is returned. (7) A valid vote that a gate
rejects, here the addition of validator 2 who is in the set, leaves the earlier
vote of the caster in the log. -/
theorem supersede_counterexample :
    (∃ o, HandleGovernanceVote (sampleGov .GovernanceMode_Ballot 1) councilOps 10
        (unitCouncil [1, 2, 3])
        [⟨1, "governance.removevalidator", .address 3⟩, ⟨3, "istanbul.epoch", .uint64 5⟩,
          ⟨2, "governance.removevalidator", .addressList [3]⟩]
        [⟨"governance.removevalidator", .address 3, 1⟩, ⟨"istanbul.epoch", .uint64 5, 1⟩,
          ⟨"governance.removevalidator", .addressList [3], 1⟩]
        ⟨.parsed ⟨1, "governance.removevalidator", .addressList [3]⟩, 9⟩ 1 7 false = .ok o ∧
      o.votes = [⟨2, "governance.removevalidator", .addressList [3]⟩,
        ⟨1, "governance.removevalidator", .addressList [3]⟩] ∧
      (⟨3, "istanbul.epoch", .uint64 5⟩ : GovernanceVote) ∉ o.votes) ∧
    (∃ o, HandleGovernanceVote (sampleGov .GovernanceMode_Ballot 1) councilOps 10
        (unitCouncil [1, 2, 3])
        [⟨1, "istanbul.epoch", .uint64 5⟩, ⟨1, "istanbul.epoch", .uint64 6⟩]
        [⟨"istanbul.epoch", .uint64 5, 1⟩, ⟨"istanbul.epoch", .uint64 6, 1⟩]
        ⟨.parsed ⟨1, "istanbul.epoch", .uint64 7⟩, 9⟩ 1 7 false = .ok o ∧
      o.votes = [⟨1, "istanbul.epoch", .uint64 6⟩, ⟨1, "istanbul.epoch", .uint64 7⟩] ∧
      o.votes.countP (castBy 1 "istanbul.epoch") = 2) ∧
    (∃ o, HandleGovernanceVote (sampleGov .GovernanceMode_Ballot 1) councilOps 10
        (unitCouncil [1, 2, 3]) [⟨1, "istanbul.epoch", .uint64 5⟩]
        [⟨"istanbul.epoch", .uint64 5, 1⟩]
        ⟨.parsed ⟨1, "istanbul.epoch", .uint64 5⟩, 9⟩ 1 7 false = .ok o ∧
      o.tally = [⟨"istanbul.epoch", .uint64 5, 1⟩]) ∧
    (HandleGovernanceVote (sampleGov .GovernanceMode_Ballot 1) councilOps 10
        (unitCouncil [1, 2, 3]) [⟨1, "istanbul.epoch", .addressList [2]⟩]
        [⟨"istanbul.epoch", .addressList [2], 1⟩]
        ⟨.parsed ⟨1, "istanbul.epoch", .uint64 7⟩, 9⟩ 1 7 false = .error .uncomparable) ∧
    (∃ o, HandleGovernanceVote (sampleGov .GovernanceMode_Ballot 1) councilOps 10
        (unitCouncil [1, 2, 3]) [⟨1, "istanbul.epoch", .uint64 5⟩]
        [⟨"istanbul.epoch", .uint64 5, 1⟩]
        ⟨.parsed ⟨1, "istanbul.epoch", .uint64 6⟩, 9⟩ 2 7 false = .ok o ∧
      o.votes = [⟨1, "istanbul.epoch", .uint64 5⟩, ⟨1, "istanbul.epoch", .uint64 6⟩] ∧
      o.tally = [⟨"istanbul.epoch", .uint64 5, 1⟩, ⟨"istanbul.epoch", .uint64 6, 1⟩]) ∧
    (HandleGovernanceVote (sampleGov .GovernanceMode_Ballot 1) councilOps 10
        ⟨[⟨1, 1⟩, ⟨2, 1⟩, ⟨3, 1⟩], [⟨4, 1⟩], 1⟩
        [⟨4, "istanbul.epoch", .uint64 5⟩] [⟨"istanbul.epoch", .uint64 5, 1⟩]
        ⟨.parsed ⟨4, "istanbul.epoch", .uint64 6⟩, 9⟩ 4 7 false = .error .nilDereference) ∧
    (ValidateVote (sampleGov .GovernanceMode_Ballot 1)
        ⟨1, "governance.addvalidator", .address 2⟩ =
        .ok (⟨1, "governance.addvalidator", .address 2⟩, true) ∧
      HandleGovernanceVote (sampleGov .GovernanceMode_Ballot 1) councilOps 10
        (unitCouncil [1, 2, 3]) [⟨1, "governance.addvalidator", .address 5⟩]
        [⟨"governance.addvalidator", .address 5, 1⟩]
        ⟨.parsed ⟨1, "governance.addvalidator", .address 2⟩, 9⟩ 1 7 false =
        .ok ⟨unitCouncil [1, 2, 3], [⟨1, "governance.addvalidator", .address 5⟩],
          [⟨"governance.addvalidator", .address 5, 1⟩], []⟩) := by
  refine ⟨⟨_, rfl, ?_, ?_⟩, ⟨_, rfl, ?_, ?_⟩, ⟨_, rfl, ?_⟩, ?_, ⟨_, rfl, ?_, ?_⟩, ?_,
    ⟨?_, ?_⟩⟩ <;> decide

/-! ### The loop of `removeVotesFromRemovedNode` -/

theorem appendInPlace_length (votes : List GovernanceVote) (i : Nat) (hi : i < votes.length) :
    (appendInPlace votes i).2.length = votes.length := by
  simp only [appendInPlace, List.length_append, List.length_take, List.length_drop]
  omega

theorem getLast?_drop_pred {α : Type} (l : List α) (g : α) (h : l.getLast? = some g) :
    l.drop (l.length - 1) = [g] := by
  induction l with
  | nil => simp at h
  | cons a l ih =>
    cases l with
    | nil => simp at h; simp [h]
    | cons b l =>
      have h2 : (b :: l).getLast? = some g := by simpa [List.getLast?_cons_cons] using h
      have := ih h2
      simpa using this

theorem appendInPlace_getLast? (votes : List GovernanceVote) (i : Nat) (g : GovernanceVote)
    (h : votes.getLast? = some g) : (appendInPlace votes i).2.getLast? = some g := by
  simp [appendInPlace, getLast?_drop_pred votes g h]

theorem getLast?_eq_get? {α : Type} (l : List α) : l.getLast? = l.get? (l.length - 1) := by
  induction l with
  | nil => rfl
  | cons a l ih =>
    cases l with
    | nil => rfl
    | cons b l => simpa [List.getLast?_cons_cons] using ih

/-- With the last cell cast by `addr`, the loop never leaves the slice. -/
theorem removeVotesLoop_stuck (addr : Address) (g : GovernanceVote) (hg : g.Validator = addr) :
    ∀ (fuel : Nat) (votes : List GovernanceVote) (i : Nat) (ret : List GovernanceVote),
      i < votes.length → votes.getLast? = some g →
      removeVotesLoop addr fuel votes i ret = .error .outOfFuel := by
  intro fuel
  induction fuel with
  | zero => intro votes i ret _ _; rfl
  | succ fuel ih =>
    intro votes i ret hi hlast
    unfold removeVotesLoop
    have hget : votes.get? i = some (votes.get ⟨i, hi⟩) := List.get?_eq_get hi
    simp only [hget]
    by_cases hv : (votes.get ⟨i, hi⟩).Validator = addr
    · simp only [hv, if_true]
      exact ih _ i _ (by rw [appendInPlace_length votes i hi]; exact hi)
        (appendInPlace_getLast? votes i g hlast)
    · simp only [hv, if_false]
      have hne : i ≠ votes.length - 1 := by
        intro heq
        rw [getLast?_eq_get?, ← heq, hget] at hlast
        simp only [Option.some.injEq] at hlast
        rw [hlast] at hv
        exact hv hg
      exact ih votes (i + 1) ret (by omega) hlast

/-- Every vote the loop returns is one of the cells or of the current `ret`. -/
theorem removeVotesLoop_mem (addr : Address) (P : GovernanceVote → Prop) :
    ∀ (fuel : Nat) (votes : List GovernanceVote) (i : Nat) (ret r : List GovernanceVote),
      (∀ x ∈ votes, P x) → (∀ x ∈ ret, P x) →
      removeVotesLoop addr fuel votes i ret = .ok r → ∀ x ∈ r, P x := by
  intro fuel
  induction fuel with
  | zero => intro votes i ret r _ _ h; cases h
  | succ fuel ih =>
    intro votes i ret r hvotes hret h
    unfold removeVotesLoop at h
    cases hget : votes.get? i with
    | none =>
      simp only [hget, run_pure, Except.ok.injEq] at h
      subst h; exact hret
    | some vote =>
      simp only [hget] at h
      have hsub : ∀ x ∈ (appendInPlace votes i).1, P x := by
        intro x hx
        simp only [appendInPlace, List.mem_append] at hx
        rcases hx with hx | hx
        · exact hvotes x (List.mem_of_mem_take hx)
        · exact hvotes x (List.mem_of_mem_drop hx)
      have hsub2 : ∀ x ∈ (appendInPlace votes i).2, P x := by
        intro x hx
        simp only [appendInPlace, List.mem_append] at hx
        rcases hx with (hx | hx) | hx
        · exact hvotes x (List.mem_of_mem_take hx)
        · exact hvotes x (List.mem_of_mem_drop hx)
        · exact hvotes x (List.mem_of_mem_drop hx)
      by_cases hv : vote.Validator = addr
      · simp only [hv, if_true] at h
        exact ih _ i _ r hsub2 hsub h
      · simp only [hv, if_false] at h
        exact ih votes (i + 1) ret r hvotes hret h

/-- A returning loop keeps the last vote at the end of what it returns. -/
theorem removeVotesLoop_getLast? (addr : Address) (g : GovernanceVote) :
    ∀ (fuel : Nat) (votes : List GovernanceVote) (i : Nat) (ret r : List GovernanceVote),
      votes.getLast? = some g → ret.getLast? = some g →
      removeVotesLoop addr fuel votes i ret = .ok r → r.getLast? = some g := by
  intro fuel
  induction fuel with
  | zero => intro votes i ret r _ _ h; cases h
  | succ fuel ih =>
    intro votes i ret r hvotes hret h
    have hrun := h
    unfold removeVotesLoop at h
    cases hget : votes.get? i with
    | none =>
      simp only [hget, run_pure, Except.ok.injEq] at h
      subst h; exact hret
    | some vote =>
      simp only [hget] at h
      have hi : i < votes.length := by
        by_contra hcon
        rw [List.get?_eq_none.2 (by omega)] at hget
        cases hget
      by_cases hv : vote.Validator = addr
      · simp only [hv, if_true] at h
        by_cases hlast : i = votes.length - 1
        · exfalso
          have hgv : g = vote := by
            rw [getLast?_eq_get?, ← hlast, hget] at hvotes
            simpa using hvotes.symm
          have := removeVotesLoop_stuck addr g (by rw [hgv]; exact hv) (fuel + 1) votes i ret hi
            hvotes
          rw [this] at hrun
          cases hrun
        · refine ih _ i _ r (appendInPlace_getLast? votes i g hvotes) ?_ h
          have hdrop : (votes.drop (i + 1)).getLast? = some g := by
            rw [List.getLast?_drop]
            have : ¬ votes.length ≤ i + 1 := by omega
            simp [this, hvotes]
          simp only [appendInPlace]
          rw [List.getLast?_append, hdrop]
          rfl
      · simp only [hv, if_false] at h
        exact ih votes (i + 1) ret r hvotes hret h

theorem removeValidatorsLoop_votes (ops : ValidatorSet σ) (fuel : Nat) (g : GovernanceVote) :
    ∀ (targets : List Address) (valset valset1 : σ) (votes votes1 : List GovernanceVote),
      removeValidatorsLoop ops fuel targets valset votes = .ok (valset1, votes1) →
      (∀ x ∈ votes1, x ∈ votes) ∧ (votes.getLast? = some g → votes1.getLast? = some g) := by
  intro targets
  induction targets with
  | nil =>
    intro valset valset1 votes votes1 h
    simp only [removeValidatorsLoop, run_pure, Except.ok.injEq, Prod.mk.injEq] at h
    obtain ⟨_, h2⟩ := h
    subst h2
    exact ⟨fun x hx => hx, fun h => h⟩
  | cons target rest ih =>
    intro valset valset1 votes votes1 h
    unfold removeValidatorsLoop at h
    simp only at h
    cases hr : removeVotesFromRemovedNode fuel votes target with
    | error e => simp [hr] at h
    | ok r =>
      simp only [hr] at h
      obtain ⟨h1, h2⟩ := ih _ _ _ _ h
      unfold removeVotesFromRemovedNode at hr
      have hm := removeVotesLoop_mem target (fun x => x ∈ votes) fuel votes 0 votes r
        (fun x hx => hx) (fun x hx => hx) hr
      refine ⟨fun x hx => hm x (h1 x hx), fun hl => h2 ?_⟩
      exact removeVotesLoop_getLast? target g fuel votes 0 votes r hl hl hr

/-! ### Casting the same vote twice -/

theorem add_fun_eq (vp : Nat) :
    (fun q : Nat => if true = true then addU64 q vp else if q > vp then q - vp else 0) =
      fun q => addU64 q vp := by
  funext q
  simp

/-- Adding power to a pair with `changeGovernanceTally` yields `addedTally`. -/
theorem changeGovernanceTally_add (gov : Governance) (tally : List GovernanceTallyItem)
    (key : String) (value : Value) (vp : Nat)
    (hE : ∀ v1, ∃ b, isEqualValue (gov.GovernanceKeyMap key) v1 value = .ok b) :
    ∃ cv, changeGovernanceTally gov tally key value vp true =
      .ok (cv, addedTally gov key value vp tally) := by
  rw [changeGovernanceTally_eq gov tally key value vp true hE, add_fun_eq]
  unfold addedTally
  cases adjustFirst (matchesPair gov key value) (fun q => addU64 q vp) tally with
  | none => exact ⟨vp, by simp⟩
  | some r => exact ⟨r.1, rfl⟩

theorem isEqualValue_refl (k : GovParamKey) (v : Value)
    (h : checkValueType v (itemType k) = true) : isEqualValue k v v = .ok true := by
  unfold isEqualValue interfaceEq
  cases v <;> cases hit : itemType k <;> simp_all [checkValueType, typeOf]

/-- Taking power from a pair keeps a property of the entries that survives
lowering the votes of an entry to a positive number. -/
theorem changeGovernanceTallyLoop_entries (gov : Governance) (key : String) (value : Value)
    (vp : Nat) (Q : GovernanceTallyItem → Prop)
    (hQ : ∀ (e : GovernanceTallyItem) (q : Nat), Q e → 0 < q → q ≤ e.Votes →
      Q ⟨e.Key, e.Value, q⟩) :
    ∀ (rest pre : List GovernanceTallyItem) (cv : Nat) (ret : List GovernanceTallyItem),
      (∀ e ∈ pre ++ rest, Q e) →
      changeGovernanceTallyLoop gov (pre ++ rest) key value vp false pre.length rest =
        .ok (some (cv, ret)) →
      ∀ e ∈ ret, Q e := by
  intro rest
  induction rest with
  | nil =>
    intro pre cv ret _ h
    simp [changeGovernanceTallyLoop] at h
  | cons e rest ih =>
    intro pre cv ret hall h
    unfold changeGovernanceTallyLoop at h
    simp only at h
    split at h
    · cases h
    · simp only [Bool.false_eq_true, if_false, take_drop_middle, set_middle, run_pure,
        Except.ok.injEq, Option.some.injEq, Prod.mk.injEq] at h
      obtain ⟨_, hret⟩ := h
      subst hret
      have hQe : Q e := hall e (by simp)
      intro x hx
      have hf : (if e.Votes > vp then e.Votes - vp else 0) = e.Votes - vp := by
        split <;> omega
      rw [hf] at hx
      by_cases hz : e.Votes - vp = 0
      · simp only [hz, if_true] at hx
        rcases List.mem_append.1 hx with h1 | h1
        · exact hall x (List.mem_append.2 (Or.inl h1))
        · exact hall x (List.mem_append.2 (Or.inr (List.mem_cons_of_mem _ h1)))
      · simp only [hz, if_false] at hx
        rcases List.mem_append.1 hx with h1 | h1
        · exact hall x (List.mem_append.2 (Or.inl h1))
        · rcases List.mem_cons.1 h1 with h2 | h2
          · subst h2
            exact hQ e _ hQe (by omega) (by omega)
          · exact hall x (List.mem_append.2 (Or.inr (List.mem_cons_of_mem _ h2)))
    · have := ih (pre ++ [e]) cv ret (by simpa using hall)
      simp only [List.append_assoc, List.singleton_append, List.length_append,
        List.length_singleton] at this
      exact this h

theorem changeGovernanceTally_remove_entries (gov : Governance)
    (tally : List GovernanceTallyItem) (key : String) (value : Value) (vp : Nat)
    (Q : GovernanceTallyItem → Prop)
    (hQ : ∀ (e : GovernanceTallyItem) (q : Nat), Q e → 0 < q → q ≤ e.Votes →
      Q ⟨e.Key, e.Value, q⟩)
    (hall : ∀ e ∈ tally, Q e) (cv : Nat) (ret : List GovernanceTallyItem)
    (h : changeGovernanceTally gov tally key value vp false = .ok (cv, ret)) :
    ∀ e ∈ ret, Q e := by
  unfold changeGovernanceTally at h
  cases hl : changeGovernanceTallyLoop gov tally key value vp false 0 tally with
  | error e => simp [hl] at h
  | ok r =>
    cases r with
    | none =>
      simp only [hl, Bool.false_eq_true, if_false, run_pure, Except.ok.injEq,
        Prod.mk.injEq] at h
      rw [← h.2]; exact hall
    | some r =>
      obtain ⟨cv1, ret1⟩ := r
      simp only [hl, run_pure, Except.ok.injEq, Prod.mk.injEq] at h
      rw [← h.2]
      exact changeGovernanceTallyLoop_entries gov key value vp Q hQ tally [] cv1 ret1
        (by simpa using hall) (by simpa using hl)

/-- What a returning `removePreviousVote` loop hands back: the log without the
first matching vote, and a tally that keeps the property `Q`. -/
theorem removePreviousVoteLoop_ok (gov : Governance) (ops : ValidatorSet σ) (valset : σ)
    (tally : List GovernanceTallyItem) (validator : Address) (gVote : GovernanceVote)
    (governanceMode : GovernanceModeInt) (governingNode : Address) (writable : Bool)
    (Q : GovernanceTallyItem → Prop)
    (hQ : ∀ (e : GovernanceTallyItem) (q : Nat), Q e → 0 < q → q ≤ e.Votes →
      Q ⟨e.Key, e.Value, q⟩)
    (hall : ∀ e ∈ tally, Q e) :
    ∀ (rest pre votes1 : List GovernanceVote) (tally1 : List GovernanceTallyItem)
      (effects : List Effect),
      (∀ x ∈ pre, castBy validator gVote.Key x = false) →
      removePreviousVoteLoop gov ops valset (pre ++ rest) tally validator gVote governanceMode
        governingNode writable pre.length rest = .ok (votes1, tally1, effects) →
      votes1 = (pre ++ rest).eraseP (castBy validator gVote.Key) ∧ ∀ e ∈ tally1, Q e := by
  intro rest
  induction rest with
  | nil =>
    intro pre votes1 tally1 effects hpre h
    simp only [removePreviousVoteLoop, run_pure, Except.ok.injEq, Prod.mk.injEq] at h
    obtain ⟨h1, h2, _⟩ := h
    subst h1 h2
    refine ⟨?_, hall⟩
    rw [List.append_nil, List.eraseP_of_forall_not]
    intro x hx
    simp [hpre x hx]
  | cons e rest ih =>
    intro pre votes1 tally1 effects hpre h
    unfold removePreviousVoteLoop at h
    cases hc : castBy validator gVote.Key e
    · have he : ¬ (e.Validator = validator ∧ e.Key = gVote.Key) := by
        rw [← castBy_iff]; simp [hc]
      simp only [he, if_false] at h
      have hpre2 : ∀ x ∈ pre ++ [e], castBy validator gVote.Key x = false := by
        intro x hx
        rcases List.mem_append.1 hx with h1 | h1
        · exact hpre x h1
        · rw [List.mem_singleton.1 h1]; exact hc
      have := ih (pre ++ [e]) votes1 tally1 effects hpre2
      simp only [List.append_assoc, List.singleton_append, List.length_append,
        List.length_singleton] at this
      exact this h
    · have he : e.Validator = validator ∧ e.Key = gVote.Key := (castBy_iff _ _ _).1 hc
      rw [if_pos he] at h
      cases hget : ops.GetByAddress valset e.Validator with
      | none => simp [hget] at h
      | some v =>
        simp only [hget] at h
        cases hct : changeGovernanceTally gov tally e.Key e.Value v.votingPower false with
        | error err => simp [hct] at h
        | ok r =>
          obtain ⟨cv, t⟩ := r
          simp only [hct, take_drop_middle, run_pure, Except.ok.injEq, Prod.mk.injEq] at h
          obtain ⟨h1, h2, _⟩ := h
          subst h1 h2
          exact ⟨(eraseP_append_of_none _ pre e rest hpre hc).symm,
            changeGovernanceTally_remove_entries gov tally e.Key e.Value v.votingPower Q
              hQ hall cv t hct⟩

theorem applyActivatedVote_ok (gov : Governance) (ops : ValidatorSet σ) (fuel : Nat)
    (valset : σ) (votes : List GovernanceVote) (tally : List GovernanceTallyItem)
    (gVote g : GovernanceVote) (blockNum : Nat) (writable : Bool) (o : Outcome σ)
    (h : applyActivatedVote gov ops fuel valset votes tally gVote blockNum writable = .ok o) :
    o.tally = tally ∧ (∀ x ∈ o.votes, x ∈ votes) ∧
      (votes.getLast? = some g → o.votes.getLast? = some g) := by
  unfold applyActivatedVote at h
  split at h
  · split at h <;> first
      | (simp only [run_pure, Except.ok.injEq] at h; subst h; exact ⟨rfl, fun x hx => hx, id⟩)
      | cases h
  · split at h
    · simp only [run_pure, Except.ok.injEq] at h; subst h; exact ⟨rfl, fun x hx => hx, id⟩
    · split at h
      · cases h
      · rename_i valset1 votes1 hloop
        simp only [run_pure, Except.ok.injEq] at h; subst h
        have := removeValidatorsLoop_votes ops fuel g _ _ _ _ _ hloop
        exact ⟨rfl, this.1, this.2⟩
    · simp only [run_pure, Except.ok.injEq] at h; subst h; exact ⟨rfl, fun x hx => hx, id⟩
    · cases h
  · split at h
    · simp only [run_pure, Except.ok.injEq] at h; subst h; exact ⟨rfl, fun x hx => hx, id⟩
    · cases h
  · simp only [run_pure, Except.ok.injEq] at h; subst h; exact ⟨rfl, fun x hx => hx, id⟩

theorem addNewVote_ok (gov : Governance) (ops : ValidatorSet σ) (fuel : Nat)
    (valset : σ) (votes : List GovernanceVote) (tally tally2 : List GovernanceTallyItem)
    (gVote g : GovernanceVote) (governanceMode : GovernanceModeInt) (governingNode : Address)
    (blockNum : Nat) (writable : Bool) (act : Bool) (o : Outcome σ)
    (ht : addNewVoteTally gov ops valset tally gVote governanceMode governingNode =
      .ok (some (act, tally2)))
    (h : addNewVote gov ops fuel valset votes tally gVote governanceMode governingNode blockNum
      writable = .ok o) :
    o.tally = tally2 ∧ (∀ x ∈ o.votes, x ∈ votes) ∧
      (votes.getLast? = some g → o.votes.getLast? = some g) := by
  unfold addNewVote at h
  rw [ht] at h
  cases act
  · simp only [run_pure, Except.ok.injEq] at h; subst h; exact ⟨rfl, fun x hx => hx, id⟩
  · exact applyActivatedVote_ok gov ops fuel valset votes tally2 gVote g blockNum writable o h

theorem matchesPair_votes (gov : Governance) (key : String) (value : Value)
    (e : GovernanceTallyItem) (q : Nat) :
    matchesPair gov key value ⟨e.Key, e.Value, q⟩ = matchesPair gov key value e := rfl

theorem addedTally_nil (gov : Governance) (key : String) (value : Value) (vp : Nat) :
    addedTally gov key value vp [] = [⟨key, value, vp⟩] := rfl

theorem addedTally_cons (gov : Governance) (key : String) (value : Value) (vp : Nat)
    (e : GovernanceTallyItem) (rest : List GovernanceTallyItem) :
    addedTally gov key value vp (e :: rest) =
      if matchesPair gov key value e then
        (if addU64 e.Votes vp = 0 then rest else ⟨e.Key, e.Value, addU64 e.Votes vp⟩ :: rest)
      else e :: addedTally gov key value vp rest := by
  unfold addedTally
  simp only [adjustFirst]
  cases matchesPair gov key value e
  · simp only [Bool.false_eq_true, if_false]
    cases adjustFirst (matchesPair gov key value) (fun q => addU64 q vp) rest <;> simp
  · simp

theorem reducedTally_nil (gov : Governance) (key : String) (value : Value) (vp : Nat) :
    reducedTally gov key value vp [] = [] := rfl

theorem reducedTally_cons (gov : Governance) (key : String) (value : Value) (vp : Nat)
    (e : GovernanceTallyItem) (rest : List GovernanceTallyItem) :
    reducedTally gov key value vp (e :: rest) =
      if matchesPair gov key value e then
        (if e.Votes - vp = 0 then rest else ⟨e.Key, e.Value, e.Votes - vp⟩ :: rest)
      else e :: reducedTally gov key value vp rest := by
  unfold reducedTally
  simp only [adjustFirst]
  cases matchesPair gov key value e
  · simp only [Bool.false_eq_true, if_false]
    cases adjustFirst (matchesPair gov key value) (fun q => q - vp) rest <;> simp
  · simp

/-- Adding the power of a vote, taking it back and adding it again ends where
the first addition ended. -/
theorem added_reduced_added (gov : Governance) (key : String) (value : Value) (vp : Nat)
    (hrefl : matchesPair gov key value ⟨key, value, vp⟩ = true) :
    ∀ (t : List GovernanceTallyItem),
      (∀ e ∈ t, 0 < e.Votes ∧ e.Votes + vp < uint64Size) →
      addedTally gov key value vp
        (reducedTally gov key value vp (addedTally gov key value vp t)) =
          addedTally gov key value vp t := by
  intro t
  induction t with
  | nil =>
    intro _
    simp [addedTally_nil, reducedTally_cons, hrefl]
  | cons e rest ih =>
    intro hall
    obtain ⟨hpos, hb⟩ := hall e (List.mem_cons_self _ _)
    have hrest := ih (fun x hx => hall x (List.mem_cons_of_mem _ hx))
    cases hm : matchesPair gov key value e
    · simp only [addedTally_cons, reducedTally_cons, hm, Bool.false_eq_true, if_false, hrest]
    · have hadd : addU64 e.Votes vp = e.Votes + vp := by
        unfold addU64; exact Nat.mod_eq_of_lt hb
      have hne : e.Votes + vp ≠ 0 := by omega
      have hsub : e.Votes + vp - vp = e.Votes := by omega
      have hne2 : e.Votes ≠ 0 := by omega
      simp only [addedTally_cons, hm, if_true, hadd, hne, if_false, reducedTally_cons,
        matchesPair_votes, hsub, hne2]

theorem find?_eq_of_unique {α : Type} (p : α → Bool) (l : List α) (g : α)
    (hmem : g ∈ l) (hp : p g = true) (huniq : ∀ x ∈ l, p x = true → x = g) :
    l.find? p = some g := by
  cases h : l.find? p with
  | none =>
    have := List.find?_eq_none.1 h g hmem
    simp [hp] at this
  | some a =>
    have ha := List.find?_some h
    have hmema := List.mem_of_find?_eq_some h
    rw [huniq a hmema ha]

theorem eraseP_no_match {α : Type} (p : α → Bool) (l : List α) (h : l.countP p ≤ 1) :
    ∀ x ∈ l.eraseP p, p x = false := by
  cases hf : l.find? p with
  | none =>
    have hnone := List.find?_eq_none.1 hf
    rw [List.eraseP_of_forall_not hnone]
    intro x hx
    simpa using hnone x hx
  | some a =>
    have := countP_eraseP_of_find p l a hf
    have hz : (l.eraseP p).countP p = 0 := by omega
    intro x hx
    have := List.countP_eq_zero.1 hz x hx
    simpa using this

theorem mem_of_getLast?_eq {α : Type} (l : List α) (g : α) (h : l.getLast? = some g) :
    g ∈ l := by
  rw [getLast?_eq_get?] at h
  exact List.get?_mem h

theorem addNewVoteTally_eq (gov : Governance) (ops : ValidatorSet σ) (valset : σ)
    (tally : List GovernanceTallyItem) (gVote : GovernanceVote) (v : Validator)
    (governanceMode : GovernanceModeInt) (governingNode : Address)
    (hty : checkValueType gVote.Value (itemType (gov.GovernanceKeyMap gVote.Key)) = true)
    (hin : ops.GetByAddress valset gVote.Validator = some v) :
    ∃ act, addNewVoteTally gov ops valset tally gVote governanceMode governingNode =
      .ok (some (act, addedTally gov gVote.Key gVote.Value v.votingPower tally)) := by
  have hE : ∀ v1, ∃ b, isEqualValue (gov.GovernanceKeyMap gVote.Key) v1 gVote.Value = .ok b :=
    fun v1 => isEqualValue_total _ v1 _ hty
  obtain ⟨cv, hcv⟩ := changeGovernanceTally_add gov tally gVote.Key gVote.Value v.votingPower hE
  unfold addNewVoteTally
  simp only [hin, hcv]
  exact ⟨_, rfl⟩

/-! ### The parameter registry and the builders -/

theorem registry_cases (key : GovParamKey) (ty : govParamType)
    (h : govParamTypes key = some ty) :
    ty = govParamTypeGovMode ∨ ty = govParamTypeAddress ∨ ty = govParamTypeUint64 ∨
      ty = govParamTypeBigInt ∨ ty = govParamTypeRatio ∨ ty = govParamTypeBool := by
  cases key <;> simp [govParamTypes] at h <;> subst h <;> simp

theorem validate_govMode_total (v : Value) : ∃ b, govParamTypeGovMode.Validate v = .ok b := by
  cases h : govParamTypeGovMode.Validate v with
  | ok b => exact ⟨b, rfl⟩
  | error e =>
    exfalso
    cases v <;> simp [govParamType.Validate, govParamTypeGovMode, typeOf] at h
    split at h <;> cases h

theorem validate_address_total (v : Value) : ∃ b, govParamTypeAddress.Validate v = .ok b := by
  cases h : govParamTypeAddress.Validate v with
  | ok b => exact ⟨b, rfl⟩
  | error e =>
    exfalso
    cases v <;> simp [govParamType.Validate, govParamTypeAddress, typeOf, validatePass] at h

theorem validate_uint64_total (v : Value) : ∃ b, govParamTypeUint64.Validate v = .ok b := by
  cases h : govParamTypeUint64.Validate v with
  | ok b => exact ⟨b, rfl⟩
  | error e =>
    exfalso
    cases v <;> simp [govParamType.Validate, govParamTypeUint64, typeOf, validatePass] at h

theorem validate_bool_total (v : Value) : ∃ b, govParamTypeBool.Validate v = .ok b := by
  cases h : govParamTypeBool.Validate v with
  | ok b => exact ⟨b, rfl⟩
  | error e =>
    exfalso
    cases v <;> simp [govParamType.Validate, govParamTypeBool, typeOf, validatePass] at h

theorem validate_bigInt_total (v : Value) : ∃ b, govParamTypeBigInt.Validate v = .ok b := by
  cases h : govParamTypeBigInt.Validate v with
  | ok b => exact ⟨b, rfl⟩
  | error e =>
    exfalso
    cases v <;> simp [govParamType.Validate, govParamTypeBigInt, typeOf] at h
    rename_i s
    cases hs : bigSetString s <;> simp [hs] at h
    split at h <;> cases h

theorem validate_ratio_total (v : Value) : ∃ b, govParamTypeRatio.Validate v = .ok b := by
  cases h : govParamTypeRatio.Validate v with
  | ok b => exact ⟨b, rfl⟩
  | error e =>
    exfalso
    cases v <;> simp [govParamType.Validate, govParamTypeRatio, typeOf] at h
    rename_i s
    by_cases hlen : (stringsSplit s '/').length = 3
    · cases hr : ratioSumLoop (stringsSplit s '/') 0 <;> simp [hlen, hr] at h
      split at h <;> cases h
    · simp [hlen] at h

theorem validate_total (key : GovParamKey) (ty : govParamType)
    (h : govParamTypes key = some ty) (v : Value) : ∃ b, ty.Validate v = .ok b := by
  rcases registry_cases key ty h with h | h | h | h | h | h <;> subst h
  · exact validate_govMode_total v
  · exact validate_address_total v
  · exact validate_uint64_total v
  · exact validate_bigInt_total v
  · exact validate_ratio_total v
  · exact validate_bool_total v

theorem validate_true_type (ty : govParamType) (v : Value)
    (h : ty.Validate v = .ok true) : ty.canonicalType = typeOf v := by
  unfold govParamType.Validate at h
  by_contra hne
  simp [hne] at h

theorem parseValue_total (key : GovParamKey) (ty : govParamType)
    (h : govParamTypes key = some ty) (v : Value) : ∃ r, ty.ParseValue v = .ok r := by
  unfold govParamType.ParseValue
  rcases hp : ty.parseValue v with ⟨x, ok⟩
  cases ok
  · exact ⟨_, rfl⟩
  · obtain ⟨b, hb⟩ := validate_total key ty h x
    simp only [hb]
    exact ⟨_, rfl⟩

theorem parseValue_accepts (ty : govParamType) (v x : Value)
    (h : ty.ParseValue v = .ok (x, true)) : ty.Validate x = .ok true := by
  unfold govParamType.ParseValue at h
  rcases hp : ty.parseValue v with ⟨y, ok⟩
  rw [hp] at h
  cases ok
  · simp at h
  · simp only at h
    cases hv : ty.Validate y with
    | error e => simp [hv] at h
    | ok b =>
      simp only [hv, run_pure, Except.ok.injEq, Prod.mk.injEq] at h
      obtain ⟨h1, h2⟩ := h
      subst h1 h2
      exact hv

/-- A value that an entry of the registry validates is its own canonical
form: `ParseValue` returns it unchanged. -/
theorem parseValue_canonical (key : GovParamKey) (ty : govParamType)
    (h : govParamTypes key = some ty) (x : Value) (hv : ty.Validate x = .ok true) :
    ty.ParseValue x = .ok (x, true) := by
  have hty := validate_true_type ty x hv
  have hparse : ty.parseValue x = (x, true) := by
    rcases registry_cases key ty h with h | h | h | h | h | h <;> subst h <;>
      cases x <;> simp [govParamTypeGovMode, govParamTypeAddress, govParamTypeUint64,
        govParamTypeBigInt, govParamTypeRatio, govParamTypeBool, typeOf, parseValueString] at hty ⊢
    rename_i s
    simp only [govParamType.Validate, govParamTypeBigInt, typeOf] at hv
    cases hs : bigSetString s with
    | none => simp [hs] at hv
    | some n => rfl
  unfold govParamType.ParseValue
  simp [hparse, hv]

theorem set_eq (p : GovParamSet) (key : GovParamKey) (value : Value) :
    ∃ err, p.set key value =
      .ok (if entryAccepted key value then .ok ⟨mapSet p.items key (parsedValue key value)⟩
        else .error err) := by
  unfold GovParamSet.set entryAccepted parsedValue
  cases hk : govParamTypes key with
  | none => exact ⟨.unknownKey, by simp⟩
  | some ty =>
    obtain ⟨⟨x, ok⟩, hr⟩ := parseValue_total key ty hk value
    simp only [hr]
    cases ok
    · exact ⟨.malformedValue, by simp⟩
    · exact ⟨.malformedValue, by simp⟩

theorem entryAccepted_valid (key : GovParamKey) (value : Value)
    (h : entryAccepted key value = true) : validItem key (parsedValue key value) := by
  unfold entryAccepted at h
  unfold parsedValue validItem
  cases hk : govParamTypes key with
  | none => simp [hk] at h
  | some ty =>
    simp only [hk] at h ⊢
    cases hr : ty.ParseValue value with
    | error e => simp [hr] at h
    | ok r =>
      obtain ⟨x, ok⟩ := r
      simp only [hr] at h ⊢
      subst h
      have hv := parseValue_accepts ty value x hr
      exact ⟨ty, rfl, validate_true_type ty x hv, hv⟩

theorem mapSet_new {κ α : Type} [DecidableEq κ] (m : List (κ × α)) (k : κ) (v : α)
    (h : k ∉ mapKeys m) : mapSet m k v = m ++ [(k, v)] := by
  induction m with
  | nil => rfl
  | cons e m ih =>
    obtain ⟨k1, v1⟩ := e
    simp only [mapKeys, List.map_cons, List.mem_cons, not_or] at h
    have hne : ¬ k1 = k := fun heq => h.1 heq.symm
    simp only [mapSet, hne, if_false, List.cons_append, List.cons.injEq, true_and]
    exact ih h.2

theorem mapKeys_mapSet {κ α : Type} [DecidableEq κ] (m : List (κ × α)) (k : κ) (v : α) :
    ∀ x, x ∈ mapKeys (mapSet m k v) ↔ x = k ∨ x ∈ mapKeys m := by
  induction m with
  | nil => intro x; simp [mapSet, mapKeys]
  | cons e m ih =>
    obtain ⟨k1, v1⟩ := e
    intro x
    by_cases hk : k1 = k
    · subst hk
      simp [mapSet, mapKeys]
    · have := ih x
      simp only [mapKeys] at this
      simp only [mapSet, hk, if_false, mapKeys, List.map_cons, List.mem_cons, this]
      tauto

theorem mapGet_mapSet_self {κ α : Type} [DecidableEq κ] (m : List (κ × α)) (k : κ) (v : α) :
    mapGet (mapSet m k v) k = some v := by
  induction m with
  | nil => simp [mapSet, mapGet]
  | cons e m ih =>
    obtain ⟨k1, v1⟩ := e
    by_cases hk : k1 = k
    · simp [mapSet, mapGet, hk]
    · simp [mapSet, mapGet, hk, ih]

theorem mapGet_mem {κ α : Type} [DecidableEq κ] (m : List (κ × α)) (k : κ) (v : α)
    (h : mapGet m k = some v) : (k, v) ∈ m := by
  induction m with
  | nil => cases h
  | cons e m ih =>
    obtain ⟨k1, v1⟩ := e
    unfold mapGet at h
    by_cases hk : k1 = k
    · simp only [hk, if_true, Option.some.injEq] at h
      subst hk h
      exact List.mem_cons_self _ _
    · simp only [hk, if_false] at h
      exact List.mem_cons_of_mem _ (ih h)

theorem names_cases (name : String) (key : GovParamKey)
    (h : mapGet govParamNames name = some key) :
    reverseName key = name ∧ (govParamTypes key).isSome = true := by
  have hmem := mapGet_mem govParamNames name key h
  simp only [govParamNames, List.mem_cons, Prod.mk.injEq, List.mem_singleton,
    List.not_mem_nil, or_false] at hmem
  rcases hmem with h | h | h | h | h | h | h | h | h | h | h | h | h <;>
    (obtain ⟨h1, h2⟩ := h; subst h1 h2; exact ⟨rfl, rfl⟩)

theorem names_reverse (name : String) (key : GovParamKey)
    (h : mapGet govParamNames name = some key) : reverseName key = name :=
  (names_cases name key h).1

theorem names_registered (name : String) (key : GovParamKey)
    (h : mapGet govParamNames name = some key) : (govParamTypes key).isSome = true :=
  (names_cases name key h).2

theorem reverse_names (key : GovParamKey) (h : (govParamTypes key).isSome = true) :
    mapGet govParamNames (reverseName key) = some key := by
  cases key <;> first
    | rfl
    | simp [govParamTypes] at h

theorem intMapLoop_ok (items : List (GovParamKey × Value)) :
    ∀ p : GovParamSet, (∀ e ∈ items, entryAccepted e.1 e.2 = true) →
      intMapLoop items p =
        .ok (.ok ⟨items.foldl (fun m e => mapSet m e.1 (parsedValue e.1 e.2)) p.items⟩) := by
  induction items with
  | nil => intro p _; rfl
  | cons e rest ih =>
    intro p hall
    obtain ⟨key, value⟩ := e
    obtain ⟨err, hset⟩ := set_eq p key value
    have hacc : entryAccepted key value = true := hall (key, value) (List.mem_cons_self _ _)
    unfold intMapLoop
    simp only [hset, hacc, if_true]
    rw [ih _ (fun x hx => hall x (List.mem_cons_of_mem _ hx))]
    rfl

theorem intMapLoop_err (items : List (GovParamKey × Value)) :
    ∀ p : GovParamSet, (∃ e ∈ items, entryAccepted e.1 e.2 = false) →
      ∃ err, intMapLoop items p = .ok (.error err) := by
  induction items with
  | nil => intro p h; obtain ⟨e, he, _⟩ := h; cases he
  | cons e rest ih =>
    intro p hex
    obtain ⟨key, value⟩ := e
    obtain ⟨err, hset⟩ := set_eq p key value
    unfold intMapLoop
    cases hacc : entryAccepted key value
    · simp only [hset, hacc, Bool.false_eq_true, if_false]
      exact ⟨err, rfl⟩
    · simp only [hset, hacc, if_true]
      apply ih
      obtain ⟨x, hx, hbad⟩ := hex
      rcases List.mem_cons.1 hx with h1 | h1
      · subst h1; simp [hacc] at hbad
      · exact ⟨x, h1, hbad⟩

theorem namedEntryAccepted_iff (name : String) (value : Value) :
    namedEntryAccepted name value = true ↔
      mapGet govParamNames name = some (resolvedKey name) ∧
        entryAccepted (resolvedKey name) value = true := by
  unfold namedEntryAccepted resolvedKey
  cases h : mapGet govParamNames name <;> simp

theorem strMapLoop_ok (items : List (String × Value)) :
    ∀ p : GovParamSet, (∀ e ∈ items, namedEntryAccepted e.1 e.2 = true) →
      strMapLoop items p =
        .ok (.ok ⟨items.foldl (fun m e =>
          mapSet m (resolvedKey e.1) (parsedValue (resolvedKey e.1) e.2)) p.items⟩) := by
  induction items with
  | nil => intro p _; rfl
  | cons e rest ih =>
    intro p hall
    obtain ⟨name, value⟩ := e
    obtain ⟨hname, hacc⟩ := (namedEntryAccepted_iff name value).1
      (hall (name, value) (List.mem_cons_self _ _))
    obtain ⟨err, hset⟩ := set_eq p (resolvedKey name) value
    unfold strMapLoop
    simp only [hname, hset, hacc, if_true]
    rw [ih _ (fun x hx => hall x (List.mem_cons_of_mem _ hx))]
    rfl

theorem strMapLoop_err (items : List (String × Value)) :
    ∀ p : GovParamSet, (∃ e ∈ items, namedEntryAccepted e.1 e.2 = false) →
      ∃ err, strMapLoop items p = .ok (.error err) := by
  induction items with
  | nil => intro p h; obtain ⟨e, he, _⟩ := h; cases he
  | cons e rest ih =>
    intro p hex
    obtain ⟨name, value⟩ := e
    unfold strMapLoop
    cases hname : mapGet govParamNames name with
    | none => exact ⟨_, rfl⟩
    | some key =>
      obtain ⟨err, hset⟩ := set_eq p key value
      simp only
      cases hacc : entryAccepted key value
      · simp only [hset, hacc, Bool.false_eq_true, if_false]
        exact ⟨err, rfl⟩
      · simp only [hset, hacc, if_true]
        apply ih
        obtain ⟨x, hx, hbad⟩ := hex
        rcases List.mem_cons.1 hx with h1 | h1
        · subst h1
          simp [namedEntryAccepted, hname, hacc] at hbad
        · exact ⟨x, h1, hbad⟩

theorem foldl_mapSet_fresh {κ α β : Type} [DecidableEq κ] (key : β → κ) (val : β → α) :
    ∀ (items : List β) (acc : List (κ × α)),
      (items.map key).Nodup → (∀ e ∈ items, key e ∉ mapKeys acc) →
      items.foldl (fun m e => mapSet m (key e) (val e)) acc =
        acc ++ items.map (fun e => (key e, val e)) := by
  intro items
  induction items with
  | nil => intro acc _ _; simp
  | cons e rest ih =>
    intro acc hnd hfresh
    simp only [List.map_cons, List.nodup_cons] at hnd
    simp only [List.foldl_cons, List.map_cons]
    rw [mapSet_new acc (key e) (val e) (hfresh e (List.mem_cons_self _ _))]
    rw [ih (acc ++ [(key e, val e)]) hnd.2]
    · simp
    · intro x hx
      simp only [mapKeys, List.map_append, List.map_cons, List.map_nil, List.mem_append,
        List.mem_singleton, not_or]
      refine ⟨hfresh x (List.mem_cons_of_mem _ hx), ?_⟩
      intro heq
      exact hnd.1 (by rw [← heq]; exact List.mem_map_of_mem key hx)

theorem resolvedKey_nodup (sitems : List (String × Value))
    (hnames : (mapKeys sitems).Nodup)
    (hall : ∀ e ∈ sitems, namedEntryAccepted e.1 e.2 = true) :
    (sitems.map (fun e => resolvedKey e.1)).Nodup := by
  have hmap : sitems.map (fun e => resolvedKey e.1) = (mapKeys sitems).map resolvedKey := by
    simp [mapKeys, List.map_map, Function.comp]
  rw [hmap]
  apply List.Nodup.map_on _ hnames
  intro n1 h1 n2 h2 heq
  simp only [mapKeys, List.mem_map] at h1 h2
  obtain ⟨e1, he1, rfl⟩ := h1
  obtain ⟨e2, he2, rfl⟩ := h2
  have r1 := names_reverse _ _ ((namedEntryAccepted_iff e1.1 e1.2).1 (hall e1 he1)).1
  have r2 := names_reverse _ _ ((namedEntryAccepted_iff e2.1 e2.2).1 (hall e2 he2)).1
  rw [← r1, ← r2, heq]

/-- Claim C3. Construction is all-or-nothing. For an input map (its keys are
pairwise distinct), `NewGovParamSetIntMap` returns an error, and no set, exactly
when some entry has a key outside the type registry or a value that
`ParseValue` of its key rejects; otherwise it returns the set whose keys are
the input keys and whose value at each key is the `ParseValue` result.
`NewGovParamSetStrMap` does the same after name resolution, and returns an
error when a name is not in the name table. -/
theorem construction_all_or_nothing (items : List (GovParamKey × Value))
    (sitems : List (String × Value))
    (hkeys : (mapKeys items).Nodup) (hnames : (mapKeys sitems).Nodup) :
    ((∃ err, NewGovParamSetIntMap items = .ok (.error err)) ↔
      ∃ e ∈ items, entryAccepted e.1 e.2 = false) ∧
    ((∀ e ∈ items, entryAccepted e.1 e.2 = true) →
      NewGovParamSetIntMap items =
        .ok (.ok ⟨items.map (fun e => (e.1, parsedValue e.1 e.2))⟩)) ∧
    ((∃ err, NewGovParamSetStrMap sitems = .ok (.error err)) ↔
      ∃ e ∈ sitems, namedEntryAccepted e.1 e.2 = false) ∧
    ((∀ e ∈ sitems, namedEntryAccepted e.1 e.2 = true) →
      NewGovParamSetStrMap sitems =
        .ok (.ok ⟨sitems.map (fun e =>
          (resolvedKey e.1, parsedValue (resolvedKey e.1) e.2))⟩)) ∧
    (∀ e ∈ sitems, mapGet govParamNames e.1 = none →
      ∃ err, NewGovParamSetStrMap sitems = .ok (.error err)) := by
  have hint : (∀ e ∈ items, entryAccepted e.1 e.2 = true) →
      NewGovParamSetIntMap items =
        .ok (.ok ⟨items.map (fun e => (e.1, parsedValue e.1 e.2))⟩) := by
    intro hall
    unfold NewGovParamSetIntMap
    rw [intMapLoop_ok items NewGovParamSet hall]
    have := foldl_mapSet_fresh (fun e : GovParamKey × Value => e.1)
      (fun e => parsedValue e.1 e.2) items [] hkeys (by simp [mapKeys])
    simp only [NewGovParamSet, this, List.nil_append]
  have hstr : (∀ e ∈ sitems, namedEntryAccepted e.1 e.2 = true) →
      NewGovParamSetStrMap sitems =
        .ok (.ok ⟨sitems.map (fun e =>
          (resolvedKey e.1, parsedValue (resolvedKey e.1) e.2))⟩) := by
    intro hall
    unfold NewGovParamSetStrMap
    rw [strMapLoop_ok sitems NewGovParamSet hall]
    have := foldl_mapSet_fresh (fun e : String × Value => resolvedKey e.1)
      (fun e => parsedValue (resolvedKey e.1) e.2) sitems []
      (resolvedKey_nodup sitems hnames hall) (by simp [mapKeys])
    simp only [NewGovParamSet, this, List.nil_append]
  refine ⟨⟨?_, fun h => intMapLoop_err items NewGovParamSet h⟩, hint,
    ⟨?_, fun h => strMapLoop_err sitems NewGovParamSet h⟩, hstr, ?_⟩
  · intro ⟨err, herr⟩
    by_contra hno
    have hall : ∀ e ∈ items, entryAccepted e.1 e.2 = true := by
      intro e he
      by_contra hne
      exact hno ⟨e, he, by simpa using hne⟩
    rw [hint hall] at herr
    cases herr
  · intro ⟨err, herr⟩
    by_contra hno
    have hall : ∀ e ∈ sitems, namedEntryAccepted e.1 e.2 = true := by
      intro e he
      by_contra hne
      exact hno ⟨e, he, by simpa using hne⟩
    rw [hstr hall] at herr
    cases herr
  · intro e he hnone
    exact strMapLoop_err sitems NewGovParamSet ⟨e, he, by simp [namedEntryAccepted, hnone]⟩

theorem construction_all_or_nothing_witness :
    ((∃ err, NewGovParamSetIntMap [(.Epoch, .int 604800), (.Ratio, .str "30/30/40")] =
        .ok (.error err)) ↔
      ∃ e ∈ [(GovParamKey.Epoch, Value.int 604800), (GovParamKey.Ratio, Value.str "30/30/40")],
        entryAccepted e.1 e.2 = false) ∧
    ((∀ e ∈ [(GovParamKey.Epoch, Value.int 604800), (GovParamKey.Ratio, Value.str "30/30/40")],
        entryAccepted e.1 e.2 = true) →
      NewGovParamSetIntMap [(.Epoch, .int 604800), (.Ratio, .str "30/30/40")] =
        .ok (.ok ⟨[(GovParamKey.Epoch, Value.int 604800),
          (GovParamKey.Ratio, Value.str "30/30/40")].map
            (fun e => (e.1, parsedValue e.1 e.2))⟩)) ∧
    ((∃ err, NewGovParamSetStrMap [("istanbul.epoch", .str "asdf")] = .ok (.error err)) ↔
      ∃ e ∈ [("istanbul.epoch", Value.str "asdf")], namedEntryAccepted e.1 e.2 = false) ∧
    ((∀ e ∈ [("istanbul.epoch", Value.str "asdf")], namedEntryAccepted e.1 e.2 = true) →
      NewGovParamSetStrMap [("istanbul.epoch", .str "asdf")] =
        .ok (.ok ⟨[("istanbul.epoch", Value.str "asdf")].map (fun e =>
          (resolvedKey e.1, parsedValue (resolvedKey e.1) e.2))⟩)) ∧
    (∀ e ∈ [("istanbul.epoch", Value.str "asdf")], mapGet govParamNames e.1 = none →
      ∃ err, NewGovParamSetStrMap [("istanbul.epoch", .str "asdf")] = .ok (.error err)) :=
  construction_all_or_nothing [(.Epoch, .int 604800), (.Ratio, .str "30/30/40")]
    [("istanbul.epoch", .str "asdf")] (by decide) (by decide)

theorem mem_mapSet {κ α : Type} [DecidableEq κ] (m : List (κ × α)) (k : κ) (v : α) :
    ∀ e ∈ mapSet m k v, e = (k, v) ∨ e ∈ m := by
  induction m with
  | nil => intro e he; simp [mapSet] at he; exact Or.inl he
  | cons e1 m ih =>
    obtain ⟨k1, v1⟩ := e1
    intro e he
    by_cases hk : k1 = k
    · simp only [mapSet, hk, if_true, List.mem_cons] at he
      rcases he with h | h
      · exact Or.inl h
      · exact Or.inr (List.mem_cons_of_mem _ h)
    · simp only [mapSet, hk, if_false, List.mem_cons] at he
      rcases he with h | h
      · exact Or.inr (by rw [h]; exact List.mem_cons_self _ _)
      · rcases ih e h with h2 | h2
        · exact Or.inl h2
        · exact Or.inr (List.mem_cons_of_mem _ h2)

theorem nodup_mapSet {κ α : Type} [DecidableEq κ] (m : List (κ × α)) (k : κ) (v : α)
    (h : (mapKeys m).Nodup) : (mapKeys (mapSet m k v)).Nodup := by
  induction m with
  | nil => simp [mapSet, mapKeys]
  | cons e1 m ih =>
    obtain ⟨k1, v1⟩ := e1
    simp only [mapKeys, List.map_cons, List.nodup_cons] at h
    by_cases hk : k1 = k
    · subst hk
      simpa [mapSet, mapKeys] using h
    · simp only [mapSet, hk, if_false, mapKeys, List.map_cons, List.nodup_cons]
      refine ⟨?_, ih h.2⟩
      intro hmem
      rcases (mapKeys_mapSet m k v k1).1 hmem with h1 | h1
      · exact hk h1
      · exact h.1 h1

theorem wellFormed_mapSet (items : List (GovParamKey × Value)) (key : GovParamKey)
    (value : Value) (h : wellFormedItems items) (hv : validItem key value) :
    wellFormedItems (mapSet items key value) := by
  refine ⟨?_, nodup_mapSet items key value h.2⟩
  intro e he
  rcases mem_mapSet items key value e he with h1 | h1
  · rw [h1]; exact hv
  · exact h.1 e h1

theorem intMapLoop_wellFormed (items : List (GovParamKey × Value)) :
    ∀ p q : GovParamSet, wellFormedItems p.items → intMapLoop items p = .ok (.ok q) →
      wellFormedItems q.items := by
  induction items with
  | nil =>
    intro p q hp h
    simp only [intMapLoop, run_pure, Except.ok.injEq] at h
    subst h; exact hp
  | cons e rest ih =>
    intro p q hp h
    obtain ⟨key, value⟩ := e
    obtain ⟨err, hset⟩ := set_eq p key value
    unfold intMapLoop at h
    cases hacc : entryAccepted key value
    · simp [hset, hacc] at h
    · simp only [hset, hacc, if_true] at h
      exact ih _ q (wellFormed_mapSet p.items key _ hp (entryAccepted_valid key value hacc)) h

theorem strMapLoop_wellFormed (items : List (String × Value)) :
    ∀ p q : GovParamSet, wellFormedItems p.items → strMapLoop items p = .ok (.ok q) →
      wellFormedItems q.items := by
  induction items with
  | nil =>
    intro p q hp h
    simp only [strMapLoop, run_pure, Except.ok.injEq] at h
    subst h; exact hp
  | cons e rest ih =>
    intro p q hp h
    obtain ⟨name, value⟩ := e
    unfold strMapLoop at h
    cases hname : mapGet govParamNames name with
    | none => simp [hname] at h
    | some key =>
      obtain ⟨err, hset⟩ := set_eq p key value
      simp only [hname] at h
      cases hacc : entryAccepted key value
      · simp [hset, hacc] at h
      · simp only [hset, hacc, if_true] at h
        exact ih _ q (wellFormed_mapSet p.items key _ hp (entryAccepted_valid key value hacc)) h

theorem builtByBuilder_wellFormed (p : GovParamSet) (h : builtByBuilder p) :
    wellFormedItems p.items := by
  have hempty : wellFormedItems NewGovParamSet.items := by
    refine ⟨?_, ?_⟩
    · intro e he; cases he
    · simp [NewGovParamSet, mapKeys]
  rcases h with h | ⟨items, h⟩ | ⟨items, h⟩ | ⟨config, h⟩
  · rw [h]; exact hempty
  · exact intMapLoop_wellFormed items _ p hempty h
  · exact strMapLoop_wellFormed items _ p hempty h
  · exact intMapLoop_wellFormed _ _ p hempty h

/-- Claim C4. Every value stored in a parameter set that a builder returned has
the canonical type registered for its key and passes the semantic validator of
the key. -/
theorem builders_store_validated_values (p : GovParamSet) (h : builtByBuilder p) :
    ∀ key value, (key, value) ∈ p.items →
      ∃ ty, govParamTypes key = some ty ∧ ty.canonicalType = typeOf value ∧
        ty.Validate value = .ok true := by
  intro key value hmem
  exact (builtByBuilder_wellFormed p h).1 (key, value) hmem

theorem builders_store_validated_values_witness :
    ∃ ty, govParamTypes .Ratio = some ty ∧ ty.canonicalType = typeOf (.str "30/30/40") ∧
      ty.Validate (.str "30/30/40") = .ok true :=
  builders_store_validated_values ⟨[(.Epoch, .uint64 604800), (.Ratio, .str "30/30/40")]⟩
    (Or.inr (Or.inl ⟨[(.Epoch, .int 604800), (.Ratio, .str "30/30/40")], by decide⟩))
    .Ratio (.str "30/30/40") (by decide)

theorem valid_accepted (key : GovParamKey) (value : Value) (h : validItem key value) :
    entryAccepted key value = true ∧ parsedValue key value = value := by
  obtain ⟨ty, hk, _, hv⟩ := h
  have := parseValue_canonical key ty hk value hv
  simp [entryAccepted, parsedValue, hk, this]

theorem valid_registered (key : GovParamKey) (value : Value) (h : validItem key value) :
    (govParamTypes key).isSome = true := by
  obtain ⟨ty, hk, _, _⟩ := h
  simp [hk]

theorem resolvedKey_reverseName (key : GovParamKey) (h : (govParamTypes key).isSome = true) :
    resolvedKey (reverseName key) = key := by
  unfold resolvedKey
  rw [reverse_names key h]
  rfl

theorem construction_like_strMap (sitems : List (String × Value))
    (hnames : (mapKeys sitems).Nodup)
    (hall : ∀ e ∈ sitems, namedEntryAccepted e.1 e.2 = true) :
    NewGovParamSetStrMap sitems =
      .ok (.ok ⟨sitems.map (fun e =>
        (resolvedKey e.1, parsedValue (resolvedKey e.1) e.2))⟩) := by
  unfold NewGovParamSetStrMap
  rw [strMapLoop_ok sitems NewGovParamSet hall]
  have := foldl_mapSet_fresh (fun e : String × Value => resolvedKey e.1)
    (fun e => parsedValue (resolvedKey e.1) e.2) sitems []
    (resolvedKey_nodup sitems hnames hall) (by simp [mapKeys])
  simp only [NewGovParamSet, this, List.nil_append]

/-- Claim C2. For every parameter set that a builder returned, rebuilding from
its name-keyed export and from its key-keyed export both succeed and return a
set with exactly the items of the original. -/
theorem export_import_roundtrip (p : GovParamSet) (h : builtByBuilder p) :
    NewGovParamSetStrMap p.StrMap = .ok (.ok p) ∧
      NewGovParamSetIntMap p.IntMap = .ok (.ok p) := by
  obtain ⟨hvalid, hnodup⟩ := builtByBuilder_wellFormed p h
  obtain ⟨items⟩ := p
  simp only at hvalid hnodup
  have hmapid : items.map (fun e => (e.1, parsedValue e.1 e.2)) = items := by
    conv_rhs => rw [← List.map_id items]
    apply List.map_congr_left
    intro e he
    simp [(valid_accepted e.1 e.2 (hvalid e he)).2]
  constructor
  · have hnames : (items.map (fun e => reverseName e.1)).Nodup := by
      have hm : items.map (fun e => reverseName e.1) = (mapKeys items).map reverseName := by
        simp [mapKeys, List.map_map, Function.comp]
      rw [hm]
      apply List.Nodup.map_on _ hnodup
      intro k1 h1 k2 h2 heq
      simp only [mapKeys, List.mem_map] at h1 h2
      obtain ⟨e1, he1, rfl⟩ := h1
      obtain ⟨e2, he2, rfl⟩ := h2
      rw [← resolvedKey_reverseName e1.1 (valid_registered _ _ (hvalid e1 he1)),
        ← resolvedKey_reverseName e2.1 (valid_registered _ _ (hvalid e2 he2)), heq]
    have hexport : GovParamSet.StrMap ⟨items⟩ = items.map (fun e => (reverseName e.1, e.2)) := by
      unfold GovParamSet.StrMap
      have := foldl_mapSet_fresh (fun e : GovParamKey × Value => reverseName e.1)
        (fun e => e.2) items [] hnames (by simp [mapKeys])
      simpa using this
    have hacc : ∀ e ∈ items.map (fun e => (reverseName e.1, e.2)),
        namedEntryAccepted e.1 e.2 = true := by
      intro e he
      obtain ⟨e0, he0, rfl⟩ := List.mem_map.1 he
      rw [namedEntryAccepted_iff]
      have hreg := valid_registered _ _ (hvalid e0 he0)
      simp only [resolvedKey_reverseName e0.1 hreg]
      exact ⟨reverse_names e0.1 hreg, (valid_accepted e0.1 e0.2 (hvalid e0 he0)).1⟩
    have hnd2 : (mapKeys (items.map (fun e => (reverseName e.1, e.2)))).Nodup := by
      simpa [mapKeys, List.map_map, Function.comp] using hnames
    rw [hexport, (construction_like_strMap _ hnd2 hacc)]
    have hback : (items.map (fun e => (reverseName e.1, e.2))).map
        (fun e => (resolvedKey e.1, parsedValue (resolvedKey e.1) e.2)) = items := by
      rw [List.map_map]
      conv_rhs => rw [← List.map_id items]
      apply List.map_congr_left
      intro e he
      have hreg := valid_registered _ _ (hvalid e he)
      simp [resolvedKey_reverseName e.1 hreg, (valid_accepted e.1 e.2 (hvalid e he)).2]
    rw [hback]
  · have hexport : GovParamSet.IntMap ⟨items⟩ = items := by
      unfold GovParamSet.IntMap
      have := foldl_mapSet_fresh (fun e : GovParamKey × Value => e.1) (fun e => e.2) items []
        hnodup (by simp [mapKeys])
      simpa using this
    rw [hexport]
    unfold NewGovParamSetIntMap
    rw [intMapLoop_ok items NewGovParamSet (fun e he => (valid_accepted e.1 e.2 (hvalid e he)).1)]
    have := foldl_mapSet_fresh (fun e : GovParamKey × Value => e.1)
      (fun e => parsedValue e.1 e.2) items [] hnodup (by simp [mapKeys])
    simp only [NewGovParamSet, this, List.nil_append, hmapid]

theorem export_import_roundtrip_witness :
    NewGovParamSetStrMap (GovParamSet.StrMap
        ⟨[(.Epoch, .uint64 604800), (.Policy, .uint64 2), (.CommitteeSize, .uint64 22),
          (.UnitPrice, .uint64 25000000000), (.GoverningNode, .address 1024),
          (.GovernanceMode, .str "single"), (.MintingAmount, .str "9600000000000000000"),
          (.Ratio, .str "34/54/12"), (.UseGiniCoeff, .bool true), (.DeferredTxFee, .bool true),
          (.StakeUpdateInterval, .uint64 86400), (.ProposerRefreshInterval, .uint64 3600),
          (.MinimumStake, .str "5000000")]⟩) =
      .ok (.ok ⟨[(.Epoch, .uint64 604800), (.Policy, .uint64 2), (.CommitteeSize, .uint64 22),
          (.UnitPrice, .uint64 25000000000), (.GoverningNode, .address 1024),
          (.GovernanceMode, .str "single"), (.MintingAmount, .str "9600000000000000000"),
          (.Ratio, .str "34/54/12"), (.UseGiniCoeff, .bool true), (.DeferredTxFee, .bool true),
          (.StakeUpdateInterval, .uint64 86400), (.ProposerRefreshInterval, .uint64 3600),
          (.MinimumStake, .str "5000000")]⟩) ∧
    NewGovParamSetIntMap (GovParamSet.IntMap
        ⟨[(.Epoch, .uint64 604800), (.Policy, .uint64 2), (.CommitteeSize, .uint64 22),
          (.UnitPrice, .uint64 25000000000), (.GoverningNode, .address 1024),
          (.GovernanceMode, .str "single"), (.MintingAmount, .str "9600000000000000000"),
          (.Ratio, .str "34/54/12"), (.UseGiniCoeff, .bool true), (.DeferredTxFee, .bool true),
          (.StakeUpdateInterval, .uint64 86400), (.ProposerRefreshInterval, .uint64 3600),
          (.MinimumStake, .str "5000000")]⟩) =
      .ok (.ok ⟨[(.Epoch, .uint64 604800), (.Policy, .uint64 2), (.CommitteeSize, .uint64 22),
          (.UnitPrice, .uint64 25000000000), (.GoverningNode, .address 1024),
          (.GovernanceMode, .str "single"), (.MintingAmount, .str "9600000000000000000"),
          (.Ratio, .str "34/54/12"), (.UseGiniCoeff, .bool true), (.DeferredTxFee, .bool true),
          (.StakeUpdateInterval, .uint64 86400), (.ProposerRefreshInterval, .uint64 3600),
          (.MinimumStake, .str "5000000")]⟩) :=
  export_import_roundtrip _
    (Or.inr (Or.inr (Or.inr
      ⟨⟨some ⟨604800, 2, 22⟩, 25000000000,
        some ⟨1024, "single",
          some ⟨some 9600000000000000000, "34/54/12", true, true, 86400, 3600,
            some 5000000⟩⟩⟩, by decide⟩)))

/-! ### Termination of the purge while the last vote stays -/

theorem removeVotesLoop_length (addr : Address) :
    ∀ (fuel : Nat) (votes : List GovernanceVote) (i : Nat) (ret r : List GovernanceVote),
      ret.length ≤ votes.length → removeVotesLoop addr fuel votes i ret = .ok r →
      r.length ≤ votes.length := by
  intro fuel
  induction fuel with
  | zero => intro votes i ret r _ h; cases h
  | succ fuel ih =>
    intro votes i ret r hlen h
    unfold removeVotesLoop at h
    cases hget : votes.get? i with
    | none =>
      simp only [hget, run_pure, Except.ok.injEq] at h
      subst h; exact hlen
    | some vote =>
      simp only [hget] at h
      have hi : i < votes.length := by
        by_contra hcon
        rw [List.get?_eq_none.2 (by omega)] at hget
        cases hget
      by_cases hv : vote.Validator = addr
      · simp only [hv, if_true] at h
        have h2 := ih _ i _ r (by
          rw [appendInPlace_length votes i hi]
          simp only [appendInPlace, List.length_append, List.length_take, List.length_drop]
          omega) h
        rw [appendInPlace_length votes i hi] at h2
        exact h2
      · simp only [hv, if_false] at h
        exact ih votes (i + 1) ret r hlen h

theorem drop_appendInPlace (votes : List GovernanceVote) (i : Nat) (g : GovernanceVote)
    (hi : i < votes.length) (hlast : votes.getLast? = some g) :
    (appendInPlace votes i).2.drop i = votes.drop (i + 1) ++ [g] := by
  simp only [appendInPlace, getLast?_drop_pred votes g hlast, List.append_assoc]
  rw [List.drop_append_eq_append_drop]
  have h1 : (List.take i votes).length = i := by
    rw [List.length_take]; omega
  simp [h1]

/-- The loop returns when the last vote was not cast by `addr`. -/
theorem removeVotesLoop_terminates (addr : Address) (g : GovernanceVote)
    (hg : g.Validator ≠ addr) :
    ∀ (fuel : Nat) (votes : List GovernanceVote) (i : Nat) (ret : List GovernanceVote),
      votes.getLast? = some g →
      (votes.length - i) + (votes.drop i).countP (fun x => decide (x.Validator = addr)) < fuel →
      ∃ r, removeVotesLoop addr fuel votes i ret = .ok r := by
  intro fuel
  induction fuel with
  | zero => intro votes i ret _ h; omega
  | succ fuel ih =>
    intro votes i ret hlast hfuel
    unfold removeVotesLoop
    cases hget : votes.get? i with
    | none => exact ⟨ret, rfl⟩
    | some vote =>
      have hi : i < votes.length := by
        by_contra hcon
        rw [List.get?_eq_none.2 (by omega)] at hget
        cases hget
      have hdrop : votes.drop i = vote :: votes.drop (i + 1) := by
        rw [List.drop_eq_getElem_cons hi]
        congr 1
        rw [List.get?_eq_getElem?, List.getElem?_eq_getElem hi] at hget
        simpa using hget
      simp only
      by_cases hv : vote.Validator = addr
      · simp only [hv, if_true]
        apply ih _ i _ (appendInPlace_getLast? votes i g hlast)
        rw [appendInPlace_length votes i hi, drop_appendInPlace votes i g hi hlast]
        rw [hdrop] at hfuel
        simp only [List.countP_cons, hv, decide_True, if_true] at hfuel
        simp only [List.countP_append, List.countP_cons, List.countP_nil, hg, decide_False,
          Bool.false_eq_true, if_false]
        omega
      · simp only [hv, if_false]
        apply ih votes (i + 1) ret hlast
        rw [hdrop] at hfuel
        simp only [List.countP_cons, hv, decide_False, Bool.false_eq_true, if_false] at hfuel
        omega

theorem removeValidatorsLoop_terminates (ops : ValidatorSet σ) (fuel : Nat)
    (g : GovernanceVote) :
    ∀ (targets : List Address) (valset : σ) (votes : List GovernanceVote),
      votes.getLast? = some g → (∀ t ∈ targets, g.Validator ≠ t) →
      2 * votes.length < fuel →
      ∃ r, removeValidatorsLoop ops fuel targets valset votes = .ok r := by
  intro targets
  induction targets with
  | nil => intro valset votes _ _ _; exact ⟨_, rfl⟩
  | cons target rest ih =>
    intro valset votes hlast hne hfuel
    unfold removeValidatorsLoop
    have hcount : (votes.drop 0).countP (fun x => decide (x.Validator = target)) ≤
        votes.length := by
      simpa using List.countP_le_length (fun x => decide (x.Validator = target)) (l := votes)
    obtain ⟨r, hr⟩ := removeVotesLoop_terminates target g (hne target (List.mem_cons_self _ _))
      fuel votes 0 votes hlast (by omega)
    have hlen := removeVotesLoop_length target fuel votes 0 votes r (le_refl _) hr
    have hl2 := removeVotesLoop_getLast? target g fuel votes 0 votes r hlast hlast hr
    simp only [removeVotesFromRemovedNode, hr]
    exact ih _ r hl2 (fun t ht => hne t (List.mem_cons_of_mem _ ht)) (by omega)

/-- A purge that returned did not have the caster of the last vote among its
targets. -/
theorem removeValidatorsLoop_targets (ops : ValidatorSet σ) (fuel : Nat) (g : GovernanceVote) :
    ∀ (targets : List Address) (valset : σ) (votes : List GovernanceVote)
      (r : σ × List GovernanceVote),
      votes.getLast? = some g →
      removeValidatorsLoop ops fuel targets valset votes = .ok r →
      ∀ t ∈ targets, g.Validator ≠ t := by
  intro targets
  induction targets with
  | nil => intro _ _ _ _ _ t ht; cases ht
  | cons target rest ih =>
    intro valset votes r hlast h
    unfold removeValidatorsLoop at h
    simp only at h
    cases hr : removeVotesFromRemovedNode fuel votes target with
    | error e => simp [hr] at h
    | ok r1 =>
      simp only [hr] at h
      unfold removeVotesFromRemovedNode at hr
      have hpos : 0 < votes.length := by
        cases votes with
        | nil => simp at hlast
        | cons a l => simp
      have hne : g.Validator ≠ target := by
        intro heq
        rw [removeVotesLoop_stuck target g heq fuel votes 0 votes hpos hlast] at hr
        cases hr
      have hl2 := removeVotesLoop_getLast? target g fuel votes 0 votes r1 hlast hlast hr
      intro t ht
      rcases List.mem_cons.1 ht with h1 | h1
      · rw [h1]; exact hne
      · exact ih _ r1 r hl2 h t h1

/-! ### The second cast returns -/

theorem addedResult_snd (gov : Governance) (key : String) (value : Value) (vp : Nat)
    (tally : List GovernanceTallyItem) :
    (addedResult gov key value vp tally).2 = addedTally gov key value vp tally := by
  unfold addedResult addedTally
  cases adjustFirst (matchesPair gov key value) (fun q => addU64 q vp) tally <;> rfl

theorem changeGovernanceTally_addedResult (gov : Governance)
    (tally : List GovernanceTallyItem) (key : String) (value : Value) (vp : Nat)
    (hE : ∀ v1, ∃ b, isEqualValue (gov.GovernanceKeyMap key) v1 value = .ok b) :
    changeGovernanceTally gov tally key value vp true =
      .ok (addedResult gov key value vp tally) := by
  rw [changeGovernanceTally_eq gov tally key value vp true hE, add_fun_eq]
  unfold addedResult
  cases adjustFirst (matchesPair gov key value) (fun q => addU64 q vp) tally <;> simp

theorem addedResult_nil (gov : Governance) (key : String) (value : Value) (vp : Nat) :
    addedResult gov key value vp [] = (vp, [⟨key, value, vp⟩]) := rfl

theorem addedResult_cons (gov : Governance) (key : String) (value : Value) (vp : Nat)
    (e : GovernanceTallyItem) (rest : List GovernanceTallyItem) :
    addedResult gov key value vp (e :: rest) =
      if matchesPair gov key value e then
        (addU64 e.Votes vp,
          if addU64 e.Votes vp = 0 then rest else ⟨e.Key, e.Value, addU64 e.Votes vp⟩ :: rest)
      else ((addedResult gov key value vp rest).1,
        e :: (addedResult gov key value vp rest).2) := by
  unfold addedResult
  simp only [adjustFirst]
  cases matchesPair gov key value e
  · simp only [Bool.false_eq_true, if_false]
    cases adjustFirst (matchesPair gov key value) (fun q => addU64 q vp) rest <;> simp
  · simp

/-- Taking the power of a vote back and adding it again returns what the first
addition returned, votes and tally. -/
theorem addedResult_cycle (gov : Governance) (key : String) (value : Value) (vp : Nat)
    (hrefl : matchesPair gov key value ⟨key, value, vp⟩ = true) :
    ∀ (t : List GovernanceTallyItem),
      (∀ e ∈ t, 0 < e.Votes ∧ e.Votes + vp < uint64Size) →
      addedResult gov key value vp
        (reducedTally gov key value vp (addedTally gov key value vp t)) =
          addedResult gov key value vp t := by
  intro t
  induction t with
  | nil =>
    intro _
    simp [addedTally_nil, reducedTally_cons, hrefl, addedResult_nil]
  | cons e rest ih =>
    intro hall
    obtain ⟨hpos, hb⟩ := hall e (List.mem_cons_self _ _)
    have hrest := ih (fun x hx => hall x (List.mem_cons_of_mem _ hx))
    cases hm : matchesPair gov key value e
    · simp only [addedTally_cons, reducedTally_cons, addedResult_cons, hm, Bool.false_eq_true,
        if_false, hrest]
    · have hadd : addU64 e.Votes vp = e.Votes + vp := by
        unfold addU64; exact Nat.mod_eq_of_lt hb
      have hne : e.Votes + vp ≠ 0 := by omega
      have hsub : e.Votes + vp - vp = e.Votes := by omega
      have hne2 : e.Votes ≠ 0 := by omega
      simp only [addedTally_cons, addedResult_cons, hm, if_true, hadd, hne, if_false,
        reducedTally_cons, matchesPair_votes, hsub, hne2]

theorem addNewVoteTally_formula (gov : Governance) (ops : ValidatorSet σ) (valset : σ)
    (tally : List GovernanceTallyItem) (gVote : GovernanceVote) (v : Validator)
    (governanceMode : GovernanceModeInt) (governingNode : Address)
    (hty : checkValueType gVote.Value (itemType (gov.GovernanceKeyMap gVote.Key)) = true)
    (hin : ops.GetByAddress valset gVote.Validator = some v) :
    addNewVoteTally gov ops valset tally gVote governanceMode governingNode =
      .ok (some (activationTest ops valset governanceMode governingNode gVote.Validator
          (addedResult gov gVote.Key gVote.Value v.votingPower tally).1,
        (addedResult gov gVote.Key gVote.Value v.votingPower tally).2)) := by
  have hE : ∀ v1, ∃ b, isEqualValue (gov.GovernanceKeyMap gVote.Key) v1 gVote.Value = .ok b :=
    fun v1 => isEqualValue_total _ v1 _ hty
  unfold addNewVoteTally activationTest
  simp only [hin, changeGovernanceTally_addedResult gov tally gVote.Key gVote.Value _ hE]
  rfl

theorem applyActivatedVote_targets (gov : Governance) (ops : ValidatorSet σ) (fuel : Nat)
    (valset : σ) (votes : List GovernanceVote) (tally : List GovernanceTallyItem)
    (gVote g : GovernanceVote) (blockNum : Nat) (writable : Bool) (o : Outcome σ)
    (l : List Address)
    (h : applyActivatedVote gov ops fuel valset votes tally gVote blockNum writable = .ok o)
    (hlast : votes.getLast? = some g)
    (hkey : gov.GovernanceKeyMap gVote.Key = .RemoveValidator)
    (hval : gVote.Value = .addressList l) :
    ∀ t ∈ l, g.Validator ≠ t := by
  unfold applyActivatedVote at h
  simp only [hkey, hval] at h
  cases hloop : removeValidatorsLoop ops fuel l valset votes with
  | error e => simp [hloop] at h
  | ok r => exact removeValidatorsLoop_targets ops fuel g l valset votes r hlast hloop

theorem applyActivatedVote_returns (gov : Governance) (ops : ValidatorSet σ) (fuel : Nat)
    (valset : σ) (votes : List GovernanceVote) (tally : List GovernanceTallyItem)
    (gVote g : GovernanceVote) (blockNum : Nat) (writable : Bool)
    (hty : checkValueType gVote.Value (itemType (gov.GovernanceKeyMap gVote.Key)) = true)
    (hlast : votes.getLast? = some g) (hfuel : 2 * votes.length < fuel)
    (htargets : ∀ l, gov.GovernanceKeyMap gVote.Key = .RemoveValidator →
      gVote.Value = .addressList l → ∀ t ∈ l, g.Validator ≠ t) :
    ∃ o, applyActivatedVote gov ops fuel valset votes tally gVote blockNum writable = .ok o := by
  by_cases hkey : gov.GovernanceKeyMap gVote.Key = .RemoveValidator
  · unfold applyActivatedVote
    simp only [hkey]
    rw [hkey] at hty
    cases hval : gVote.Value <;>
      simp only [hval, checkValueType, itemType, GovernanceItems, typeOf] at hty <;>
      first
      | exact ⟨_, rfl⟩
      | (simp at hty)
    rename_i l
    obtain ⟨r, hr⟩ := removeValidatorsLoop_terminates ops fuel g l valset votes hlast
      (htargets l hkey hval) hfuel
    simp only [hr]
    exact ⟨_, rfl⟩
  · obtain ⟨valset1, effects, h⟩ := applyActivatedVote_keeps_votes gov ops fuel valset votes
      tally gVote blockNum writable hkey hty
    exact ⟨_, h⟩

/-- What a returning `castVote` went through, for a log with at most one vote
of the caster for the key: the supersede step left a tally that keeps the
property `Q`, `addNewVote` returned on it, and the first vote of the caster for
the key in the returned log is the new vote. -/
theorem castVote_ok (gov : Governance) (ops : ValidatorSet σ) (fuel : Nat) (valset : σ)
    (votes : List GovernanceVote) (tally : List GovernanceTallyItem) (validator : Address)
    (gVote : GovernanceVote) (governanceMode : GovernanceModeInt) (governingNode : Address)
    (number : Nat) (writable : Bool) (o1 : Outcome σ)
    (Q : GovernanceTallyItem → Prop)
    (hQ : ∀ (e : GovernanceTallyItem) (q : Nat), Q e → 0 < q → q ≤ e.Votes →
      Q ⟨e.Key, e.Value, q⟩)
    (hall : ∀ e ∈ tally, Q e)
    (hcaster : gVote.Validator = validator)
    (hlog : votes.countP (castBy validator gVote.Key) ≤ 1)
    (h1 : castVote gov ops fuel valset votes tally validator gVote governanceMode
      governingNode number writable = .ok o1) :
    ∃ votesA tallyA o, (∀ e ∈ tallyA, Q e) ∧
      addNewVote gov ops fuel valset (votesA ++ [gVote]) tallyA gVote governanceMode
        governingNode number writable = .ok o ∧
      o1.valset = o.valset ∧ o1.votes = o.votes ∧ o1.tally = o.tally ∧
      o1.votes.find? (castBy validator gVote.Key) = some gVote := by
  unfold castVote at h1
  cases hrp : removePreviousVote gov ops valset votes tally validator gVote governanceMode
      governingNode writable with
  | error e => simp [hrp] at h1
  | ok r =>
    obtain ⟨votesA, tallyA, effA⟩ := r
    simp only [hrp] at h1
    cases hadd : addNewVote gov ops fuel valset (votesA ++ [gVote]) tallyA gVote governanceMode
        governingNode number writable with
    | error e => simp [hadd] at h1
    | ok o =>
      simp only [hadd, run_pure, Except.ok.injEq] at h1
      subst h1
      unfold removePreviousVote at hrp
      obtain ⟨hvA, hQA⟩ := removePreviousVoteLoop_ok gov ops valset tally validator gVote
        governanceMode governingNode writable Q hQ hall votes [] votesA tallyA effA (by simp)
        (by simpa using hrp)
      simp only [List.nil_append] at hvA
      refine ⟨votesA, tallyA, o, hQA, hadd, rfl, rfl, rfl, ?_⟩
      have hsub : (∀ x ∈ o.votes, x ∈ votesA ++ [gVote]) ∧
          ((votesA ++ [gVote]).getLast? = some gVote → o.votes.getLast? = some gVote) := by
        unfold addNewVote at hadd
        split at hadd
        · cases hadd
        · simp only [run_pure, Except.ok.injEq] at hadd
          subst hadd; exact ⟨fun x hx => hx, id⟩
        · exact (applyActivatedVote_ok gov ops fuel valset _ _ gVote gVote number writable o
            hadd).2
        · simp only [run_pure, Except.ok.injEq] at hadd
          subst hadd; exact ⟨fun x hx => hx, id⟩
      have hgself : castBy validator gVote.Key gVote = true :=
        (castBy_iff _ _ _).2 ⟨hcaster, rfl⟩
      apply find?_eq_of_unique _ _ _ (mem_of_getLast?_eq _ _ (hsub.2 (by simp))) hgself
      intro x hx hpx
      rcases List.mem_append.1 (hsub.1 x hx) with hxa | hxg
      · rw [hvA] at hxa
        have := eraseP_no_match _ votes hlog x hxa
        rw [this] at hpx
        cases hpx
      · exact List.mem_singleton.1 hxg

/-- Claim C6, as amended. When the log holds at most one vote of the caster
for the key, every tally entry holds positive power, and no entry overflows
`uint64` when the caster's power is added, then casting the same valid vote a
second time directly after the first cast has returned (supersede, append,
tally), by a caster who is an active validator with unchanged power, returns
again, and with the tally the first cast returned: every (key, value) pair
keeps its accumulated power. -/
theorem revote_idempotent (gov : Governance) (ops : ValidatorSet σ) (fuel fuel2 : Nat)
    (valset : σ) (votes : List GovernanceVote) (tally : List GovernanceTallyItem)
    (g0 gVote : GovernanceVote) (validator : Address) (governanceMode : GovernanceModeInt)
    (governingNode : Address) (number : Nat) (writable : Bool) (v v2 : Validator)
    (o1 : Outcome σ)
    (hvalid : ValidateVote gov g0 = .ok (gVote, true))
    (hcaster : gVote.Validator = validator)
    (hactive : ops.GetByAddress valset validator = some v)
    (hlog : votes.countP (castBy validator gVote.Key) ≤ 1)
    (hpos : ∀ e ∈ tally, 0 < e.Votes)
    (hbound : ∀ e ∈ tally, e.Votes + v.votingPower < uint64Size)
    (h1 : castVote gov ops fuel valset votes tally validator gVote governanceMode
      governingNode number writable = .ok o1)
    (hactive2 : ops.GetByAddress o1.valset validator = some v2)
    (hpower : v2.votingPower = v.votingPower)
    (hfuel : 2 * o1.votes.length < fuel2) :
    ∃ o2, castVote gov ops fuel2 o1.valset o1.votes o1.tally validator gVote governanceMode
        governingNode number writable = .ok o2 ∧
      o2.tally = o1.tally ∧
      ∀ key value, tallyPower gov key value o2.tally = tallyPower gov key value o1.tally := by
  have hty := (validateVote_checked gov g0 gVote hvalid).2
  have hE : ∀ v1, ∃ b, isEqualValue (gov.GovernanceKeyMap gVote.Key) v1 gVote.Value = .ok b :=
    fun v1 => isEqualValue_total _ v1 _ hty
  have hQ : ∀ (e : GovernanceTallyItem) (q : Nat),
      (0 < e.Votes ∧ e.Votes + v.votingPower < uint64Size) → 0 < q → q ≤ e.Votes →
      (0 < (⟨e.Key, e.Value, q⟩ : GovernanceTallyItem).Votes ∧
        (⟨e.Key, e.Value, q⟩ : GovernanceTallyItem).Votes + v.votingPower < uint64Size) := by
    intro e q he hq hle
    exact ⟨hq, by simp only; omega⟩
  obtain ⟨votesA, tallyA, o, hQA, hadd1, hvs, hvotes, htal, hfind⟩ := castVote_ok gov ops fuel
    valset votes tally validator gVote governanceMode governingNode number writable o1
    (fun e => 0 < e.Votes ∧ e.Votes + v.votingPower < uint64Size) hQ
    (fun e he => ⟨hpos e he, hbound e he⟩) hcaster hlog h1
  have hrefl : matchesPair gov gVote.Key gVote.Value ⟨gVote.Key, gVote.Value, v.votingPower⟩ =
      true := by
    unfold matchesPair
    simp [isEqualValue_refl _ _ hty]
  -- the first cast
  have ht1 := addNewVoteTally_formula gov ops valset tallyA gVote v governanceMode
    governingNode hty (by rw [hcaster]; exact hactive)
  have hot : o.tally = addedTally gov gVote.Key gVote.Value v.votingPower tallyA := by
    rw [← addedResult_snd]
    exact (addNewVote_ok gov ops fuel valset _ tallyA _ gVote gVote governanceMode
      governingNode number writable _ o ht1 hadd1).1
  have ho1t : o1.tally = addedTally gov gVote.Key gVote.Value v.votingPower tallyA := by
    rw [htal, hot]
  -- the supersede step of the second cast
  obtain ⟨cv, hct⟩ := changeGovernanceTally_remove gov o1.tally gVote.Key gVote.Value
    v2.votingPower hE
  obtain ⟨effects1, hrem⟩ := removePreviousVoteLoop_some gov ops o1.valset o1.tally
    (reducedTally gov gVote.Key gVote.Value v2.votingPower o1.tally) validator gVote gVote
    governanceMode governingNode writable v2 cv (by rw [hcaster]; exact hactive2) hct
    o1.votes [] (by simp) hfind
  simp only [List.nil_append, List.length_nil] at hrem
  -- the tally step of the second cast
  have ht2 := addNewVoteTally_formula gov ops o1.valset
    (reducedTally gov gVote.Key gVote.Value v2.votingPower o1.tally) gVote v2 governanceMode
    governingNode hty (by rw [hcaster]; exact hactive2)
  rw [hpower, ho1t, addedResult_cycle gov gVote.Key gVote.Value v.votingPower hrefl tallyA hQA]
    at ht2
  -- the length of the log the second cast tallies on
  have hlen : (o1.votes.eraseP (castBy validator gVote.Key) ++ [gVote]).length =
      o1.votes.length := by
    have hmem := List.mem_of_find?_eq_some hfind
    have hpos1 : 0 < o1.votes.length := List.length_pos_of_mem hmem
    rw [List.length_append, List.length_eraseP_of_mem hmem (List.find?_some hfind)]
    simp only [List.length_singleton]
    omega
  have hret : ∃ o2, addNewVote gov ops fuel2 o1.valset
      (o1.votes.eraseP (castBy validator gVote.Key) ++ [gVote])
      (reducedTally gov gVote.Key gVote.Value v2.votingPower o1.tally) gVote governanceMode
      governingNode number writable = .ok o2 ∧
      o2.tally = (addedResult gov gVote.Key gVote.Value v.votingPower tallyA).2 := by
    rw [hpower, ho1t]
    unfold addNewVote
    rw [ht2]
    cases hact2 : activationTest ops o1.valset governanceMode governingNode gVote.Validator
        (addedResult gov gVote.Key gVote.Value v.votingPower tallyA).1
    · exact ⟨_, rfl, rfl⟩
    · have hact1 : activationTest ops valset governanceMode governingNode gVote.Validator
          (addedResult gov gVote.Key gVote.Value v.votingPower tallyA).1 = true := by
        by_contra hne
        simp only [Bool.not_eq_true] at hne
        unfold addNewVote at hadd1
        rw [ht1, hne] at hadd1
        simp only [run_pure, Except.ok.injEq] at hadd1
        rw [← hadd1] at hvs
        simp only at hvs
        rw [hvs, hne] at hact2
        cases hact2
      unfold addNewVote at hadd1
      rw [ht1, hact1] at hadd1
      simp only at hadd1
      have htargets : ∀ l, gov.GovernanceKeyMap gVote.Key = .RemoveValidator →
          gVote.Value = .addressList l → ∀ t ∈ l, gVote.Validator ≠ t := by
        intro l hk hval
        exact applyActivatedVote_targets gov ops fuel valset _ _ gVote gVote number writable
          o l hadd1 (by simp) hk hval
      obtain ⟨o2, ho2⟩ := applyActivatedVote_returns gov ops fuel2 o1.valset
        (o1.votes.eraseP (castBy validator gVote.Key) ++ [gVote])
        (addedResult gov gVote.Key gVote.Value v.votingPower tallyA).2 gVote gVote number
        writable hty (by simp) (by rw [hlen]; exact hfuel) htargets
      exact ⟨o2, ho2, (applyActivatedVote_ok gov ops fuel2 o1.valset _ _ gVote gVote number
        writable o2 ho2).1⟩
  obtain ⟨o2, ho2, ho2t⟩ := hret
  have heq : o2.tally = o1.tally := by
    rw [ho2t, ho1t, addedResult_snd]
  refine ⟨⟨o2.valset, o2.votes, o2.tally, effects1 ++ o2.effects⟩, ?_, heq, ?_⟩
  · unfold castVote removePreviousVote
    simp only [hrem, ho2, run_pure]
  · intro key value
    simp only [heq]

theorem revote_idempotent_witness :
    ∃ o2, castVote (sampleGov .GovernanceMode_Ballot 1) councilOps 10 (unitCouncil [1, 2, 3])
        [⟨2, "istanbul.epoch", .uint64 5⟩, ⟨1, "istanbul.epoch", .uint64 5⟩]
        [⟨"istanbul.epoch", .uint64 5, 2⟩] 1 ⟨1, "istanbul.epoch", .uint64 5⟩
        .GovernanceMode_Ballot 1 9 false = .ok o2 ∧
      o2.tally = [⟨"istanbul.epoch", .uint64 5, 2⟩] ∧
      ∀ key value,
        tallyPower (sampleGov .GovernanceMode_Ballot 1) key value o2.tally =
          tallyPower (sampleGov .GovernanceMode_Ballot 1) key value
            [⟨"istanbul.epoch", .uint64 5, 2⟩] :=
  revote_idempotent (sampleGov .GovernanceMode_Ballot 1) councilOps 10 10
    (unitCouncil [1, 2, 3]) [⟨2, "istanbul.epoch", .uint64 5⟩] [⟨"istanbul.epoch", .uint64 5, 1⟩]
    ⟨1, " Istanbul.Epoch", .uint64 5⟩ ⟨1, "istanbul.epoch", .uint64 5⟩ 1 .GovernanceMode_Ballot 1
    9 false ⟨1, 1⟩ ⟨1, 1⟩
    ⟨unitCouncil [1, 2, 3], [⟨2, "istanbul.epoch", .uint64 5⟩, ⟨1, "istanbul.epoch", .uint64 5⟩],
      [⟨"istanbul.epoch", .uint64 5, 2⟩], []⟩
    (by decide) rfl (by decide) (by decide) (by decide) (by decide) (by decide) (by decide) rfl
    (by decide)

/-- Claim C6 fails as stated: the power of the pair (epoch, 7) after the second
cast differs from its power after the first. (1) The log holds two earlier
votes of the caster for the key; the second cast supersedes the other one and
the power doubles. (2) The entry holds `2 ^ 64 - 1` votes and the caster's
power 2 wraps it to 1; the second cast leaves 2. (3) The tally holds an entry
without votes and a second entry for the pair; the second cast moves the power
to the second entry. -/
theorem revote_counterexample :
    (∃ o1 o2,
      castVote (sampleGov .GovernanceMode_Ballot 1) councilOps 10 (unitCouncil [1, 2, 3])
        [⟨1, "istanbul.epoch", .uint64 5⟩, ⟨1, "istanbul.epoch", .uint64 6⟩]
        [⟨"istanbul.epoch", .uint64 5, 1⟩, ⟨"istanbul.epoch", .uint64 6, 1⟩] 1
        ⟨1, "istanbul.epoch", .uint64 7⟩ .GovernanceMode_Ballot 1 9 false = .ok o1 ∧
      castVote (sampleGov .GovernanceMode_Ballot 1) councilOps 10 o1.valset o1.votes o1.tally 1
        ⟨1, "istanbul.epoch", .uint64 7⟩ .GovernanceMode_Ballot 1 9 false = .ok o2 ∧
      tallyPower (sampleGov .GovernanceMode_Ballot 1) "istanbul.epoch" (.uint64 7) o1.tally =
        .ok (some 1) ∧
      tallyPower (sampleGov .GovernanceMode_Ballot 1) "istanbul.epoch" (.uint64 7) o2.tally =
        .ok (some 2)) ∧
    (∃ o1 o2,
      castVote (sampleGov .GovernanceMode_Ballot 1) councilOps 10
        ⟨[⟨1, 2⟩, ⟨2, 1⟩, ⟨3, 1⟩], [], 1⟩ []
        [⟨"istanbul.epoch", .uint64 7, 18446744073709551615⟩] 1
        ⟨1, "istanbul.epoch", .uint64 7⟩ .GovernanceMode_Ballot 1 9 false = .ok o1 ∧
      castVote (sampleGov .GovernanceMode_Ballot 1) councilOps 10 o1.valset o1.votes o1.tally 1
        ⟨1, "istanbul.epoch", .uint64 7⟩ .GovernanceMode_Ballot 1 9 false = .ok o2 ∧
      tallyPower (sampleGov .GovernanceMode_Ballot 1) "istanbul.epoch" (.uint64 7) o1.tally =
        .ok (some 1) ∧
      tallyPower (sampleGov .GovernanceMode_Ballot 1) "istanbul.epoch" (.uint64 7) o2.tally =
        .ok (some 2)) ∧
    (∃ o1 o2,
      castVote (sampleGov .GovernanceMode_Ballot 1) councilOps 10 (unitCouncil [1, 2, 3]) []
        [⟨"istanbul.epoch", .uint64 7, 0⟩, ⟨"istanbul.epoch", .uint64 7, 5⟩] 1
        ⟨1, "istanbul.epoch", .uint64 7⟩ .GovernanceMode_Ballot 1 9 false = .ok o1 ∧
      castVote (sampleGov .GovernanceMode_Ballot 1) councilOps 10 o1.valset o1.votes o1.tally 1
        ⟨1, "istanbul.epoch", .uint64 7⟩ .GovernanceMode_Ballot 1 9 false = .ok o2 ∧
      tallyPower (sampleGov .GovernanceMode_Ballot 1) "istanbul.epoch" (.uint64 7) o1.tally =
        .ok (some 1) ∧
      tallyPower (sampleGov .GovernanceMode_Ballot 1) "istanbul.epoch" (.uint64 7) o2.tally =
        .ok (some 6)) := by
  refine ⟨⟨_, _, rfl, rfl, ?_, ?_⟩, ⟨_, _, rfl, rfl, ?_, ?_⟩, ⟨_, _, rfl, rfl, ?_, ?_⟩⟩ <;>
    decide

/-! ### Termination of the purge loop -/

/-- A list whose last vote was cast by the address to purge exhausts every
budget. -/
theorem removeVotesFromRemovedNode_last (fuel : Nat) (votes : List GovernanceVote)
    (g : GovernanceVote) :
    removeVotesFromRemovedNode fuel (votes ++ [g]) g.Validator = .error .outOfFuel := by
  unfold removeVotesFromRemovedNode
  exact removeVotesLoop_stuck g.Validator g rfl fuel (votes ++ [g]) 0 (votes ++ [g])
    (by simp) (by simp)

/-- Claim C11, the code at the failing input. Whenever the last vote of the
list was cast by the address to purge, the loop of `removeVotesFromRemovedNode`
has not returned after any number of iterations: the copy leaves the last cell
in place and the index is rewound onto it. Under mode None, validator 1 votes to
remove the addresses 1 and 2; its vote is the last of the log when the purge of
address 1 starts, so `HandleGovernanceVote` has not returned within any budget. -/
theorem handleGovernanceVote_never_returns :
    (∀ (fuel : Nat) (votes : List GovernanceVote) (g : GovernanceVote),
      removeVotesFromRemovedNode fuel (votes ++ [g]) g.Validator = .error .outOfFuel) ∧
    (∀ fuel : Nat,
      HandleGovernanceVote (sampleGov .GovernanceMode_None 1) councilOps fuel
        (unitCouncil [1, 2, 3]) [] []
        ⟨.parsed ⟨1, "governance.removevalidator", .addressList [1, 2]⟩, 9⟩ 1 7 false =
      .error .outOfFuel) := by
  refine ⟨removeVotesFromRemovedNode_last, fun fuel => ?_⟩
  have h := removeVotesFromRemovedNode_last fuel []
    ⟨1, "governance.removevalidator", .addressList [1, 2]⟩
  have hkey : sampleKeyMap "governance.removevalidator" = .RemoveValidator := by decide
  have hadm : anyInadmissible councilOps (unitCouncil [1, 2, 3]) false
      (listedAddresses (.addressList [1, 2])) = false := by decide
  have hval : ValidateVote (sampleGov .GovernanceMode_None 1)
      ⟨1, "governance.removevalidator", .addressList [1, 2]⟩ =
      .ok (⟨1, "governance.removevalidator", .addressList [1, 2]⟩, true) := by decide
  have hprev : removePreviousVote (sampleGov .GovernanceMode_None 1) councilOps
      (unitCouncil [1, 2, 3]) [] [] 1 ⟨1, "governance.removevalidator", .addressList [1, 2]⟩
      .GovernanceMode_None 1 false = .ok ([], [], []) := by decide
  have htally : addNewVoteTally (sampleGov .GovernanceMode_None 1) councilOps
      (unitCouncil [1, 2, 3]) [] ⟨1, "governance.removevalidator", .addressList [1, 2]⟩
      .GovernanceMode_None 1 =
      .ok (some (true, [⟨"governance.removevalidator", .addressList [1, 2], 1⟩])) := by decide
  simp only [List.nil_append] at h
  simp only [sampleGov] at hval hprev htally
  simp only [HandleGovernanceVote, sampleGov, hkey, hadm, processVote, castVote, addNewVote,
    applyActivatedVote, removeValidatorsLoop, hval, hprev, htally, h, List.nil_append]
  rfl

/-! ### Activation in Single mode -/

/-- Claim C12. In Single mode a valid vote cast by an active validator activates in
`addNewVote` exactly when the caster is the governing node, whatever the tally
holds; the caster's power is added to the tally in either case, and a vote of
any other validator leaves `addNewVote` without activating. -/
theorem single_mode_activation (gov : Governance) (ops : ValidatorSet σ) (valset : σ)
    (tally : List GovernanceTallyItem) (g0 gVote : GovernanceVote) (v : Validator)
    (governingNode : Address)
    (hvalid : ValidateVote gov g0 = .ok (gVote, true))
    (hin : ops.GetByAddress valset gVote.Validator = some v) :
    addNewVoteTally gov ops valset tally gVote .GovernanceMode_Single governingNode =
        .ok (some (decide (gVote.Validator = governingNode),
          addedTally gov gVote.Key gVote.Value v.votingPower tally)) ∧
      ∀ (fuel : Nat) (votes : List GovernanceVote) (blockNum : Nat) (writable : Bool),
        addNewVote gov ops fuel valset votes tally gVote .GovernanceMode_Single governingNode
            blockNum writable =
          if gVote.Validator = governingNode then
            applyActivatedVote gov ops fuel valset votes
              (addedTally gov gVote.Key gVote.Value v.votingPower tally) gVote blockNum writable
          else
            .ok ⟨valset, votes,
              addedTally gov gVote.Key gVote.Value v.votingPower tally, []⟩ := by
  have hty := (validateVote_checked gov g0 gVote hvalid).2
  have htally : addNewVoteTally gov ops valset tally gVote .GovernanceMode_Single
      governingNode = .ok (some (decide (gVote.Validator = governingNode),
        addedTally gov gVote.Key gVote.Value v.votingPower tally)) := by
    rw [addNewVoteTally_formula gov ops valset tally gVote v .GovernanceMode_Single
      governingNode hty hin, addedResult_snd]
    simp [activationTest, isGovernanceModeSingleOrNone]
  refine ⟨htally, ?_⟩
  intro fuel votes blockNum writable
  unfold addNewVote
  rw [htally]
  by_cases hg : gVote.Validator = governingNode <;> simp [hg]

theorem single_mode_activation_witness :
    addNewVoteTally (sampleGov .GovernanceMode_Single 1) councilOps (unitCouncil [1, 2, 3])
        [⟨"istanbul.epoch", .uint64 7, 2⟩] ⟨2, "istanbul.epoch", .uint64 7⟩
        .GovernanceMode_Single 1 =
        .ok (some (decide ((2 : Address) = 1),
          addedTally (sampleGov .GovernanceMode_Single 1) "istanbul.epoch" (.uint64 7) 1
            [⟨"istanbul.epoch", .uint64 7, 2⟩])) ∧
      ∀ (fuel : Nat) (votes : List GovernanceVote) (blockNum : Nat) (writable : Bool),
        addNewVote (sampleGov .GovernanceMode_Single 1) councilOps fuel (unitCouncil [1, 2, 3])
            votes [⟨"istanbul.epoch", .uint64 7, 2⟩] ⟨2, "istanbul.epoch", .uint64 7⟩
            .GovernanceMode_Single 1 blockNum writable =
          if (2 : Address) = 1 then
            applyActivatedVote (sampleGov .GovernanceMode_Single 1) councilOps fuel
              (unitCouncil [1, 2, 3]) votes
              (addedTally (sampleGov .GovernanceMode_Single 1) "istanbul.epoch" (.uint64 7) 1
                [⟨"istanbul.epoch", .uint64 7, 2⟩]) ⟨2, "istanbul.epoch", .uint64 7⟩
              blockNum writable
          else
            .ok ⟨unitCouncil [1, 2, 3], votes,
              addedTally (sampleGov .GovernanceMode_Single 1) "istanbul.epoch" (.uint64 7) 1
                [⟨"istanbul.epoch", .uint64 7, 2⟩], []⟩ :=
  single_mode_activation (sampleGov .GovernanceMode_Single 1) councilOps (unitCouncil [1, 2, 3])
    [⟨"istanbul.epoch", .uint64 7, 2⟩] ⟨2, " Istanbul.Epoch", .float64 (.finite false 7 0)⟩
    ⟨2, "istanbul.epoch", .uint64 7⟩ ⟨2, 1⟩ 1 (by decide) (by decide)

/-! ### Uniqueness of tally entries -/

theorem Float64.beq_comm (f1 f2 : Float64) : Float64.beq f1 f2 = Float64.beq f2 f1 := by
  cases f1 <;> cases f2 <;> simp only [Float64.beq]
  · rw [min_comm, Bool.and_comm]
    congr 1
    rw [Bool.eq_iff_iff]
    simp only [Bool.and_eq_true, beq_iff_eq]
    constructor <;> rintro ⟨h1, h2⟩ <;> exact ⟨h1.symm, h2.symm⟩
  · rw [Bool.eq_iff_iff]
    simp only [beq_iff_eq]
    exact eq_comm

theorem isEqualValue_symm (k : GovParamKey) (v1 v2 : Value) :
    isEqualValue k v1 v2 = isEqualValue k v2 v1 := by
  unfold isEqualValue
  by_cases hty : typeOf v1 = typeOf v2
  · cases v1 <;> cases v2 <;> simp_all [typeOf, interfaceEq, eq_comm]
    rw [Float64.beq_comm]
  · have hty2 : typeOf v2 ≠ typeOf v1 := fun h => hty h.symm
    simp [hty, hty2]

/-- The loop of `changeGovernanceTally`, when it returns, has rewritten the
first entry it matches. -/
theorem changeGovernanceTallyLoop_returns (gov : Governance) (key : String) (value : Value)
    (vp : Nat) (isAdd : Bool) :
    ∀ (rest pre : List GovernanceTallyItem) (r : Option (Nat × List GovernanceTallyItem)),
      changeGovernanceTallyLoop gov (pre ++ rest) key value vp isAdd pre.length rest = .ok r →
      r = (adjustFirst (matchesPair gov key value)
          (fun q => if isAdd then addU64 q vp else if q > vp then q - vp else 0) rest).map
            (fun r => (r.1, pre ++ r.2)) := by
  intro rest
  induction rest with
  | nil =>
    intro pre r h
    simp only [changeGovernanceTallyLoop, run_pure, Except.ok.injEq] at h
    subst h
    rfl
  | cons e rest ih =>
    intro pre r h
    unfold changeGovernanceTallyLoop at h
    simp only [run_pure] at h
    cases heq : (if e.Key = key then isEqualValue (gov.GovernanceKeyMap key) e.Value value
        else .ok false) with
    | error err => simp [heq] at h
    | ok b =>
      have hm : matchesPair gov key value e = b := by
        unfold matchesPair
        simp only [run_pure]
        rw [heq]
      simp only [heq] at h
      cases b with
      | false =>
        simp only at h
        have h2 := ih (pre ++ [e]) r
          (by simpa only [List.append_assoc, List.singleton_append, List.length_append,
            List.length_singleton] using h)
        rw [h2]
        simp only [adjustFirst, hm, Bool.false_eq_true, if_false]
        cases adjustFirst (matchesPair gov key value)
          (fun q => if isAdd then addU64 q vp else if q > vp then q - vp else 0) rest <;> simp
      | true =>
        simp only [run_pure, Except.ok.injEq, take_drop_middle, set_middle] at h
        subst h
        simp only [adjustFirst, hm, if_true, Option.map_some']
        by_cases hz : (if isAdd = true then addU64 e.Votes vp
            else if e.Votes > vp then e.Votes - vp else 0) = 0 <;> simp [hz]

/-- What `changeGovernanceTally` yields when it returns. -/
theorem changeGovernanceTally_returns (gov : Governance) (tally : List GovernanceTallyItem)
    (key : String) (value : Value) (vp : Nat) (isAdd : Bool)
    (r : Nat × List GovernanceTallyItem)
    (h : changeGovernanceTally gov tally key value vp isAdd = .ok r) :
    r = (match adjustFirst (matchesPair gov key value)
          (fun q => if isAdd then addU64 q vp else if q > vp then q - vp else 0) tally with
        | some r => r
        | none => if isAdd then (vp, tally ++ [⟨key, value, vp⟩]) else (0, tally)) := by
  unfold changeGovernanceTally at h
  cases hl : changeGovernanceTallyLoop gov tally key value vp isAdd 0 tally with
  | error e => simp [hl] at h
  | ok o =>
    have h2 := changeGovernanceTallyLoop_returns gov key value vp isAdd tally [] o
      (by simpa using hl)
    simp only [hl] at h
    simp only [List.nil_append] at h2
    cases ha : adjustFirst (matchesPair gov key value)
        (fun q => if isAdd then addU64 q vp else if q > vp then q - vp else 0) tally with
    | none =>
      rw [ha] at h2
      simp only [Option.map_none'] at h2
      subst h2
      cases isAdd <;> simp_all
    | some x =>
      rw [ha] at h2
      simp only [Option.map_some'] at h2
      subst h2
      simp_all

/-- Every entry `adjustFirst` leaves has the key and the value of an entry of
the list it was given, and an entry it drops leaves no trace. -/
theorem adjustFirst_entries (m : GovernanceTallyItem → Bool) (f : Nat → Nat) :
    ∀ (tally : List GovernanceTallyItem) (r : Nat × List GovernanceTallyItem),
      adjustFirst m f tally = some r →
      ∀ b ∈ r.2, ∃ b0 ∈ tally, b.Key = b0.Key ∧ b.Value = b0.Value := by
  intro tally
  induction tally with
  | nil => intro r h; simp [adjustFirst] at h
  | cons e rest ih =>
    intro r h b hb
    unfold adjustFirst at h
    by_cases hm : m e = true
    · simp only [hm, if_true, Option.some.injEq] at h
      subst h
      by_cases hz : f e.Votes = 0
      · simp only [hz, if_true] at hb
        exact ⟨b, List.mem_cons_of_mem _ hb, rfl, rfl⟩
      · simp only [hz, if_false, List.mem_cons] at hb
        rcases hb with hb | hb
        · subst hb
          exact ⟨e, List.mem_cons_self _ _, rfl, rfl⟩
        · exact ⟨b, List.mem_cons_of_mem _ hb, rfl, rfl⟩
    · simp only [hm, Bool.false_eq_true, if_false, Option.map_eq_some'] at h
      obtain ⟨r1, hr1, hr⟩ := h
      subst hr
      simp only [List.mem_cons] at hb
      rcases hb with hb | hb
      · subst hb
        exact ⟨b, List.mem_cons_self _ _, rfl, rfl⟩
      · obtain ⟨b0, hb0, hk⟩ := ih r1 hr1 b hb
        exact ⟨b0, List.mem_cons_of_mem _ hb0, hk⟩

/-- Whether an entry is matched with a pair depends on its key and value only. -/
theorem matchesPair_congr (gov : Governance) (key : String) (value : Value)
    (a b : GovernanceTallyItem) (hk : a.Key = b.Key) (hv : a.Value = b.Value) :
    matchesPair gov key value a = matchesPair gov key value b := by
  unfold matchesPair
  rw [hk, hv]

theorem adjustFirst_unique (gov : Governance) (m : GovernanceTallyItem → Bool)
    (f : Nat → Nat) :
    ∀ (tally : List GovernanceTallyItem) (r : Nat × List GovernanceTallyItem),
      uniquePairs gov tally → adjustFirst m f tally = some r → uniquePairs gov r.2 := by
  intro tally
  induction tally with
  | nil => intro r _ h; simp [adjustFirst] at h
  | cons e rest ih =>
    intro r hu h
    unfold uniquePairs at hu
    rw [List.pairwise_cons] at hu
    obtain ⟨hhead, htail⟩ := hu
    have h0 := h
    unfold adjustFirst at h
    by_cases hm : m e = true
    · simp only [hm, if_true, Option.some.injEq] at h
      subst h
      by_cases hz : f e.Votes = 0
      · simpa only [hz, if_true] using htail
      · simp only [hz, if_false]
        unfold uniquePairs
        rw [List.pairwise_cons]
        refine ⟨fun b hb => ?_, htail⟩
        rw [matchesPair_congr gov b.Key b.Value ⟨e.Key, e.Value, f e.Votes⟩ e rfl rfl]
        exact hhead b hb
    · simp only [hm, Bool.false_eq_true, if_false, Option.map_eq_some'] at h
      obtain ⟨r1, hr1, hr⟩ := h
      subst hr
      unfold uniquePairs
      rw [List.pairwise_cons]
      refine ⟨fun b hb => ?_, ih r1 htail hr1⟩
      obtain ⟨b0, hb0, hk, hv⟩ := adjustFirst_entries m f rest r1 hr1 b hb
      rw [hk, hv]
      exact hhead b0 hb0

theorem adjustFirst_none (m : GovernanceTallyItem → Bool) (f : Nat → Nat) :
    ∀ (tally : List GovernanceTallyItem), adjustFirst m f tally = none →
      ∀ a ∈ tally, m a = false := by
  intro tally
  induction tally with
  | nil => intro _ a ha; cases ha
  | cons e rest ih =>
    intro h a ha
    unfold adjustFirst at h
    by_cases hm : m e = true
    · simp [hm] at h
    · simp only [hm, Bool.false_eq_true, if_false, Option.map_eq_none'] at h
      simp only [List.mem_cons] at ha
      rcases ha with ha | ha
      · subst ha
        simpa using hm
      · exact ih h a ha

/-- A value that is comparable under the key makes every comparison of
`changeGovernanceTally` return. -/
theorem isEqualValue_comparable (gov : Governance) (key : String) (value : Value)
    (h : comparableUnder gov key value = true) (v1 : Value) :
    ∃ b, isEqualValue (gov.GovernanceKeyMap key) v1 value = .ok b := by
  unfold comparableUnder at h
  unfold isEqualValue
  by_cases hty : typeOf v1 = typeOf value
  · by_cases hk : itemType (gov.GovernanceKeyMap key) = .addressT
    · cases v1 <;> cases value <;> simp_all [typeOf, interfaceEq]
    · simp only [hk, decide_False, Bool.or_false, decide_eq_true_eq] at h
      cases v1 <;> cases value <;> simp_all [typeOf, interfaceEq]
  · exact ⟨false, by simp [hty]⟩

/-- Claim C13. A tally with at most one entry per (key, value) pair keeps that
property through `changeGovernanceTally`, for adding and for removing and for
every key, value and voting power; and the call returns whenever the value is
comparable under the key. -/
theorem tally_uniqueness_preserved (gov : Governance) (tally : List GovernanceTallyItem)
    (key : String) (value : Value) (vp : Nat) (isAdd : Bool)
    (h : uniquePairs gov tally) :
    (∀ cv ret, changeGovernanceTally gov tally key value vp isAdd = .ok (cv, ret) →
      uniquePairs gov ret) ∧
    (comparableUnder gov key value = true →
      ∃ cv ret, changeGovernanceTally gov tally key value vp isAdd = .ok (cv, ret)) := by
  constructor
  · intro cv ret hret
    have hr := changeGovernanceTally_returns gov tally key value vp isAdd (cv, ret) hret
    cases ha : adjustFirst (matchesPair gov key value)
        (fun q => if isAdd then addU64 q vp else if q > vp then q - vp else 0) tally with
    | some x =>
      rw [ha] at hr
      simp only at hr
      have := adjustFirst_unique gov _ _ tally x h ha
      rw [← hr] at this
      exact this
    | none =>
      rw [ha] at hr
      have hnone := adjustFirst_none _ _ tally ha
      cases isAdd with
      | false =>
        simp only [Bool.false_eq_true, if_false, Prod.mk.injEq] at hr
        rw [hr.2]
        exact h
      | true =>
        simp only [if_true, Prod.mk.injEq] at hr
        rw [hr.2]
        unfold uniquePairs
        rw [List.pairwise_append]
        refine ⟨h, List.pairwise_singleton _ _, fun a ha b hb => ?_⟩
        simp only [List.mem_singleton] at hb
        subst hb
        exact hnone a ha
  · intro hc
    have hE := isEqualValue_comparable gov key value hc
    exact ⟨_, _, changeGovernanceTally_eq gov tally key value vp isAdd hE⟩

theorem matchesPair_symm (gov : Governance) (a b : GovernanceTallyItem) :
    matchesPair gov b.Key b.Value a = matchesPair gov a.Key a.Value b := by
  unfold matchesPair
  by_cases hk : a.Key = b.Key
  · rw [hk, isEqualValue_symm]
  · have hk2 : ¬ b.Key = a.Key := fun h => hk h.symm
    simp [hk, hk2]

theorem tally_uniqueness_preserved_witness :
    uniquePairs (sampleGov .GovernanceMode_Ballot 1)
      [⟨"istanbul.epoch", .uint64 5, 1⟩, ⟨"istanbul.epoch", .uint64 6, 2⟩] ∧
    (∀ cv ret, changeGovernanceTally (sampleGov .GovernanceMode_Ballot 1)
        [⟨"istanbul.epoch", .uint64 5, 1⟩, ⟨"istanbul.epoch", .uint64 6, 2⟩]
        "istanbul.epoch" (.uint64 5) 1 false = .ok (cv, ret) →
      uniquePairs (sampleGov .GovernanceMode_Ballot 1) ret) ∧
    (comparableUnder (sampleGov .GovernanceMode_Ballot 1) "istanbul.epoch" (.uint64 5) = true →
      ∃ cv ret, changeGovernanceTally (sampleGov .GovernanceMode_Ballot 1)
        [⟨"istanbul.epoch", .uint64 5, 1⟩, ⟨"istanbul.epoch", .uint64 6, 2⟩]
        "istanbul.epoch" (.uint64 5) 1 false = .ok (cv, ret)) :=
  ⟨by unfold uniquePairs; decide,
    tally_uniqueness_preserved (sampleGov .GovernanceMode_Ballot 1)
      [⟨"istanbul.epoch", .uint64 5, 1⟩, ⟨"istanbul.epoch", .uint64 6, 2⟩]
      "istanbul.epoch" (.uint64 5) 1 false (by unfold uniquePairs; decide)⟩

/-! ### The ratio checks -/

/-- Three wrapped additions reach 100 exactly
when the exact sum is 100 modulo `2 ^ 64`. -/
theorem wrapInt64_sum3 (x y z : Int) :
    wrapInt64 (wrapInt64 (wrapInt64 (0 + x) + y) + z) = 100 ↔
      (x + y + z) % 18446744073709551616 = 100 := by
  unfold wrapInt64
  norm_num
  omega

theorem ratioSumLoop_three (a b c : String) (sum : Int) :
    ratioSumLoop [a, b, c] 0 = some sum ↔
      ∃ x y z, strconvAtoi a = some x ∧ strconvAtoi b = some y ∧ strconvAtoi c = some z ∧
        0 ≤ x ∧ 0 ≤ y ∧ 0 ≤ z ∧
        sum = wrapInt64 (wrapInt64 (wrapInt64 (0 + x) + y) + z) := by
  simp only [ratioSumLoop]
  cases ha : strconvAtoi a with
  | none => simp
  | some x =>
    cases hb : strconvAtoi b with
    | none => simp
    | some y =>
      cases hc : strconvAtoi c with
      | none => simp
      | some z =>
        simp only [Option.some.injEq, exists_and_left, exists_eq_left']
        by_cases hx : x < 0
        · simp only [hx, if_true]
          constructor
          · intro h; cases h
          · rintro ⟨h, _⟩; omega
        · by_cases hy : y < 0
          · simp only [hx, hy, if_true, if_false]
            constructor
            · intro h; cases h
            · rintro ⟨_, h, _⟩; omega
          · by_cases hz : z < 0
            · simp only [hx, hy, hz, if_true, if_false]
              constructor
              · intro h; cases h
              · rintro ⟨_, _, h, _⟩; omega
            · simp only [hx, hy, hz, if_false, Option.some.injEq]
              constructor
              · intro h; exact ⟨by omega, by omega, by omega, h.symm⟩
              · rintro ⟨_, _, _, h⟩; exact h.symm

theorem length_eq_three {α : Type} (l : List α) :
    l.length = 3 ↔ ∃ a b c, l = [a, b, c] := by
  constructor
  · intro h
    match l, h with
    | [a, b, c], _ => exact ⟨a, b, c, rfl⟩
  · rintro ⟨a, b, c, rfl⟩
    rfl

/-- What the registry's ratio check accepts: three slices that `strconv.Atoi`
reads as numbers that are not negative and whose sum is 100 modulo `2 ^ 64`. -/
theorem ratio_validate_iff (s : String) :
    govParamTypeRatio.Validate (.str s) = .ok true ↔
      ∃ a b c x y z, stringsSplit s '/' = [a, b, c] ∧
        strconvAtoi a = some x ∧ strconvAtoi b = some y ∧ strconvAtoi c = some z ∧
        0 ≤ x ∧ 0 ≤ y ∧ 0 ≤ z ∧ (x + y + z) % 18446744073709551616 = 100 := by
  have hv : govParamTypeRatio.Validate (.str s) = .ok true ↔
      (stringsSplit s '/').length = 3 ∧ ratioSumLoop (stringsSplit s '/') 0 = some 100 := by
    simp only [govParamType.Validate, govParamTypeRatio, typeOf, ne_eq, not_true_eq_false,
      if_false, run_pure]
    by_cases hl : (stringsSplit s '/').length = 3
    · simp only [hl, not_true_eq_false, if_false, true_and]
      cases hr : ratioSumLoop (stringsSplit s '/') 0 with
      | none => simp
      | some sum =>
        by_cases h100 : sum = 100 <;> simp [h100]
    · simp [hl]
  rw [hv, length_eq_three]
  constructor
  · rintro ⟨⟨a, b, c, habc⟩, hsum⟩
    rw [habc, ratioSumLoop_three] at hsum
    obtain ⟨x, y, z, hx, hy, hz, h0x, h0y, h0z, hw⟩ := hsum
    exact ⟨a, b, c, x, y, z, habc, hx, hy, hz, h0x, h0y, h0z,
      (wrapInt64_sum3 x y z).1 hw.symm⟩
  · rintro ⟨a, b, c, x, y, z, habc, hx, hy, hz, h0x, h0y, h0z, hm⟩
    refine ⟨⟨a, b, c, habc⟩, ?_⟩
    rw [habc, ratioSumLoop_three]
    exact ⟨x, y, z, hx, hy, hz, h0x, h0y, h0z, ((wrapInt64_sum3 x y z).2 hm).symm⟩

theorem ratio_parseValue_iff (s : String) :
    govParamTypeRatio.ParseValue (.str s) = .ok (.str s, true) ↔
      govParamTypeRatio.Validate (.str s) = .ok true := by
  unfold govParamType.ParseValue
  have hp : govParamTypeRatio.parseValue (.str s) = (.str s, true) := rfl
  rw [hp]
  cases h : govParamTypeRatio.Validate (.str s) <;> simp [h]

/-- Claim C14, the code at the failing input. The registry's ratio check sums
the slices in `int` arithmetic, so the three slices 9223372036854775807,
9223372036854775807 and 102, whose sum is 18446744073709551716, wrap to 100 and
the string is accepted. In general a string is accepted exactly when it has
three slices that read as numbers that are not negative and whose sum is 100
modulo `2 ^ 64`. The rows of the test table come out as the test expects. -/
theorem registry_ratio_sum_wraps :
    govParamTypeRatio.ParseValue (.str "9223372036854775807/9223372036854775807/102") =
      .ok (.str "9223372036854775807/9223372036854775807/102", true) ∧
    govParamTypeRatio.Validate (.str "9223372036854775807/9223372036854775807/102") =
      .ok true ∧
    (∀ s : String, govParamTypeRatio.ParseValue (.str s) = .ok (.str s, true) ↔
      ∃ a b c x y z, stringsSplit s '/' = [a, b, c] ∧
        strconvAtoi a = some x ∧ strconvAtoi b = some y ∧ strconvAtoi c = some z ∧
        0 ≤ x ∧ 0 ≤ y ∧ 0 ≤ z ∧ (x + y + z) % 18446744073709551616 = 100) ∧
    govParamTypeRatio.ParseValue (.str "100/0/0") = .ok (.str "100/0/0", true) ∧
    govParamTypeRatio.ParseValue (.str "30/30/40") = .ok (.str "30/30/40", true) ∧
    govParamTypeRatio.ParseValue (.str "10/20/30/40") = .ok (.str "10/20/30/40", false) ∧
    govParamTypeRatio.ParseValue (.str "0/0/0") = .ok (.str "0/0/0", false) ∧
    govParamTypeRatio.ParseValue (.str "1/2/3") = .ok (.str "1/2/3", false) ∧
    govParamTypeRatio.ParseValue (.str "") = .ok (.str "", false) := by
  refine ⟨by decide, by decide, fun s => ?_, by decide, by decide, by decide, by decide,
    by decide, by decide⟩
  rw [ratio_parseValue_iff, ratio_validate_iff]

theorem length_eq_two_iff {α : Type} (l : List α) :
    l.length = 2 ↔ ∃ a b, l = [a, b] := by
  constructor
  · intro h
    match l, h with
    | [a, b], _ => exact ⟨a, b, rfl⟩
  · rintro ⟨a, b, rfl⟩
    rfl

theorem ratioUintSumLoop_three (a b c : String) (sum : Nat) :
    ratioUintSumLoop [a, b, c] 0 = some sum ↔
      ∃ x y z, strconvParseUint a = some x ∧ strconvParseUint b = some y ∧
        strconvParseUint c = some z ∧ sum = (x + y + z) % 18446744073709551616 := by
  simp only [ratioUintSumLoop, addU64, uint64Size]
  cases ha : strconvParseUint a with
  | none => simp
  | some x =>
    cases hb : strconvParseUint b with
    | none => simp
    | some y =>
      cases hc : strconvParseUint c with
      | none => simp
      | some z =>
        simp only [Option.some.injEq, exists_and_left, exists_eq_left']
        norm_num
        constructor <;> intro h <;> omega

theorem ratioUintSumLoop_two (a b : String) (sum : Nat) :
    ratioUintSumLoop [a, b] 0 = some sum ↔
      ∃ x y, strconvParseUint a = some x ∧ strconvParseUint b = some y ∧
        sum = (x + y) % 18446744073709551616 := by
  simp only [ratioUintSumLoop, addU64, uint64Size]
  cases ha : strconvParseUint a with
  | none => simp
  | some x =>
    cases hb : strconvParseUint b with
    | none => simp
    | some y =>
      simp only [Option.some.injEq, exists_and_left, exists_eq_left']
      norm_num
      constructor <;> intro h <;> omega

/-- What `checkRatio` accepts: three slices that `strconv.ParseUint` reads and
whose sum is 100 modulo `2 ^ 64`. -/
theorem checkRatio_iff (k s : String) :
    checkRatio k (.str s) = .ok true ↔
      ∃ a b c x y z, stringsSplit s '/' = [a, b, c] ∧ strconvParseUint a = some x ∧
        strconvParseUint b = some y ∧ strconvParseUint c = some z ∧
        (x + y + z) % 18446744073709551616 = 100 := by
  have hv : checkRatio k (.str s) = .ok true ↔
      (stringsSplit s '/').length = 3 ∧ ratioUintSumLoop (stringsSplit s '/') 0 = some 100 := by
    simp only [checkRatio, RewardSliceCount, ne_eq, run_pure]
    by_cases hl : (stringsSplit s '/').length = 3
    · simp only [hl, not_true_eq_false, if_false, true_and]
      cases hr : ratioUintSumLoop (stringsSplit s '/') 0 with
      | none => simp
      | some sum => by_cases h100 : sum = 100 <;> simp [h100]
    · simp [hl]
  rw [hv, length_eq_three]
  constructor
  · rintro ⟨⟨a, b, c, habc⟩, hsum⟩
    rw [habc, ratioUintSumLoop_three] at hsum
    obtain ⟨x, y, z, hx, hy, hz, hw⟩ := hsum
    exact ⟨a, b, c, x, y, z, habc, hx, hy, hz, hw.symm⟩
  · rintro ⟨a, b, c, x, y, z, habc, hx, hy, hz, hm⟩
    refine ⟨⟨a, b, c, habc⟩, ?_⟩
    rw [habc, ratioUintSumLoop_three]
    exact ⟨x, y, z, hx, hy, hz, hm.symm⟩

/-- What `checkKip82Ratio` accepts: two slices that `strconv.ParseUint` reads
and whose sum is 100 modulo `2 ^ 64`. -/
theorem checkKip82Ratio_iff (k s : String) :
    checkKip82Ratio k (.str s) = .ok true ↔
      ∃ a b x y, stringsSplit s '/' = [a, b] ∧ strconvParseUint a = some x ∧
        strconvParseUint b = some y ∧ (x + y) % 18446744073709551616 = 100 := by
  have hv : checkKip82Ratio k (.str s) = .ok true ↔
      (stringsSplit s '/').length = 2 ∧ ratioUintSumLoop (stringsSplit s '/') 0 = some 100 := by
    simp only [checkKip82Ratio, RewardKip82SliceCount, ne_eq, run_pure]
    by_cases hl : (stringsSplit s '/').length = 2
    · simp only [hl, not_true_eq_false, if_false, true_and]
      cases hr : ratioUintSumLoop (stringsSplit s '/') 0 with
      | none => simp
      | some sum => by_cases h100 : sum = 100 <;> simp [h100]
    · simp [hl]
  rw [hv, length_eq_two_iff]
  constructor
  · rintro ⟨⟨a, b, hab⟩, hsum⟩
    rw [hab, ratioUintSumLoop_two] at hsum
    obtain ⟨x, y, hx, hy, hw⟩ := hsum
    exact ⟨a, b, x, y, hab, hx, hy, hw.symm⟩
  · rintro ⟨a, b, x, y, hab, hx, hy, hm⟩
    refine ⟨⟨a, b, hab⟩, ?_⟩
    rw [hab, ratioUintSumLoop_two]
    exact ⟨x, y, hx, hy, hm.symm⟩

/-- Claim C15, the code at the failing input. Both vote validators sum the
slices in `uint64` arithmetic: the slices 18446744073709551615, 1 and 100, whose
sum is 18446744073709551716, wrap to 100 and `checkRatio` accepts the string;
the slices 18446744073709551615 and 101 do the same to `checkKip82Ratio`. In
general each validator accepts exactly the strings with the required number of
slices that read as unsigned numbers whose sum is 100 modulo `2 ^ 64`. -/
theorem vote_ratio_sum_wraps :
    checkRatio "reward.ratio" (.str "18446744073709551615/1/100") = .ok true ∧
    checkKip82Ratio "reward.kip82ratio" (.str "18446744073709551615/101") = .ok true ∧
    (∀ k s : String, checkRatio k (.str s) = .ok true ↔
      ∃ a b c x y z, stringsSplit s '/' = [a, b, c] ∧ strconvParseUint a = some x ∧
        strconvParseUint b = some y ∧ strconvParseUint c = some z ∧
        (x + y + z) % 18446744073709551616 = 100) ∧
    (∀ k s : String, checkKip82Ratio k (.str s) = .ok true ↔
      ∃ a b x y, stringsSplit s '/' = [a, b] ∧ strconvParseUint a = some x ∧
        strconvParseUint b = some y ∧ (x + y) % 18446744073709551616 = 100) :=
  ⟨by decide, by decide, checkRatio_iff, checkKip82Ratio_iff⟩

/-! ### Parsing unsigned integers -/

/-- What `ParseValue` of the unsigned-integer type makes of a parser result. -/
theorem uint64_parseValue_eq (v : Value) :
    govParamTypeUint64.ParseValue v =
      .ok (if (govParamTypeUint64.parseValue v).2 then
        ((govParamTypeUint64.parseValue v).1,
          decide (typeOf (govParamTypeUint64.parseValue v).1 = .uint64T))
        else (.nil, false)) := by
  unfold govParamType.ParseValue
  cases hp : govParamTypeUint64.parseValue v with
  | mk x ok =>
    cases ok with
    | false => rfl
    | true =>
      simp only [if_true]
      unfold govParamType.Validate
      by_cases hty : typeOf x = .uint64T
      · have hc : govParamTypeUint64.canonicalType = typeOf x := hty.symm
        simp [hc, hty, govParamTypeUint64, validatePass]
      · have hc : govParamTypeUint64.canonicalType ≠ typeOf x := fun h => hty h.symm
        simp [hc, hty]

/-- Claim C16, the code at the failing input. The parser of the unsigned-integer
type tests a floating-point value for `>= 0` only: 2.5 is accepted and stored as
2, and so is every finite value that is not negative, truncated toward zero.
The other parts of the claim hold: an `int` that is not negative, a `uint` and a
`uint64` are accepted with their value, 1e9 is accepted as 1000000000, and every
negative `int`, every negative floating-point value and every string is
rejected. -/
theorem uint64_parseValue_fraction :
    govParamTypeUint64.ParseValue (.float64 (.finite false 5 (-1))) = .ok (.uint64 2, true) ∧
    (∀ m e : Nat, govParamTypeUint64.ParseValue (.float64 (.finite false m (Int.negSucc e))) =
      .ok (.uint64 (m / 2 ^ (e + 1) % uint64Size), true)) ∧
    (∀ n : Nat, govParamTypeUint64.ParseValue (.int (n : Int)) =
      .ok (.uint64 (n % uint64Size), true)) ∧
    (∀ n : Nat, govParamTypeUint64.ParseValue (.uint n) = .ok (.uint64 n, true)) ∧
    (∀ n : Nat, govParamTypeUint64.ParseValue (.uint64 n) = .ok (.uint64 n, true)) ∧
    govParamTypeUint64.ParseValue (.float64 (.finite false 1000000000 0)) =
      .ok (.uint64 1000000000, true) ∧
    (∀ n : Nat, govParamTypeUint64.ParseValue (.int (Int.negSucc n)) = .ok (.nil, false)) ∧
    (∀ (m : Nat) (e : Int),
      govParamTypeUint64.ParseValue (.float64 (.finite true (m + 1) e)) = .ok (.nil, false)) ∧
    (∀ s : String, govParamTypeUint64.ParseValue (.str s) = .ok (.nil, false)) := by
  refine ⟨by decide, fun m e => ?_, fun n => ?_, fun n => ?_, fun n => ?_, by decide,
    fun n => ?_, fun m e => ?_, fun s => ?_⟩
  · rw [uint64_parseValue_eq]
    simp [govParamTypeUint64, Float64.geZero, Float64.toUint64, Float64.truncMagnitude, typeOf]
  · rw [uint64_parseValue_eq]
    simp [govParamTypeUint64, typeOf, uint64Size]
    omega
  · rw [uint64_parseValue_eq]
    simp [govParamTypeUint64, typeOf]
  · rw [uint64_parseValue_eq]
    simp [govParamTypeUint64, typeOf]
  · rw [uint64_parseValue_eq]
    simp [govParamTypeUint64]
  · rw [uint64_parseValue_eq]
    simp [govParamTypeUint64, Float64.geZero]
  · rw [uint64_parseValue_eq]
    simp [govParamTypeUint64]

theorem bigEndianValue_nil : bigEndianValue [] = 0 := rfl

theorem bigEndianValue_cons (x : Nat) (rest : List Nat) :
    bigEndianValue (x :: rest) = x * 256 ^ rest.length + bigEndianValue rest := by
  unfold bigEndianValue
  rw [List.length_cons, List.range_succ_eq_map, List.map_cons, List.sum_cons, List.map_map]
  congr 1
  apply congrArg
  apply List.map_congr_left
  intro i _
  simp only [Function.comp, List.getD_cons_succ]
  congr 2
  omega

theorem bigEndianValue_lt (b : List Nat) (hb : ∀ x ∈ b, x < 256) :
    bigEndianValue b < 256 ^ b.length := by
  induction b with
  | nil => simp [bigEndianValue_nil]
  | cons x rest ih =>
    have hx : x < 256 := hb x (List.mem_cons_self _ _)
    have hr := ih (fun y hy => hb y (List.mem_cons_of_mem _ hy))
    rw [bigEndianValue_cons, List.length_cons, pow_succ]
    nlinarith

theorem foldl_bigEndian (b : List Nat) (hb : ∀ x ∈ b, x < 256) :
    ∀ acc : Nat, b.foldl (fun acc x => acc * 256 + x % 256) acc =
      acc * 256 ^ b.length + bigEndianValue b := by
  induction b with
  | nil => intro acc; simp [bigEndianValue_nil]
  | cons x rest ih =>
    intro acc
    have hx : x < 256 := hb x (List.mem_cons_self _ _)
    rw [List.foldl_cons, ih (fun y hy => hb y (List.mem_cons_of_mem _ hy)),
      bigEndianValue_cons, List.length_cons, Nat.mod_eq_of_lt hx, pow_succ]
    ring

theorem bytesToNat_bigEndian (b : List Nat) (hb : ∀ x ∈ b, x < 256) :
    bytesToNat b = bigEndianValue b := by
  unfold bytesToNat
  rw [foldl_bigEndian b hb 0]
  simp

/-- Claim C17. For a byte string `b`, `ParseBytes` of the unsigned-integer type
succeeds exactly when `b` has at most 8 bytes, and then returns the big-endian
value of `b`; the empty string decodes to 0 and a string of 9 bytes or more is
rejected. -/
theorem uint64_parseBytes_bigEndian (b : List Nat) (hb : ∀ x ∈ b, x < 256) :
    ((∃ x, govParamTypeUint64.ParseBytes b = .ok (x, true)) ↔ b.length ≤ 8) ∧
    (b.length ≤ 8 →
      govParamTypeUint64.ParseBytes b = .ok (.uint64 (bigEndianValue b), true)) ∧
    (9 ≤ b.length → govParamTypeUint64.ParseBytes b = .ok (.nil, false)) ∧
    govParamTypeUint64.ParseBytes [] = .ok (.uint64 0, true) := by
  have hok : b.length ≤ 8 →
      govParamTypeUint64.ParseBytes b = .ok (.uint64 (bigEndianValue b), true) := by
    intro hl
    have hlt : bigEndianValue b < uint64Size := by
      have h1 := bigEndianValue_lt b hb
      have h2 : 256 ^ b.length ≤ 256 ^ 8 := Nat.pow_le_pow_right (by norm_num) hl
      have h3 : (256 : Nat) ^ 8 = uint64Size := by norm_num [uint64Size]
      omega
    simp [govParamType.ParseBytes, govParamTypeUint64, uint64ByteLen, hl, govParamType.Validate,
      typeOf, validatePass, bytesToNat_bigEndian b hb, Nat.mod_eq_of_lt hlt]
  have hbad : 9 ≤ b.length → govParamTypeUint64.ParseBytes b = .ok (.nil, false) := by
    intro hl
    have hl2 : ¬ b.length ≤ 8 := by omega
    simp [govParamType.ParseBytes, govParamTypeUint64, uint64ByteLen, hl2]
  refine ⟨⟨?_, fun hl => ⟨_, hok hl⟩⟩, hok, hbad, by decide⟩
  rintro ⟨x, hx⟩
  by_contra hl
  rw [hbad (by omega)] at hx
  simp at hx

theorem uint64_parseBytes_bigEndian_witness :
    (∀ x ∈ [18, 52], x < 256) ∧
    (((∃ x, govParamTypeUint64.ParseBytes [18, 52] = .ok (x, true)) ↔
        [18, 52].length ≤ 8) ∧
      ([18, 52].length ≤ 8 →
        govParamTypeUint64.ParseBytes [18, 52] =
          .ok (.uint64 (bigEndianValue [18, 52]), true)) ∧
      (9 ≤ [18, 52].length → govParamTypeUint64.ParseBytes [18, 52] = .ok (.nil, false)) ∧
      govParamTypeUint64.ParseBytes [] = .ok (.uint64 0, true)) :=
  ⟨by decide, uint64_parseBytes_bigEndian [18, 52] (by decide)⟩

/-! ### Parsing big integers -/

theorem digitValue_digitChar (d : Nat) (hd : d < 10) :
    digitValue (Nat.digitChar d) = some d := by
  interval_cases d <;> decide

/-- The digits `Nat.toDigitsCore` puts in front of `rest` read back as the
number: a non-empty run of digit characters that moves an accumulator `a` to
`a * 10 ^ length + n`. -/
theorem toDigitsCore_reads (fuel : Nat) :
    ∀ (n : Nat) (rest : List Char), n < fuel →
      ∃ ds : List Char, Nat.toDigitsCore 10 fuel n rest = ds ++ rest ∧ ds ≠ [] ∧
        (∀ c ∈ ds, (digitValue c).isSome = true) ∧
        ∀ (a : Nat) (tail : List Char),
          readDigits (ds ++ tail) a = readDigits tail (a * 10 ^ ds.length + n) := by
  induction fuel with
  | zero => intro n rest h; omega
  | succ fuel ih =>
    intro n rest hn
    have hd := digitValue_digitChar (n % 10) (Nat.mod_lt _ (by norm_num))
    unfold Nat.toDigitsCore
    by_cases hq : n / 10 = 0
    · have hlt : n < 10 := by omega
      refine ⟨[Nat.digitChar (n % 10)], by simp [hq], by simp, ?_, ?_⟩
      · intro c hc
        simp only [List.mem_singleton] at hc
        rw [hc, hd]
        rfl
      · intro a tail
        simp only [List.singleton_append, readDigits, hd, List.length_singleton, pow_one]
        rw [Nat.mod_eq_of_lt hlt]
        rfl
    · obtain ⟨ds, hds, hne, hdig, hread⟩ :=
        ih (n / 10) (Nat.digitChar (n % 10) :: rest) (by omega)
      refine ⟨ds ++ [Nat.digitChar (n % 10)], by simp [hq, hds], by simp, ?_, ?_⟩
      · intro c hc
        simp only [List.mem_append, List.mem_singleton] at hc
        rcases hc with hc | hc
        · exact hdig c hc
        · rw [hc, hd]
          rfl
      · intro a tail
        rw [List.append_assoc, hread, List.singleton_append, readDigits, hd]
        simp only [List.length_append, List.length_singleton, pow_succ]
        congr 1
        have := Nat.div_add_mod n 10
        nlinarith

theorem digit_not_sign (c : Char) (h : (digitValue c).isSome = true) : c ≠ '-' ∧ c ≠ '+' := by
  constructor <;> rintro rfl <;> simp [digitValue] at h

theorem parseSignedDecimal_digits (c : Char) (cs : List Char)
    (h : (digitValue c).isSome = true) :
    parseSignedDecimal (c :: cs) = (parseDecimal (c :: cs)).map (fun n => (n : Int)) := by
  obtain ⟨h1, h2⟩ := digit_not_sign c h
  unfold parseSignedDecimal
  split
  · rename_i heq
    simp only [List.cons.injEq] at heq
    exact absurd heq.1 h1
  · rename_i heq
    simp only [List.cons.injEq] at heq
    exact absurd heq.1 h2
  · rfl

/-- Reading the decimal text of a natural number yields the number. -/
theorem parseSignedDecimal_repr (m : Nat) :
    parseSignedDecimal (Nat.repr m).data = some (m : Int) ∧
      parseDecimal (Nat.repr m).data = some m := by
  obtain ⟨ds, hds, hne, hdig, hread⟩ := toDigitsCore_reads (m + 1) m [] (by omega)
  have hdata : (Nat.repr m).data = ds := by
    simp only [Nat.repr, Nat.toDigits, List.asString, hds, List.append_nil]
  rw [hdata]
  cases ds with
  | nil => exact absurd rfl hne
  | cons c cs =>
    have hp : parseDecimal (c :: cs) = some m := by
      have := hread 0 []
      simp only [List.append_nil, zero_mul, zero_add] at this
      rw [show readDigits [] m = some m from rfl] at this
      exact this
    rw [parseSignedDecimal_digits c cs (hdig c (List.mem_cons_self _ _)), hp]
    exact ⟨rfl, rfl⟩

/-- The method `SetString` reads back what `String` printed. -/
theorem bigSetString_bigString (n : Int) : bigSetString (bigString n) = some n := by
  unfold bigSetString bigString
  cases n with
  | ofNat m => exact (parseSignedDecimal_repr m).1
  | negSucc m =>
    have hd : ("-" ++ Nat.repr (m + 1)).data = '-' :: (Nat.repr (m + 1)).data := by
      rw [String.data_append]
      rfl
    simp only [hd, parseSignedDecimal, (parseSignedDecimal_repr (m + 1)).2, Option.map_some']
    rfl

/-- What `ParseValue` of the big-integer type makes of a string. -/
theorem parseValue_bigInt_of_str (s : String) :
    govParamTypeBigInt.ParseValue (.str s) =
      match bigSetString s with
      | some k => .ok (.str s, decide (0 ≤ k))
      | none => .ok (.nil, false) := by
  cases h : bigSetString s with
  | none => simp [govParamType.ParseValue, govParamTypeBigInt, h]
  | some k =>
    simp only [govParamType.ParseValue, govParamTypeBigInt, h, govParamType.Validate, typeOf,
      Option.isSome_some, ne_eq, not_true_eq_false, if_false, run_pure]
    by_cases hk : 0 ≤ k <;> simp [hk]

/-- What `ParseValue` of the big-integer type makes of a big integer. -/
theorem parseValue_bigInt_of_big (n : Int) :
    govParamTypeBigInt.ParseValue (.bigInt n) = .ok (.str (bigString n), decide (0 ≤ n)) := by
  simp only [govParamType.ParseValue, govParamTypeBigInt, govParamType.Validate, typeOf,
    bigSetString_bigString, ne_eq, not_true_eq_false, if_false, run_pure]
  by_cases hn : 0 ≤ n <;> simp [hn]

/-- Claim C18. For the big-integer type, `ParseValue` of a string succeeds
exactly when `SetString` reads the string in base 10 as a number that is not
negative, and then returns the string unchanged; `ParseValue` of a big integer
succeeds exactly when the number is not negative, and then returns its decimal
text; the strings -123, abc and the empty string are rejected. -/
theorem bigInt_parseValue (s : String) (n : Int) :
    ((∃ x, govParamTypeBigInt.ParseValue (.str s) = .ok (x, true)) ↔
      ∃ k, bigSetString s = some k ∧ 0 ≤ k) ∧
    (govParamTypeBigInt.ParseValue (.str s) = .ok (.str s, true) ↔
      ∃ k, bigSetString s = some k ∧ 0 ≤ k) ∧
    ((∃ x, govParamTypeBigInt.ParseValue (.bigInt n) = .ok (x, true)) ↔ 0 ≤ n) ∧
    (govParamTypeBigInt.ParseValue (.bigInt n) = .ok (.str (bigString n), true) ↔ 0 ≤ n) ∧
    bigSetString (bigString n) = some n ∧
    govParamTypeBigInt.ParseValue (.str "-123") = .ok (.str "-123", false) ∧
    govParamTypeBigInt.ParseValue (.str "abc") = .ok (.nil, false) ∧
    govParamTypeBigInt.ParseValue (.str "") = .ok (.nil, false) := by
  refine ⟨?_, ?_, ?_, ?_, bigSetString_bigString n, by decide, by decide, by decide⟩
  · rw [parseValue_bigInt_of_str]
    cases h : bigSetString s with
    | none => simp
    | some k => by_cases hk : 0 ≤ k <;> simp [hk]
  · rw [parseValue_bigInt_of_str]
    cases h : bigSetString s with
    | none => simp
    | some k => by_cases hk : 0 ≤ k <;> simp [hk]
  · rw [parseValue_bigInt_of_big]
    by_cases hn : 0 ≤ n <;> simp [hn]
  · rw [parseValue_bigInt_of_big]
    by_cases hn : 0 ≤ n <;> simp [hn]

theorem bigInt_parseBytes_eq (b : List Nat) :
    govParamTypeBigInt.ParseBytes b = .ok (.str (bigString (bytesToNat b : Nat)), true) := by
  have h := bigSetString_bigString ((bytesToNat b : Nat) : Int)
  simp only [govParamType.ParseBytes, govParamTypeBigInt, govParamType.Validate, typeOf, h,
    ne_eq, not_true_eq_false, if_false, run_pure]
  simp

/-- Claim C19, the code at the failing input. The byte parser of the big-integer
type reads the bytes as a big-endian binary number and prints that number: the
ASCII bytes of 9600000000000000000 come back as another decimal string, the
bytes of 12 as 12594, and neither the bytes of abcd nor the empty byte string is
rejected; every byte string is accepted. -/
theorem bigInt_parseBytes_binary :
    govParamTypeBigInt.ParseBytes
        [57, 54, 48, 48, 48, 48, 48, 48, 48, 48, 48, 48, 48, 48, 48, 48, 48, 48, 48] =
      .ok (.str "1275862937363324197844645937789293846332452912", true) ∧
    govParamTypeBigInt.ParseBytes [49, 50] = .ok (.str "12594", true) ∧
    govParamTypeBigInt.ParseBytes [97, 98, 99, 100] = .ok (.str "1633837924", true) ∧
    govParamTypeBigInt.ParseBytes [] = .ok (.str "0", true) ∧
    (∀ b : List Nat, govParamTypeBigInt.ParseBytes b =
      .ok (.str (bigString (bytesToNat b : Nat)), true)) ∧
    bytesToString [57, 54, 48, 48, 48, 48, 48, 48, 48, 48, 48, 48, 48, 48, 48, 48, 48, 48, 48] =
      "9600000000000000000" ∧
    bytesToString [97, 98, 99, 100] = "abcd" :=
  ⟨by decide, by decide, by decide, by decide, bigInt_parseBytes_eq, by decide, by decide⟩

/-! ### Names outside the key table -/

theorem mapGet_append {κ α : Type} [DecidableEq κ] (m1 m2 : List (κ × α)) (k : κ) :
    mapGet (m1 ++ m2) k = (mapGet m1 k).orElse (fun _ => mapGet m2 k) := by
  induction m1 with
  | nil => rfl
  | cons e rest ih =>
    obtain ⟨k1, v1⟩ := e
    simp only [List.cons_append, mapGet]
    by_cases h : k1 = k
    · simp [h]
    · simp [h, ih]

/-- The name table of the sample environment is the one-result lookup in its
entries. -/
theorem sampleKeyMap_lookup (name : String) :
    sampleKeyMap name = lookupKey sampleKeyEntries zeroKey name := by
  unfold sampleKeyMap lookupKey sampleKeyEntries
  rw [mapGet_append]
  cases h : mapGet govParamNames name with
  | some key => rfl
  | none =>
    simp only [Option.orElse, mapGet]
    by_cases h1 : name = "governance.addvalidator"
    · simp [h1]
    · by_cases h2 : name = "governance.removevalidator"
      · simp [h2]
      · by_cases h3 : name = "istanbul.timeout"
        · simp [h3]
        · have e1 : ¬ "governance.addvalidator" = name := fun h => h1 h.symm
          have e2 : ¬ "governance.removevalidator" = name := fun h => h2 h.symm
          have e3 : ¬ "istanbul.timeout" = name := fun h => h3 h.symm
          simp [h1, h2, h3, e1, e2, e3, zeroKey]

/-- Whichever registered key has the integer zero, a vote on a name outside the
table that carries a value valid for that key is valid. -/
theorem validateVote_zero_registered (z : GovParamKey) :
    (GovernanceItems z).isSome = true →
      ValidateVote (sampleGovWith z) ⟨1, "nonsense", sampleValue z⟩ =
        .ok (⟨1, "nonsense", sampleValue z⟩, true) := by
  cases z <;> first | (intro _; decide) | (intro h; simp [GovernanceItems] at h)

/-- When the integer zero is no registered key, every vote on a name outside
the table is invalid. -/
theorem validateVote_zero_unregistered (z : GovParamKey) (name : String) (v : Address)
    (value : Value) (hz : GovernanceItems z = none)
    (habs : mapGet sampleKeyEntries ((sampleGovWith z).getKey name) = none) :
    ∃ g, ValidateVote (sampleGovWith z) ⟨v, name, value⟩ = .ok (g, false) := by
  have hk : (sampleGovWith z).GovernanceKeyMap ((sampleGovWith z).getKey name) = z := by
    show lookupKey sampleKeyEntries z _ = z
    unfold lookupKey
    rw [habs]
    rfl
  unfold ValidateVote
  simp only [checkKey, hk, hz, Option.isSome_none, Bool.false_and, Bool.false_eq_true, if_false]
  exact ⟨_, rfl⟩

/-- Claim C20, the code at the failing input. `checkKey` and `ValidateVote` read
`GovernanceKeyMap` with the one-result lookup, so a name that is not in the
table resolves to the key whose integer is zero, which is registered in
`GovernanceItems`: the name nonsense passes `checkKey`, and a vote on it with a
governance mode as its value is valid for `ValidateVote` and `AddVote`. The
same happens whichever registered key has the integer zero; votes on names
outside the table are all invalid only when the integer zero is no registered
key. -/
theorem validateVote_unknown_name :
    mapGet sampleKeyEntries "nonsense" = none ∧
    (∀ name : String, sampleKeyMap name = lookupKey sampleKeyEntries zeroKey name) ∧
    checkKey (sampleGov .GovernanceMode_Ballot 1) "nonsense" = true ∧
    ValidateVote (sampleGov .GovernanceMode_Ballot 1) ⟨1, "nonsense", .str "single"⟩ =
      .ok (⟨1, "nonsense", .str "single"⟩, true) ∧
    AddVote (sampleGov .GovernanceMode_Ballot 1) "nonsense" (.str "single") =
      .ok (true, some ("nonsense", .str "single")) ∧
    (∀ (gov : Governance) (k : String),
      checkKey gov k = (GovernanceItems (gov.GovernanceKeyMap k)).isSome) ∧
    (∀ z : GovParamKey, (GovernanceItems z).isSome = true →
      ValidateVote (sampleGovWith z) ⟨1, "nonsense", sampleValue z⟩ =
        .ok (⟨1, "nonsense", sampleValue z⟩, true)) ∧
    (∀ (z : GovParamKey) (name : String) (v : Address) (value : Value),
      GovernanceItems z = none →
      mapGet sampleKeyEntries ((sampleGovWith z).getKey name) = none →
      ∃ g, ValidateVote (sampleGovWith z) ⟨v, name, value⟩ = .ok (g, false)) :=
  ⟨by decide, sampleKeyMap_lookup, by decide, by decide, by decide, fun _ _ => rfl,
    validateVote_zero_registered, validateVote_zero_unregistered⟩

/-! ### The tally after a validator is removed -/

/-- The switch of an activated vote hands back the tally it was given. -/
theorem applyActivatedVote_tally (gov : Governance) (ops : ValidatorSet σ) (fuel : Nat)
    (valset : σ) (votes : List GovernanceVote) (tally : List GovernanceTallyItem)
    (gVote : GovernanceVote) (blockNum : Nat) (writable : Bool) (o : Outcome σ)
    (h : applyActivatedVote gov ops fuel valset votes tally gVote blockNum writable = .ok o) :
    o.tally = tally := by
  unfold applyActivatedVote at h
  repeat' split at h
  all_goals first
    | (simp only [run_pure, Except.ok.injEq] at h; subst h; rfl)
    | cases h

/-- Claim C25, the code at the failing input. In Ballot mode with validators 1 to
4 of power 1, validator 4 has voted for epoch 5 and the third vote to remove 4
activates: 4 leaves the set and its vote leaves the log, but the tally entry of
epoch 5 keeps the power 4 gave it. In the next pass validator 1 votes for epoch
5; the entry then holds 2 of a total of 3 and the change activates on the power
of a removed validator. No activation changes the tally it was given. -/
theorem removed_validator_power_stays :
    HandleGovernanceVote (sampleGov .GovernanceMode_Ballot 1) councilOps 20
      (unitCouncil [1, 2, 3, 4])
      [⟨4, "istanbul.epoch", .uint64 5⟩, ⟨1, "governance.removevalidator", .addressList [4]⟩,
        ⟨2, "governance.removevalidator", .addressList [4]⟩]
      [⟨"istanbul.epoch", .uint64 5, 1⟩, ⟨"governance.removevalidator", .addressList [4], 2⟩]
      ⟨.parsed ⟨3, "governance.removevalidator", .addressList [4]⟩, 9⟩ 3 7 false =
    .ok ⟨unitCouncil [1, 2, 3],
      [⟨1, "governance.removevalidator", .addressList [4]⟩,
        ⟨2, "governance.removevalidator", .addressList [4]⟩,
        ⟨3, "governance.removevalidator", .addressList [4]⟩],
      [⟨"istanbul.epoch", .uint64 5, 1⟩, ⟨"governance.removevalidator", .addressList [4], 3⟩],
      []⟩ ∧
    HandleGovernanceVote (sampleGov .GovernanceMode_Ballot 1) councilOps 20
      (unitCouncil [1, 2, 3])
      [⟨1, "governance.removevalidator", .addressList [4]⟩,
        ⟨2, "governance.removevalidator", .addressList [4]⟩,
        ⟨3, "governance.removevalidator", .addressList [4]⟩]
      [⟨"istanbul.epoch", .uint64 5, 1⟩, ⟨"governance.removevalidator", .addressList [4], 3⟩]
      ⟨.parsed ⟨1, "istanbul.epoch", .uint64 5⟩, 10⟩ 1 7 true =
    .ok ⟨unitCouncil [1, 2, 3],
      [⟨1, "governance.removevalidator", .addressList [4]⟩,
        ⟨2, "governance.removevalidator", .addressList [4]⟩,
        ⟨3, "governance.removevalidator", .addressList [4]⟩,
        ⟨1, "istanbul.epoch", .uint64 5⟩],
      [⟨"istanbul.epoch", .uint64 5, 2⟩, ⟨"governance.removevalidator", .addressList [4], 3⟩],
      [.reflectVotes ⟨1, "istanbul.epoch", .uint64 5⟩,
        .importVotes [⟨1, "governance.removevalidator", .addressList [4]⟩,
          ⟨2, "governance.removevalidator", .addressList [4]⟩,
          ⟨3, "governance.removevalidator", .addressList [4]⟩,
          ⟨1, "istanbul.epoch", .uint64 5⟩],
        .importTallies [⟨"istanbul.epoch", .uint64 5, 2⟩,
          ⟨"governance.removevalidator", .addressList [4], 3⟩]]⟩ ∧
    (∀ (gov : Governance) (fuel : Nat) (valset : Council) (votes : List GovernanceVote)
      (tally : List GovernanceTallyItem) (gVote : GovernanceVote) (blockNum : Nat)
      (writable : Bool) (o : Outcome Council),
      applyActivatedVote gov councilOps fuel valset votes tally gVote blockNum writable = .ok o →
      o.tally = tally) :=
  ⟨by decide, by decide, fun gov fuel valset votes tally gVote blockNum writable o h =>
    applyActivatedVote_tally gov councilOps fuel valset votes tally gVote blockNum writable o h⟩

/-! ### What the purge returns, and entries without votes -/

/-- Claim C26, the code at the failing input. With two votes cast by address 3 in
front of a vote of validator 1, `removeVotesFromRemovedNode` returns the vote of
validator 1 twice: each removal returns a slice one cell shorter than the
argument, whose last cell still holds the last vote. The same happens to the
log of `HandleGovernanceVote` when the removal of a validator with two votes
activates. The filter of the input is the single vote of validator 1. -/
theorem removeVotesFromRemovedNode_duplicates :
    removeVotesFromRemovedNode 10
      [⟨3, "istanbul.epoch", .uint64 5⟩, ⟨3, "istanbul.policy", .uint64 2⟩,
        ⟨1, "governance.unitprice", .uint64 7⟩] 3 =
      .ok [⟨1, "governance.unitprice", .uint64 7⟩, ⟨1, "governance.unitprice", .uint64 7⟩] ∧
    List.filter (fun x => decide (x.Validator ≠ 3))
      [(⟨3, "istanbul.epoch", .uint64 5⟩ : GovernanceVote), ⟨3, "istanbul.policy", .uint64 2⟩,
        ⟨1, "governance.unitprice", .uint64 7⟩] =
      [⟨1, "governance.unitprice", .uint64 7⟩] ∧
    HandleGovernanceVote (sampleGov .GovernanceMode_None 1) councilOps 20
      (unitCouncil [1, 2, 3])
      [⟨3, "istanbul.epoch", .uint64 5⟩, ⟨3, "istanbul.policy", .uint64 2⟩]
      [⟨"istanbul.epoch", .uint64 5, 1⟩, ⟨"istanbul.policy", .uint64 2, 1⟩]
      ⟨.parsed ⟨1, "governance.removevalidator", .addressList [3]⟩, 9⟩ 1 7 false =
    .ok ⟨unitCouncil [1, 2],
      [⟨1, "governance.removevalidator", .addressList [3]⟩,
        ⟨1, "governance.removevalidator", .addressList [3]⟩],
      [⟨"istanbul.epoch", .uint64 5, 1⟩, ⟨"istanbul.policy", .uint64 2, 1⟩,
        ⟨"governance.removevalidator", .addressList [3], 1⟩], []⟩ := by
  refine ⟨by decide, by decide, by decide⟩

/-- Entries `adjustFirst` leaves hold votes when the entries it was given do. -/
theorem adjustFirst_positive (m : GovernanceTallyItem → Bool) (f : Nat → Nat) :
    ∀ (tally : List GovernanceTallyItem) (r : Nat × List GovernanceTallyItem),
      (∀ e ∈ tally, 0 < e.Votes) → adjustFirst m f tally = some r →
      ∀ e ∈ r.2, 0 < e.Votes := by
  intro tally
  induction tally with
  | nil => intro r _ h; simp [adjustFirst] at h
  | cons e rest ih =>
    intro r hpos h b hb
    unfold adjustFirst at h
    by_cases hm : m e = true
    · simp only [hm, if_true, Option.some.injEq] at h
      subst h
      by_cases hz : f e.Votes = 0
      · simp only [hz, if_true] at hb
        exact hpos b (List.mem_cons_of_mem _ hb)
      · simp only [hz, if_false, List.mem_cons] at hb
        rcases hb with hb | hb
        · subst hb
          exact Nat.pos_of_ne_zero hz
        · exact hpos b (List.mem_cons_of_mem _ hb)
    · simp only [hm, Bool.false_eq_true, if_false, Option.map_eq_some'] at h
      obtain ⟨r1, hr1, hr⟩ := h
      subst hr
      simp only [List.mem_cons] at hb
      rcases hb with hb | hb
      · subst hb
        exact hpos b (List.mem_cons_self _ _)
      · exact ih r1 (fun x hx => hpos x (List.mem_cons_of_mem _ hx)) hr1 b hb

/-- Unless it adds a pair without an entry at voting power zero,
`changeGovernanceTally` returns entries that hold votes. -/
theorem changeGovernanceTally_positive (gov : Governance) (tally : List GovernanceTallyItem)
    (key : String) (value : Value) (vp : Nat) (isAdd : Bool) (cv : Nat)
    (ret : List GovernanceTallyItem) (hpos : ∀ e ∈ tally, 0 < e.Votes)
    (hret : changeGovernanceTally gov tally key value vp isAdd = .ok (cv, ret))
    (hcase : 0 < vp ∨ isAdd = false ∨ ∃ e ∈ tally, matchesPair gov key value e = true) :
    ∀ e ∈ ret, 0 < e.Votes := by
  have hr := changeGovernanceTally_returns gov tally key value vp isAdd (cv, ret) hret
  cases ha : adjustFirst (matchesPair gov key value)
      (fun q => if isAdd then addU64 q vp else if q > vp then q - vp else 0) tally with
  | some x =>
    rw [ha] at hr
    simp only at hr
    have := adjustFirst_positive _ _ tally x hpos ha
    rw [← hr] at this
    exact this
  | none =>
    rw [ha] at hr
    have hnone := adjustFirst_none _ _ tally ha
    cases isAdd with
    | false =>
      simp only [Bool.false_eq_true, if_false, Prod.mk.injEq] at hr
      rw [hr.2]
      exact hpos
    | true =>
      simp only [if_true, Prod.mk.injEq] at hr
      rw [hr.2]
      intro e he
      simp only [List.mem_append, List.mem_singleton] at he
      rcases he with he | he
      · exact hpos e he
      · subst he
        rcases hcase with h | h | ⟨e0, he0, hm⟩
        · exact h
        · cases h
        · rw [hnone e0 he0] at hm
          cases hm

/-- Claim C27, the code at the failing input. Adding a pair that has no entry at
voting power zero appends an entry without votes: the zero test is made only
where an existing entry was matched. In every other case the entries returned
hold votes whenever the entries given do. -/
theorem changeGovernanceTally_zero_entry :
    changeGovernanceTally (sampleGov .GovernanceMode_Ballot 1)
      [⟨"istanbul.policy", .uint64 2, 1⟩] "istanbul.epoch" (.uint64 5) 0 true =
      .ok (0, [⟨"istanbul.policy", .uint64 2, 1⟩, ⟨"istanbul.epoch", .uint64 5, 0⟩]) ∧
    (∀ (gov : Governance) (tally : List GovernanceTallyItem) (key : String) (value : Value)
      (vp : Nat) (isAdd : Bool) (cv : Nat) (ret : List GovernanceTallyItem),
      (∀ e ∈ tally, 0 < e.Votes) →
      changeGovernanceTally gov tally key value vp isAdd = .ok (cv, ret) →
      (0 < vp ∨ isAdd = false ∨ ∃ e ∈ tally, matchesPair gov key value e = true) →
      ∀ e ∈ ret, 0 < e.Votes) :=
  ⟨by decide, changeGovernanceTally_positive⟩

/-! ### The effects of an activated vote -/

/-- Claim C28. When a valid vote activates in `addNewVote`: for the Timeout key the
live round timeout is stored with the voted value whatever the write-mode flag
is, and the vote is in addition staged through `ReflectVotes` exactly when write
mode is on and the block number is above the last finalized governance-state
block; for every other key that is not a validator-set key only that staging
happens. The validator set, the vote log and the tally are handed back as they
are. -/
theorem timeout_both_effects (gov : Governance) (ops : ValidatorSet σ) (fuel : Nat)
    (valset : σ) (votes : List GovernanceVote) (tally tally1 : List GovernanceTallyItem)
    (g0 gVote : GovernanceVote) (governanceMode : GovernanceModeInt) (governingNode : Address)
    (blockNum : Nat) (writable : Bool)
    (hvalid : ValidateVote gov g0 = .ok (gVote, true))
    (hact : addNewVoteTally gov ops valset tally gVote governanceMode governingNode =
      .ok (some (true, tally1))) :
    (gov.GovernanceKeyMap gVote.Key = .Timeout →
      ∃ timeout, gVote.Value = .uint64 timeout ∧
        addNewVote gov ops fuel valset votes tally gVote governanceMode governingNode blockNum
            writable =
          .ok ⟨valset, votes, tally1,
            Effect.storeTimeout timeout ::
              (if writable = true ∧ blockNum > gov.lastGovernanceStateBlock then
                [Effect.reflectVotes gVote] else [])⟩) ∧
    (gov.GovernanceKeyMap gVote.Key ≠ .Timeout →
      gov.GovernanceKeyMap gVote.Key ≠ .AddValidator →
      gov.GovernanceKeyMap gVote.Key ≠ .RemoveValidator →
      addNewVote gov ops fuel valset votes tally gVote governanceMode governingNode blockNum
          writable =
        .ok ⟨valset, votes, tally1,
          if writable = true ∧ blockNum > gov.lastGovernanceStateBlock then
            [Effect.reflectVotes gVote] else []⟩) := by
  have hty := (validateVote_checked gov g0 gVote hvalid).2
  have hreflect : reflectIfWritable gov gVote blockNum writable =
      if writable = true ∧ blockNum > gov.lastGovernanceStateBlock then
        [Effect.reflectVotes gVote] else [] := by
    unfold reflectIfWritable
    cases writable <;> simp
  constructor
  · intro hk
    rw [hk] at hty
    have hv : ∃ timeout, gVote.Value = .uint64 timeout := by
      cases hval : gVote.Value <;>
        simp_all [checkValueType, itemType, GovernanceItems, typeOf]
    obtain ⟨timeout, hv⟩ := hv
    refine ⟨timeout, hv, ?_⟩
    unfold addNewVote applyActivatedVote
    simp only [hact, hk, hv, hreflect, run_pure]
  · intro h1 h2 h3
    unfold addNewVote applyActivatedVote
    simp only [hact, run_pure]
    cases hk : gov.GovernanceKeyMap gVote.Key <;> simp_all

theorem timeout_both_effects_witness :
    ((sampleGov .GovernanceMode_None 1).GovernanceKeyMap "istanbul.timeout" = .Timeout →
      ∃ timeout, Value.uint64 9000 = .uint64 timeout ∧
        addNewVote (sampleGov .GovernanceMode_None 1) councilOps 10 (unitCouncil [1, 2, 3])
            [⟨1, "istanbul.timeout", .uint64 9000⟩] [] ⟨1, "istanbul.timeout", .uint64 9000⟩
            .GovernanceMode_None 1 5 false =
          .ok ⟨unitCouncil [1, 2, 3], [⟨1, "istanbul.timeout", .uint64 9000⟩],
            [⟨"istanbul.timeout", .uint64 9000, 1⟩],
            Effect.storeTimeout timeout ::
              (if false = true ∧ 5 > (sampleGov .GovernanceMode_None 1).lastGovernanceStateBlock
                then [Effect.reflectVotes ⟨1, "istanbul.timeout", .uint64 9000⟩] else [])⟩) ∧
    ((sampleGov .GovernanceMode_None 1).GovernanceKeyMap "istanbul.timeout" ≠ .Timeout →
      (sampleGov .GovernanceMode_None 1).GovernanceKeyMap "istanbul.timeout" ≠ .AddValidator →
      (sampleGov .GovernanceMode_None 1).GovernanceKeyMap "istanbul.timeout" ≠
        .RemoveValidator →
      addNewVote (sampleGov .GovernanceMode_None 1) councilOps 10 (unitCouncil [1, 2, 3])
          [⟨1, "istanbul.timeout", .uint64 9000⟩] [] ⟨1, "istanbul.timeout", .uint64 9000⟩
          .GovernanceMode_None 1 5 false =
        .ok ⟨unitCouncil [1, 2, 3], [⟨1, "istanbul.timeout", .uint64 9000⟩],
          [⟨"istanbul.timeout", .uint64 9000, 1⟩],
          if false = true ∧ 5 > (sampleGov .GovernanceMode_None 1).lastGovernanceStateBlock then
            [Effect.reflectVotes ⟨1, "istanbul.timeout", .uint64 9000⟩] else []⟩) :=
  timeout_both_effects (sampleGov .GovernanceMode_None 1) councilOps 10
    (unitCouncil [1, 2, 3]) [⟨1, "istanbul.timeout", .uint64 9000⟩] []
    [⟨"istanbul.timeout", .uint64 9000, 1⟩] ⟨1, " Istanbul.Timeout", .uint64 9000⟩
    ⟨1, "istanbul.timeout", .uint64 9000⟩ .GovernanceMode_None 1 5 false
    (by decide) (by decide)

/-! ### The builder from a chain configuration -/

theorem mapGet_mapSet {κ α : Type} [DecidableEq κ] (m : List (κ × α)) (k k1 : κ) (v : α) :
    mapGet (mapSet m k v) k1 = if k = k1 then some v else mapGet m k1 := by
  induction m with
  | nil => simp [mapSet, mapGet]
  | cons e rest ih =>
    obtain ⟨k0, v0⟩ := e
    by_cases h0 : k0 = k
    · subst h0
      by_cases h1 : k0 = k1 <;> simp [mapSet, mapGet, h1]
    · by_cases h1 : k0 = k1
      · subst h1
        have h2 : ¬ k = k0 := fun h => h0 h.symm
        simp [mapSet, mapGet, h0, h2]
      · simp [mapSet, mapGet, h0, h1, ih]

theorem mapGet_nil {κ α : Type} [DecidableEq κ] (k : κ) :
    mapGet ([] : List (κ × α)) k = none := rfl

theorem chainConfigItems_get (config : ChainConfig) (k : GovParamKey) :
    mapGet (chainConfigItems config) k = configField config k := by
  obtain ⟨ist, up, g⟩ := config
  cases ist <;> cases g with
  | none =>
    simp only [chainConfigItems, mapGet_mapSet, mapGet_nil]
    cases k <;> simp [configField, rewardSection]
  | some g =>
    obtain ⟨node, mode, r⟩ := g
    cases r with
    | none =>
      simp only [chainConfigItems, mapGet_mapSet, mapGet_nil]
      cases k <;> simp [configField, rewardSection]
    | some r =>
      obtain ⟨ma, ratio, gini, dtf, sui, pui, ms⟩ := r
      cases ma <;> cases ms <;>
        simp only [chainConfigItems, rewardItems, mapGet_mapSet, mapGet_nil] <;>
        cases k <;> simp [configField, rewardSection]

theorem configField_typed (config : ChainConfig) (k : GovParamKey) (v : Value)
    (h : configField config k = some v) :
    ∃ ty, govParamTypes k = some ty ∧ ty.canonicalType = typeOf v := by
  obtain ⟨ist, up, g⟩ := config
  cases k <;> simp only [configField, rewardSection] at h
  all_goals first
    | (cases h <;> exact ⟨_, rfl, rfl⟩)
    | (cases ist <;> simp at h <;> subst h <;> exact ⟨_, rfl, rfl⟩)
    | (cases g <;> simp at h <;> subst h <;> exact ⟨_, rfl, rfl⟩)
    | (cases g with
      | none => simp at h
      | some g =>
        cases hr : g.Reward with
        | none => simp [hr] at h
        | some r =>
          simp only [hr, Option.map_some', Option.some.injEq] at h
          first
            | (subst h; exact ⟨_, rfl, rfl⟩)
            | (cases hm : r.MintingAmount <;> simp [hm] at h <;> subst h <;>
                exact ⟨_, rfl, rfl⟩)
            | (cases hm : r.MinimumStake <;> simp [hm] at h <;> subst h <;>
                exact ⟨_, rfl, rfl⟩))

/-- A successful `ParseValue` returns what the parser of the type made of the
value. -/
theorem parseValue_fst (ty : govParamType) (v x : Value)
    (h : ty.ParseValue v = .ok (x, true)) : x = (ty.parseValue v).1 := by
  unfold govParamType.ParseValue at h
  cases hp : ty.parseValue v with
  | mk x0 b =>
    rw [hp] at h
    cases b with
    | false => simp at h
    | true =>
      simp only at h
      cases hV : ty.Validate x0 with
      | error e => simp [hV] at h
      | ok ok =>
        simp only [hV, run_pure, Except.ok.injEq, Prod.mk.injEq] at h
        exact h.1.symm

/-- The parser of a registered key hands a value of its canonical type back as
it is. -/
theorem parser_canonical_id (key : GovParamKey) (ty : govParamType) (v : Value)
    (hk : govParamTypes key = some ty) (hty : ty.canonicalType = typeOf v) :
    (ty.parseValue v).1 = v := by
  rcases registry_cases key ty hk with h | h | h | h | h | h <;> subst h <;>
    cases v <;>
    simp [govParamTypeGovMode, govParamTypeAddress, govParamTypeUint64, govParamTypeBigInt,
      govParamTypeRatio, govParamTypeBool, parseValueString, typeOf] at hty ⊢

theorem parsedValue_typed_id (key : GovParamKey) (v : Value)
    (hacc : entryAccepted key v = true)
    (hty : ∃ ty, govParamTypes key = some ty ∧ ty.canonicalType = typeOf v) :
    parsedValue key v = v := by
  obtain ⟨ty, hk, hty⟩ := hty
  unfold entryAccepted at hacc
  unfold parsedValue
  simp only [hk] at hacc ⊢
  cases hp : ty.ParseValue v with
  | error e => simp [hp] at hacc
  | ok r =>
    obtain ⟨x, ok⟩ := r
    simp only [hp] at hacc ⊢
    subst hacc
    rw [parseValue_fst ty v x hp, parser_canonical_id key ty v hk hty]

theorem chainConfigItems_nodup (config : ChainConfig) :
    (mapKeys (chainConfigItems config)).Nodup := by
  have h0 : (mapKeys ([] : List (GovParamKey × Value))).Nodup := List.nodup_nil
  obtain ⟨ist, up, g⟩ := config
  cases ist <;> cases g with
  | none =>
    simp only [chainConfigItems]
    repeat apply nodup_mapSet
    exact h0
  | some g =>
    obtain ⟨node, mode, r⟩ := g
    cases r with
    | none =>
      simp only [chainConfigItems]
      repeat apply nodup_mapSet
      exact h0
    | some r =>
      obtain ⟨ma, ratio, gini, dtf, sui, pui, ms⟩ := r
      cases ma <;> cases ms <;> simp only [chainConfigItems, rewardItems] <;>
        (repeat apply nodup_mapSet) <;> exact h0

theorem mapGet_of_mem {κ α : Type} [DecidableEq κ] (m : List (κ × α)) (k : κ) (v : α)
    (hn : (mapKeys m).Nodup) (h : (k, v) ∈ m) : mapGet m k = some v := by
  induction m with
  | nil => cases h
  | cons e rest ih =>
    obtain ⟨k0, v0⟩ := e
    simp only [mapKeys, List.map_cons, List.nodup_cons] at hn
    simp only [List.mem_cons, Prod.mk.injEq] at h
    rcases h with ⟨hk, hv⟩ | h
    · subst hk hv
      simp [mapGet]
    · have hne : k0 ≠ k := by
        intro heq
        subst heq
        exact hn.1 (List.mem_map.2 ⟨(k0, v), h, rfl⟩)
      simp only [mapGet, hne, if_false]
      exact ih hn.2 h

theorem map_parsed_id (items : List (GovParamKey × Value))
    (h : ∀ e ∈ items, parsedValue e.1 e.2 = e.2) :
    items.map (fun e => (e.1, parsedValue e.1 e.2)) = items := by
  induction items with
  | nil => rfl
  | cons e rest ih =>
    simp only [List.map_cons, h e (List.mem_cons_self _ _)]
    rw [ih (fun x hx => h x (List.mem_cons_of_mem _ hx))]

/-- With every entry accepted the builder returns the entries of the
configuration as they are. -/
theorem chainConfig_ok (config : ChainConfig)
    (hall : ∀ e ∈ chainConfigItems config, entryAccepted e.1 e.2 = true) :
    NewGovParamSetChainConfig config = .ok (.ok ⟨chainConfigItems config⟩) := by
  unfold NewGovParamSetChainConfig NewGovParamSetIntMap
  rw [intMapLoop_ok _ NewGovParamSet hall]
  have hfold := foldl_mapSet_fresh (fun e : GovParamKey × Value => e.1)
    (fun e => parsedValue e.1 e.2) (chainConfigItems config) []
    (chainConfigItems_nodup config) (fun _ _ hx => by simp [mapKeys] at hx)
  have hid := map_parsed_id (chainConfigItems config) (fun e he =>
    parsedValue_typed_id e.1 e.2 (hall e he)
      (configField_typed config e.1 e.2 (by
        rw [← chainConfigItems_get]
        exact mapGet_of_mem _ _ _ (chainConfigItems_nodup config) he)))
  simp only [NewGovParamSet, List.nil_append] at hfold ⊢
  rw [hfold, hid]

/-- With an entry that is not accepted the builder returns an error. -/
theorem chainConfig_err (config : ChainConfig)
    (hnot : ¬ ∀ e ∈ chainConfigItems config, entryAccepted e.1 e.2 = true) :
    ∃ err, NewGovParamSetChainConfig config = .ok (.error err) := by
  unfold NewGovParamSetChainConfig NewGovParamSetIntMap
  have hex : ∃ e ∈ chainConfigItems config, entryAccepted e.1 e.2 = false := by
    by_contra hcon
    apply hnot
    intro e he
    by_contra hne
    exact hcon ⟨e, he, by simpa using hne⟩
  exact intMapLoop_err _ NewGovParamSet hex

/-- Claim C29. A set that `NewGovParamSetChainConfig` returns holds exactly the
keys of the sections present in the configuration, each with the value of the
field it was read from: the unit price always; epoch, policy and committee size
exactly when the Istanbul section is present; governing node and governance
mode exactly when the governance section is present; the reward keys exactly
when the reward section is present, minting amount and minimum stake only when
their big integers are not nil; no other key. Every field read is then
acceptable to the registry. -/
theorem chainConfig_extraction (config : ChainConfig) (p : GovParamSet)
    (h : NewGovParamSetChainConfig config = .ok (.ok p)) :
    (∀ k, p.Get k =
      match configField config k with
      | some v => (v, true)
      | none => (.nil, false)) ∧
    p.items = chainConfigItems config ∧
    (∀ k v, configField config k = some v → entryAccepted k v = true) := by
  by_cases hall : ∀ e ∈ chainConfigItems config, entryAccepted e.1 e.2 = true
  · rw [chainConfig_ok config hall] at h
    simp only [Except.ok.injEq] at h
    subst h
    refine ⟨fun k => ?_, rfl, fun k v hkv => ?_⟩
    · unfold GovParamSet.Get
      rw [chainConfigItems_get]
    · rw [← chainConfigItems_get] at hkv
      exact hall (k, v) (mapGet_mem _ _ _ hkv)
  · obtain ⟨err, herr⟩ := chainConfig_err config hall
    rw [herr] at h
    simp at h

theorem chainConfig_extraction_witness :
    (∀ k, GovParamSet.Get
        ⟨[(.Epoch, .uint64 30), (.Policy, .uint64 0), (.CommitteeSize, .uint64 13),
          (.UnitPrice, .uint64 25)]⟩ k =
      match configField ⟨some ⟨30, 0, 13⟩, 25, none⟩ k with
      | some v => (v, true)
      | none => (.nil, false)) ∧
    (⟨[(.Epoch, .uint64 30), (.Policy, .uint64 0), (.CommitteeSize, .uint64 13),
        (.UnitPrice, .uint64 25)]⟩ : GovParamSet).items =
      chainConfigItems ⟨some ⟨30, 0, 13⟩, 25, none⟩ ∧
    (∀ k v, configField ⟨some ⟨30, 0, 13⟩, 25, none⟩ k = some v →
      entryAccepted k v = true) :=
  chainConfig_extraction ⟨some ⟨30, 0, 13⟩, 25, none⟩
    ⟨[(.Epoch, .uint64 30), (.Policy, .uint64 0), (.CommitteeSize, .uint64 13),
      (.UnitPrice, .uint64 25)]⟩ (by decide)

/-- A character is left alone by `Char.toLower`, or it is an upper-case letter
and becomes a lower-case letter. -/
theorem toLower_cases (c : Char) :
    c.toLower = c ∨
      (65 ≤ c.toNat ∧ c.toNat ≤ 90 ∧ ∃ n, 97 ≤ n ∧ n ≤ 122 ∧ c.toLower = Char.ofNat n) := by
  unfold Char.toLower
  by_cases h : c.toNat ≥ 65 ∧ c.toNat ≤ 90
  · right
    refine ⟨h.1, h.2, c.toNat + 32, by omega, by omega, ?_⟩
    simp only [h, and_self, if_true]
  · left
    simp only [h, if_false]

theorem lowerLetter_facts (n : Nat) (h1 : 97 ≤ n) (h2 : n ≤ 122) :
    digitValue (Char.ofNat n) = none ∧ Char.ofNat n ≠ '-' ∧ Char.ofNat n ≠ '+' ∧
      (Char.ofNat n).toLower = Char.ofNat n := by
  interval_cases n <;> decide

theorem upperLetter_facts (c : Char) (h1 : 65 ≤ c.toNat) (h2 : c.toNat ≤ 90) :
    digitValue c = none ∧ c ≠ '-' ∧ c ≠ '+' := by
  refine ⟨?_, ?_, ?_⟩
  · unfold digitValue
    have : ¬ c ≤ '9' := by
      intro hle
      have : c.toNat ≤ '9'.toNat := hle
      have h9 : '9'.toNat = 57 := by decide
      omega
    simp [this]
  · rintro rfl
    revert h1
    decide
  · rintro rfl
    revert h1
    decide

theorem digitValue_toLower (c : Char) : digitValue c.toLower = digitValue c := by
  rcases toLower_cases c with h | ⟨h1, h2, n, hn1, hn2, h⟩
  · rw [h]
  · rw [h, (lowerLetter_facts n hn1 hn2).1, (upperLetter_facts c h1 h2).1]

theorem toLower_idem (c : Char) : c.toLower.toLower = c.toLower := by
  rcases toLower_cases c with h | ⟨_, _, n, hn1, hn2, h⟩
  · rw [h, h]
  · rw [h, (lowerLetter_facts n hn1 hn2).2.2.2]

theorem toLower_eq_sign (c : Char) :
    (c.toLower = '-' ↔ c = '-') ∧ (c.toLower = '+' ↔ c = '+') := by
  rcases toLower_cases c with h | ⟨h1, h2, n, hn1, hn2, h⟩
  · rw [h]
    exact ⟨Iff.rfl, Iff.rfl⟩
  · rw [h]
    have hl := lowerLetter_facts n hn1 hn2
    have hu := upperLetter_facts c h1 h2
    exact ⟨⟨fun e => absurd e hl.2.1, fun e => absurd e hu.2.1⟩,
      ⟨fun e => absurd e hl.2.2.1, fun e => absurd e hu.2.2⟩⟩

theorem stringsToLower_idem (s : String) :
    stringsToLower (stringsToLower s) = stringsToLower s := by
  unfold stringsToLower
  simp only [List.map_map]
  congr 1
  apply List.map_congr_left
  intro c _
  exact toLower_idem c

theorem readDigits_toLower (cs : List Char) :
    ∀ acc, readDigits (cs.map Char.toLower) acc = readDigits cs acc := by
  induction cs with
  | nil => intro acc; rfl
  | cons c rest ih =>
    intro acc
    simp only [List.map_cons, readDigits, digitValue_toLower]
    cases digitValue c with
    | none => rfl
    | some d => exact ih _

theorem parseDecimal_toLower (cs : List Char) :
    parseDecimal (cs.map Char.toLower) = parseDecimal cs := by
  cases cs with
  | nil => rfl
  | cons c rest =>
    have := readDigits_toLower (c :: rest) 0
    simpa [parseDecimal] using this

theorem parseSignedDecimal_toLower (cs : List Char) :
    parseSignedDecimal (cs.map Char.toLower) = parseSignedDecimal cs := by
  cases cs with
  | nil => rfl
  | cons c rest =>
    by_cases hm : c = '-'
    · subst hm
      have : Char.toLower '-' = '-' := by decide
      simp only [List.map_cons, this, parseSignedDecimal, parseDecimal_toLower]
    · by_cases hp : c = '+'
      · subst hp
        have : Char.toLower '+' = '+' := by decide
        simp only [List.map_cons, this, parseSignedDecimal, parseDecimal_toLower]
      · have hm2 : c.toLower ≠ '-' := fun e => hm ((toLower_eq_sign c).1.1 e)
        have hp2 : c.toLower ≠ '+' := fun e => hp ((toLower_eq_sign c).2.1 e)
        have e1 : parseSignedDecimal (c :: rest) =
            (parseDecimal (c :: rest)).map (fun n => (n : Int)) := by
          unfold parseSignedDecimal
          split
          · rename_i heq; simp only [List.cons.injEq] at heq; exact absurd heq.1 hm
          · rename_i heq; simp only [List.cons.injEq] at heq; exact absurd heq.1 hp
          · rfl
        have e2 : parseSignedDecimal (c.toLower :: rest.map Char.toLower) =
            (parseDecimal (c.toLower :: rest.map Char.toLower)).map (fun n => (n : Int)) := by
          unfold parseSignedDecimal
          split
          · rename_i heq; simp only [List.cons.injEq] at heq; exact absurd heq.1 hm2
          · rename_i heq; simp only [List.cons.injEq] at heq; exact absurd heq.1 hp2
          · rfl
        rw [List.map_cons, e2, e1, ← List.map_cons, parseDecimal_toLower]

/-- Lower-casing does not change what `SetString` reads in base 10. -/
theorem bigSetString_toLower (s : String) :
    bigSetString (stringsToLower s) = bigSetString s := by
  unfold bigSetString stringsToLower
  exact parseSignedDecimal_toLower s.data

/-- Under a key of string type a string value is put into lower case. -/
theorem adjustValueType_string (gov : Governance) (key s : String)
    (hk : itemType (gov.GovernanceKeyMap key) = .stringT) :
    adjustValueType gov key (.str s) = .str (stringsToLower s) := by
  simp [adjustValueType, hk]

/-- What `ValidateVote` makes of a string vote on the minting amount: the
verdict is that of `checkBigInt`, which does not look at the sign. -/
theorem validateVote_mintingAmount (gov : Governance) (v : Address) (name s : String)
    (hk : gov.GovernanceKeyMap (gov.getKey name) = .MintingAmount) :
    ValidateVote gov ⟨v, name, .str s⟩ =
      .ok (⟨v, gov.getKey name, .str (stringsToLower s)⟩, (bigSetString s).isSome) := by
  have hadj := adjustValueType_string gov (gov.getKey name) s (by rw [hk]; rfl)
  unfold ValidateVote
  simp only [hadj, checkKey, hk]
  simp only [itemType, GovernanceItems, checkValueType, typeOf, checkBigInt,
    bigSetString_toLower, Option.isSome_some, decide_True, Bool.and_self, if_true, run_pure]
  cases hb : bigSetString s <;> simp

/-- What `ValidateVote` makes of a string vote on the minimum stake: the
verdict is that of `checkRewardMinimumStake`, which rejects a negative number. -/
theorem validateVote_minimumStake (gov : Governance) (v : Address) (name s : String)
    (hk : gov.GovernanceKeyMap (gov.getKey name) = .MinimumStake) :
    ValidateVote gov ⟨v, name, .str s⟩ =
      .ok (⟨v, gov.getKey name, .str (stringsToLower s)⟩,
        match bigSetString s with
        | some n => decide (0 ≤ n)
        | none => false) := by
  have hadj := adjustValueType_string gov (gov.getKey name) s (by rw [hk]; rfl)
  unfold ValidateVote
  simp only [hadj, checkKey, hk]
  simp only [itemType, GovernanceItems, checkValueType, typeOf, checkRewardMinimumStake,
    checkBigInt, bigSetString_toLower, Option.isSome_some, decide_True, Bool.and_self, if_true,
    run_pure]
  cases hb : bigSetString s with
  | none => simp
  | some n =>
    by_cases hn : n < 0
    · have : ¬ 0 ≤ n := by omega
      simp [hn, this]
    · have : 0 ≤ n := by omega
      simp [hn, this]

/-- A vote on either big-integer key whose value is no string is invalid. -/
theorem validateVote_bigInt_not_string (gov : Governance) (v : Address) (name : String)
    (val : Value)
    (hk : gov.GovernanceKeyMap (gov.getKey name) = .MintingAmount ∨
      gov.GovernanceKeyMap (gov.getKey name) = .MinimumStake)
    (hval : typeOf val ≠ .stringT) :
    ValidateVote gov ⟨v, name, val⟩ = .ok (⟨v, gov.getKey name, val⟩, false) := by
  unfold ValidateVote
  rcases hk with hk | hk <;>
    cases val <;>
    simp [adjustValueType, checkKey, hk, itemType, GovernanceItems, checkValueType, typeOf]
      at hval ⊢

/-- Claim C21, the code at the failing input. The minting amount is registered
with `checkBigInt`, which only asks that the string reads as a number in base
10: a vote for the amount -5 is valid, while the same vote on the minimum stake,
registered with `checkRewardMinimumStake`, is not. In general a string vote on
the minting amount is valid exactly when the string reads as a number, of
either sign; on the minimum stake exactly when it reads as a number that is not
negative; and a value that is no string is invalid for both keys. -/
theorem mintingAmount_negative_accepted :
    ValidateVote (sampleGov .GovernanceMode_Ballot 1) ⟨1, "reward.mintingamount", .str "-5"⟩ =
      .ok (⟨1, "reward.mintingamount", .str "-5"⟩, true) ∧
    ValidateVote (sampleGov .GovernanceMode_Ballot 1) ⟨1, "reward.minimumstake", .str "-5"⟩ =
      .ok (⟨1, "reward.minimumstake", .str "-5"⟩, false) ∧
    (∀ (gov : Governance) (v : Address) (name s : String),
      gov.GovernanceKeyMap (gov.getKey name) = .MintingAmount →
      ValidateVote gov ⟨v, name, .str s⟩ =
        .ok (⟨v, gov.getKey name, .str (stringsToLower s)⟩, (bigSetString s).isSome)) ∧
    (∀ (gov : Governance) (v : Address) (name s : String),
      gov.GovernanceKeyMap (gov.getKey name) = .MinimumStake →
      ValidateVote gov ⟨v, name, .str s⟩ =
        .ok (⟨v, gov.getKey name, .str (stringsToLower s)⟩,
          match bigSetString s with
          | some n => decide (0 ≤ n)
          | none => false)) ∧
    (∀ (gov : Governance) (v : Address) (name : String) (val : Value),
      gov.GovernanceKeyMap (gov.getKey name) = .MintingAmount ∨
        gov.GovernanceKeyMap (gov.getKey name) = .MinimumStake →
      typeOf val ≠ .stringT →
      ValidateVote gov ⟨v, name, val⟩ = .ok (⟨v, gov.getKey name, val⟩, false)) :=
  ⟨by decide, by decide, validateVote_mintingAmount, validateVote_minimumStake,
    validateVote_bigInt_not_string⟩

theorem splitChars_ne_nil (sep : Char) (cs : List Char) : splitChars sep cs ≠ [] := by
  cases cs with
  | nil => simp [splitChars]
  | cons c rest =>
    unfold splitChars
    cases splitChars sep rest with
    | nil => simp
    | cons seg more => by_cases h : c = sep <;> simp [h]

theorem splitChars_single (sep : Char) :
    ∀ cs : List Char, (splitChars sep cs).length = 1 → splitChars sep cs = [cs] := by
  intro cs
  induction cs with
  | nil => intro _; rfl
  | cons c rest ih =>
    intro h
    unfold splitChars at h ⊢
    cases hr : splitChars sep rest with
    | nil => exact absurd hr (splitChars_ne_nil sep rest)
    | cons seg more =>
      rw [hr] at h ih
      by_cases hc : c = sep
      · simp [hc] at h
      · simp only [hc, if_false, List.length_cons, add_left_eq_self, List.length_eq_zero] at h ⊢
        subst h
        have := ih rfl
        simp only [List.cons.injEq, and_true] at this
        rw [this]

/-- Splitting never yields zero segments, and a single segment is the whole
string. -/
theorem stringsSplit_length (s : String) (sep : Char) :
    1 ≤ (stringsSplit s sep).length ∧
      ((stringsSplit s sep).length = 1 → stringsSplit s sep = [s]) := by
  unfold stringsSplit
  constructor
  · have := splitChars_ne_nil sep s.data
    cases h : splitChars sep s.data with
    | nil => exact absurd h this
    | cons a b => simp
  · intro h
    rw [List.length_map] at h
    rw [splitChars_single sep s.data h]
    rfl

/-- The loop over the segments yields the list of the addresses when every
segment is a valid hex address after trimming, and the value it was given
otherwise. -/
theorem adjustAddressLoop_eq (val : Value) :
    ∀ (segs : List String) (acc : List Address),
      adjustAddressLoop val segs acc =
        if segs.all (fun seg => IsHexAddress (stringsTrimSpace seg)) then
          .addressList (acc ++ segs.map (fun seg => HexToAddress (stringsTrimSpace seg)))
        else val := by
  intro segs
  induction segs with
  | nil => intro acc; simp [adjustAddressLoop]
  | cons seg rest ih =>
    intro acc
    unfold adjustAddressLoop
    by_cases h : IsHexAddress (stringsTrimSpace seg) = true
    · simp only [h, if_true, ih, List.all_cons, Bool.true_and, List.map_cons,
        List.append_assoc, List.singleton_append]
    · simp [h]

/-- Claim C22. For a key of address type and a string value: a single segment that
is a valid hex address after trimming yields that address; two or more
comma-separated segments that are all valid hex addresses after trimming yield
the list of the addresses in order; both pass the type check. If a segment is
no valid hex address the value stays the string, fails the type check, and the
vote is invalid. -/
theorem address_vote_normalization (gov : Governance) (key v : String)
    (hk : itemType (gov.GovernanceKeyMap key) = .addressT) :
    (∀ seg, stringsSplit v ',' = [seg] → IsHexAddress (stringsTrimSpace seg) = true →
      adjustValueType gov key (.str v) = .address (HexToAddress (stringsTrimSpace seg)) ∧
        checkValueType (adjustValueType gov key (.str v))
          (itemType (gov.GovernanceKeyMap key)) = true) ∧
    (2 ≤ (stringsSplit v ',').length →
      (∀ seg ∈ stringsSplit v ',', IsHexAddress (stringsTrimSpace seg) = true) →
      adjustValueType gov key (.str v) =
          .addressList
            ((stringsSplit v ',').map (fun seg => HexToAddress (stringsTrimSpace seg))) ∧
        checkValueType (adjustValueType gov key (.str v))
          (itemType (gov.GovernanceKeyMap key)) = true) ∧
    ((∃ seg ∈ stringsSplit v ',', IsHexAddress (stringsTrimSpace seg) = false) →
      adjustValueType gov key (.str v) = .str v ∧
        checkValueType (adjustValueType gov key (.str v))
          (itemType (gov.GovernanceKeyMap key)) = false ∧
        ∀ (validator : Address) (name : String), gov.getKey name = key →
          ValidateVote gov ⟨validator, name, .str v⟩ = .ok (⟨validator, key, .str v⟩, false)) := by
  have hlen := stringsSplit_length v ','
  have hadj1 : (stringsSplit v ',').length = 1 →
      adjustValueType gov key (.str v) =
        if IsHexAddress (stringsTrimSpace v) then
          .address (HexToAddress (stringsTrimSpace v)) else .str v := by
    intro h1
    simp [adjustValueType, hk, h1]
  have hadj2 : 2 ≤ (stringsSplit v ',').length →
      adjustValueType gov key (.str v) =
        adjustAddressLoop (.str v) (stringsSplit v ',') [] := by
    intro h2
    obtain ⟨n, hn⟩ : ∃ n, (stringsSplit v ',').length = n + 2 := ⟨_, (Nat.sub_add_cancel h2).symm⟩
    simp [adjustValueType, hk, hn]
  refine ⟨?_, ?_, ?_⟩
  · intro seg hseg hvalid
    have h1 : (stringsSplit v ',').length = 1 := by rw [hseg]; rfl
    have hv : seg = v := by
      have := hlen.2 h1
      rw [hseg] at this
      simpa using this
    subst hv
    have : adjustValueType gov key (.str seg) =
        .address (HexToAddress (stringsTrimSpace seg)) := by
      rw [hadj1 h1]
      simp [hvalid]
    rw [this, hk]
    exact ⟨rfl, rfl⟩
  · intro h2 hall
    have hallb : (stringsSplit v ',').all (fun seg => IsHexAddress (stringsTrimSpace seg)) =
        true := by
      rw [List.all_eq_true]
      exact hall
    have : adjustValueType gov key (.str v) =
        .addressList ((stringsSplit v ',').map
          (fun seg => HexToAddress (stringsTrimSpace seg))) := by
      rw [hadj2 h2, adjustAddressLoop_eq, hallb]
      simp
    rw [this, hk]
    exact ⟨rfl, rfl⟩
  · rintro ⟨seg, hmem, hbad⟩
    have hallb : (stringsSplit v ',').all (fun seg => IsHexAddress (stringsTrimSpace seg)) =
        false := by
      rw [Bool.eq_false_iff]
      intro hall
      rw [List.all_eq_true] at hall
      rw [hall seg hmem] at hbad
      cases hbad
    have hstr : adjustValueType gov key (.str v) = .str v := by
      rcases Nat.lt_or_ge (stringsSplit v ',').length 2 with hl | hl
      · have h1 : (stringsSplit v ',').length = 1 := by omega
        have hsegs := hlen.2 h1
        rw [hsegs] at hmem
        simp only [List.mem_singleton] at hmem
        subst hmem
        rw [hadj1 h1]
        simp [hbad]
      · rw [hadj2 hl, adjustAddressLoop_eq, hallb]
        simp
    refine ⟨hstr, by rw [hstr, hk]; rfl, ?_⟩
    intro validator name hname
    unfold ValidateVote
    simp only [hname, hstr, hk, checkValueType, typeOf]
    simp

theorem address_vote_normalization_witness :
    (∀ seg, stringsSplit sampleAddressPair ',' = [seg] →
      IsHexAddress (stringsTrimSpace seg) = true →
      adjustValueType (sampleGov .GovernanceMode_Ballot 1) "governance.addvalidator"
          (.str sampleAddressPair) = .address (HexToAddress (stringsTrimSpace seg)) ∧
        checkValueType
          (adjustValueType (sampleGov .GovernanceMode_Ballot 1) "governance.addvalidator"
            (.str sampleAddressPair))
          (itemType ((sampleGov .GovernanceMode_Ballot 1).GovernanceKeyMap
            "governance.addvalidator")) = true) ∧
    (2 ≤ (stringsSplit sampleAddressPair ',').length →
      (∀ seg ∈ stringsSplit sampleAddressPair ',',
        IsHexAddress (stringsTrimSpace seg) = true) →
      adjustValueType (sampleGov .GovernanceMode_Ballot 1) "governance.addvalidator"
          (.str sampleAddressPair) =
          .addressList ((stringsSplit sampleAddressPair ',').map
            (fun seg => HexToAddress (stringsTrimSpace seg))) ∧
        checkValueType
          (adjustValueType (sampleGov .GovernanceMode_Ballot 1) "governance.addvalidator"
            (.str sampleAddressPair))
          (itemType ((sampleGov .GovernanceMode_Ballot 1).GovernanceKeyMap
            "governance.addvalidator")) = true) ∧
    ((∃ seg ∈ stringsSplit sampleAddressPair ',',
        IsHexAddress (stringsTrimSpace seg) = false) →
      adjustValueType (sampleGov .GovernanceMode_Ballot 1) "governance.addvalidator"
          (.str sampleAddressPair) = .str sampleAddressPair ∧
        checkValueType
          (adjustValueType (sampleGov .GovernanceMode_Ballot 1) "governance.addvalidator"
            (.str sampleAddressPair))
          (itemType ((sampleGov .GovernanceMode_Ballot 1).GovernanceKeyMap
            "governance.addvalidator")) = false ∧
        ∀ (validator : Address) (name : String),
          (sampleGov .GovernanceMode_Ballot 1).getKey name = "governance.addvalidator" →
          ValidateVote (sampleGov .GovernanceMode_Ballot 1)
              ⟨validator, name, .str sampleAddressPair⟩ =
            .ok (⟨validator, "governance.addvalidator", .str sampleAddressPair⟩, false)) :=
  address_vote_normalization (sampleGov .GovernanceMode_Ballot 1) "governance.addvalidator"
    sampleAddressPair (by decide)

theorem mapGet_absent {κ α : Type} [DecidableEq κ] (m : List (κ × α)) (k : κ)
    (h : k ∉ mapKeys m) : mapGet m k = none := by
  induction m with
  | nil => rfl
  | cons e rest ih =>
    obtain ⟨k0, v0⟩ := e
    simp only [mapKeys, List.map_cons, List.mem_cons, not_or] at h
    have hne : ¬ k0 = k := fun e => h.1 e.symm
    simp only [mapGet, hne, if_false]
    exact ih h.2

/-- Writing the entries of a map into another map: a key of the entries gets
their value, every other key keeps the value it had. -/
theorem mapGet_foldl_mapSet {κ α : Type} [DecidableEq κ] (k : κ) :
    ∀ (items acc : List (κ × α)), (mapKeys items).Nodup →
      mapGet (items.foldl (fun m e => mapSet m e.1 e.2) acc) k =
        match mapGet items k with
        | some v => some v
        | none => mapGet acc k := by
  intro items
  induction items with
  | nil => intro acc _; rfl
  | cons e rest ih =>
    intro acc hn
    obtain ⟨k0, v0⟩ := e
    simp only [mapKeys, List.map_cons, List.nodup_cons] at hn
    rw [List.foldl_cons, ih _ hn.2]
    by_cases h0 : k0 = k
    · subst h0
      rw [mapGet_absent rest k0 hn.1]
      simp [mapGet, mapGet_mapSet]
    · simp only [mapGet, h0, if_false, mapGet_mapSet]

/-- Claim C23. For parameter sets `base` and `override` and every key, `Get` on the
merged set yields what `Get` yields on `override` when the key is present there,
and what it yields on `base` otherwise. -/
theorem merge_law (base override : GovParamSet) (k : GovParamKey)
    (hb : (mapKeys base.items).Nodup) (ho : (mapKeys override.items).Nodup) :
    (NewGovParamSetMerged base override).Get k =
      if (override.Get k).2 = true then override.Get k else base.Get k := by
  unfold NewGovParamSetMerged GovParamSet.Get
  simp only [mapGet_foldl_mapSet k _ _ ho, mapGet_foldl_mapSet k _ _ hb]
  cases mapGet override.items k with
  | some v => simp
  | none =>
    cases mapGet base.items k with
    | some v => simp [mapGet]
    | none => simp [mapGet]

theorem merge_law_witness :
    (NewGovParamSetMerged ⟨[(.Epoch, .uint64 123456), (.CommitteeSize, .uint64 77)]⟩
        ⟨[(.CommitteeSize, .uint64 99), (.Policy, .uint64 2)]⟩).Get .CommitteeSize =
      if ((⟨[(.CommitteeSize, .uint64 99), (.Policy, .uint64 2)]⟩ : GovParamSet).Get
          .CommitteeSize).2 = true then
        (⟨[(.CommitteeSize, .uint64 99), (.Policy, .uint64 2)]⟩ : GovParamSet).Get .CommitteeSize
      else
        (⟨[(.Epoch, .uint64 123456), (.CommitteeSize, .uint64 77)]⟩ : GovParamSet).Get
          .CommitteeSize :=
  merge_law ⟨[(.Epoch, .uint64 123456), (.CommitteeSize, .uint64 77)]⟩
    ⟨[(.CommitteeSize, .uint64 99), (.Policy, .uint64 2)]⟩ .CommitteeSize
    (by decide) (by decide)

/-- Under a key of address type a string becomes an address or a list of
addresses, or stays as it is. -/
theorem adjustValueType_address_form (gov : Governance) (key v : String)
    (hk : itemType (gov.GovernanceKeyMap key) = .addressT) :
    adjustValueType gov key (.str v) = .str v ∨
      (∃ a, adjustValueType gov key (.str v) = .address a) ∨
      (∃ l, adjustValueType gov key (.str v) = .addressList l) := by
  rcases Nat.lt_or_ge (stringsSplit v ',').length 2 with hl | hl
  · rcases Nat.lt_or_ge (stringsSplit v ',').length 1 with h0 | h1
    · have h0 : (stringsSplit v ',').length = 0 := by omega
      left
      simp [adjustValueType, hk, h0]
    · have h1 : (stringsSplit v ',').length = 1 := by omega
      by_cases hx : IsHexAddress (stringsTrimSpace v) = true
      · right; left
        exact ⟨HexToAddress (stringsTrimSpace v), by simp [adjustValueType, hk, h1, hx]⟩
      · left
        simp [adjustValueType, hk, h1, hx]
  · obtain ⟨n, hn⟩ : ∃ n, (stringsSplit v ',').length = n + 2 :=
      ⟨_, (Nat.sub_add_cancel hl).symm⟩
    have : adjustValueType gov key (.str v) =
        adjustAddressLoop (.str v) (stringsSplit v ',') [] := by
      simp [adjustValueType, hk, hn]
    rw [this, adjustAddressLoop_eq]
    by_cases hall : (stringsSplit v ',').all (fun seg => IsHexAddress (stringsTrimSpace seg)) =
        true
    · right; right
      exact ⟨(stringsSplit v ',').map (fun seg => HexToAddress (stringsTrimSpace seg)),
        by simp [hall]⟩
    · left
      simp [hall]

/-- Adjusting a value a second time changes nothing. -/
theorem adjustValueType_idem (gov : Governance) (key : String) (val : Value) :
    adjustValueType gov key (adjustValueType gov key val) = adjustValueType gov key val := by
  by_cases hu : itemType (gov.GovernanceKeyMap key) = .uint64T
  · cases val with
    | float64 f =>
      by_cases hr : f.roundTripsUint64 = true
      · simp [adjustValueType, hu, hr]
      · simp [adjustValueType, hu, hr]
    | _ => simp [adjustValueType, hu]
  · cases val with
    | str v =>
      by_cases ha : itemType (gov.GovernanceKeyMap key) = .addressT
      · rcases adjustValueType_address_form gov key v ha with h | ⟨a, h⟩ | ⟨l, h⟩
        · rw [h, h]
        · rw [h]
          simp [adjustValueType, hu]
        · rw [h]
          simp [adjustValueType, hu]
      · simp [adjustValueType, hu, ha, stringsToLower_idem]
    | _ => simp [adjustValueType, hu]

theorem dropWhile_fixed {α : Type} (p : α → Bool) (l : List α)
    (h : ∀ a, l.head? = some a → p a = false) : l.dropWhile p = l := by
  cases l with
  | nil => rfl
  | cons a rest => simp [List.dropWhile, h a rfl]

theorem dropWhile_head {α : Type} (p : α → Bool) (l : List α) :
    ∀ a, (l.dropWhile p).head? = some a → p a = false := by
  induction l with
  | nil => intro a h; cases h
  | cons b rest ih =>
    intro a h
    simp only [List.dropWhile] at h
    cases hb : p b with
    | true => rw [hb] at h; exact ih a h
    | false =>
      rw [hb] at h
      simp only [List.head?_cons, Option.some.injEq] at h
      rw [← h]; exact hb

/-- Dropping at the end keeps the first element of a list that stays non-empty. -/
theorem rdropWhile_head {α : Type} (p : α → Bool) (l : List α) :
    ∀ a, ((l.reverse.dropWhile p).reverse).head? = some a → l.head? = some a := by
  intro a h
  have hpre : (l.reverse.dropWhile p).reverse <+: l := by
    have hs : l.reverse.dropWhile p <:+ l.reverse := List.dropWhile_suffix p
    have := List.reverse_prefix.2 hs
    simpa using this
  obtain ⟨t, ht⟩ := hpre
  cases hx : (l.reverse.dropWhile p).reverse with
  | nil => rw [hx] at h; cases h
  | cons b rest =>
    rw [hx] at h ht
    rw [← ht]
    simpa using h

/-- Trimming the blanks of a trimmed string changes nothing. -/
theorem stringsTrimSpace_idem (s : String) :
    stringsTrimSpace (stringsTrimSpace s) = stringsTrimSpace s := by
  unfold stringsTrimSpace
  simp only
  have h1 : (((s.data.dropWhile (· = ' ')).reverse.dropWhile (· = ' ')).reverse).dropWhile
      (· = ' ') = ((s.data.dropWhile (· = ' ')).reverse.dropWhile (· = ' ')).reverse := by
    apply dropWhile_fixed
    intro a ha
    exact dropWhile_head _ s.data a (rdropWhile_head _ _ a ha)
  rw [h1, List.reverse_reverse]
  congr 2
  apply dropWhile_fixed
  intro a ha
  exact dropWhile_head _ _ a ha

/-- The name normalization of the sample environment, lower case and no blanks
around, changes nothing when it is applied a second time. -/
theorem sampleGetKey_idem (mode : GovernanceModeInt) (node : Address) (k : String) :
    (sampleGov mode node).getKey ((sampleGov mode node).getKey k) =
      (sampleGov mode node).getKey k := by
  show stringsTrimSpace (stringsToLower (stringsTrimSpace (stringsToLower k))) =
    stringsTrimSpace (stringsToLower k)
  have hlow : stringsToLower (stringsTrimSpace (stringsToLower k)) =
      stringsTrimSpace (stringsToLower k) := by
    unfold stringsToLower stringsTrimSpace
    simp only
    congr 1
    conv_rhs => rw [← List.map_id
      ((List.dropWhile (· = ' ') (List.map Char.toLower k.data)).reverse.dropWhile
        (· = ' ')).reverse]
    apply List.map_congr_left
    intro c hc
    have h1 := (List.dropWhile_suffix (· = ' ')).subset (List.mem_reverse.1 hc)
    have h2 := (List.dropWhile_suffix (· = ' ')).subset (List.mem_reverse.1 h1)
    obtain ⟨c0, _, rfl⟩ := List.mem_map.1 h2
    simp only [id]
    exact toLower_idem c0
  rw [hlow, stringsTrimSpace_idem]

/-- Claim C30. Validating the vote that `ValidateVote` returned returns the same
vote and the same verdict again, for every vote whose normalized key is left
unchanged by a second normalization of the name. -/
theorem validateVote_idempotent (gov : Governance) (v v1 : GovernanceVote) (ok : Bool)
    (hkey : gov.getKey (gov.getKey v.Key) = gov.getKey v.Key)
    (h : ValidateVote gov v = .ok (v1, ok)) :
    ValidateVote gov v1 = .ok (v1, ok) := by
  have hv1 : v1 = ⟨v.Validator, gov.getKey v.Key,
      adjustValueType gov (gov.getKey v.Key) v.Value⟩ := by
    unfold ValidateVote at h
    simp only at h
    split at h
    · split at h
      · cases h
      · split at h
        · cases h
        · simp only [run_pure, Except.ok.injEq, Prod.mk.injEq] at h
          exact h.1.symm
    · simp only [run_pure, Except.ok.injEq, Prod.mk.injEq] at h
      exact h.1.symm
  have hsame : ValidateVote gov v1 = ValidateVote gov v := by
    rw [hv1]
    unfold ValidateVote
    simp only [hkey, adjustValueType_idem]
  rw [hsame, h]


theorem validateVote_idempotent_witness :
    ValidateVote (sampleGov .GovernanceMode_Ballot 1) ⟨2, "istanbul.epoch", .uint64 7⟩ =
      .ok (⟨2, "istanbul.epoch", .uint64 7⟩, true) :=
  validateVote_idempotent (sampleGov .GovernanceMode_Ballot 1)
    ⟨2, " Istanbul.Epoch", .float64 (.finite false 7 0)⟩ ⟨2, "istanbul.epoch", .uint64 7⟩
    true (sampleGetKey_idem _ _ _) (by decide)

/-! ### The round trip through JSON -/

theorem hexDigitValue_hexDigitChar (d : Nat) (h : d < 16) :
    hexDigitValue (hexDigitChar d) = some d := by
  interval_cases d <;> decide

theorem hexDigitsOf_length (k a : Nat) : (hexDigitsOf k a).length = k := by
  induction k generalizing a with
  | zero => rfl
  | succ k ih => simp [hexDigitsOf, ih]

theorem hexDigitsOf_all (k a : Nat) :
    (hexDigitsOf k a).all (fun c => (hexDigitValue c).isSome) = true := by
  induction k generalizing a with
  | zero => rfl
  | succ k ih =>
    simp only [hexDigitsOf, List.all_append, ih, Bool.true_and, List.all_cons, List.all_nil,
      Bool.and_true]
    rw [hexDigitValue_hexDigitChar _ (Nat.mod_lt _ (by norm_num))]
    rfl

theorem hexDigitsOf_value (k : Nat) :
    ∀ a : Nat, (hexDigitsOf k a).foldl (fun acc c => acc * 16 + (hexDigitValue c).getD 0) 0 =
      a % 16 ^ k := by
  induction k with
  | zero => intro a; simp [hexDigitsOf, Nat.mod_one]
  | succ k ih =>
    intro a
    simp only [hexDigitsOf, List.foldl_append, ih, List.foldl_cons, List.foldl_nil,
      hexDigitValue_hexDigitChar _ (Nat.mod_lt a (by norm_num : 0 < 16)), Option.getD_some]
    rw [pow_succ, mul_comm (16 ^ k) 16, Nat.mod_mul]
    ring

/-- The hex string of an address is a valid hex address. -/
theorem isHexAddress_addressHex (a : Address) : IsHexAddress (addressHex a) = true := by
  simp only [IsHexAddress, addressHex, dropHexMarker, hexDigitsOf_length, hexDigitsOf_all,
    AddressLength]
  rfl

/-- Reading the hex string of a 20-byte address gives the address back. -/
theorem hexToAddress_addressHex (a : Address) (h : a < 2 ^ (8 * AddressLength)) :
    HexToAddress (addressHex a) = a := by
  simp only [HexToAddress, addressHex, dropHexMarker, hexDigitsOf_value]
  apply Nat.mod_eq_of_lt
  calc a < 2 ^ (8 * AddressLength) := h
    _ = 16 ^ (2 * AddressLength) := by norm_num [AddressLength]

/-- The conversion to `float64` is never negative. -/
theorem ofUint64_geZero (n : Nat) : (Float64.ofUint64 n).geZero = true := by
  unfold Float64.ofUint64
  simp only
  split <;> rfl

/-- An integer that a `float64` holds exactly comes back from the conversion to
`float64` and back. -/
theorem ofUint64_toUint64 (n : Nat) (hn : n < 2 ^ 64) (h : exactInFloat64 n = true) :
    (Float64.ofUint64 n).toUint64 = n := by
  unfold exactInFloat64 at h
  have hr : n % 2 ^ excessBits n 64 = 0 := by simpa using h
  have hpos : 0 < 2 ^ excessBits n 64 := Nat.pow_pos (by norm_num)
  unfold Float64.ofUint64
  simp only [hr]
  rw [if_neg (by omega)]
  simp only [Float64.toUint64, Float64.truncMagnitude, uint64Size]
  rw [Nat.div_mul_cancel (Nat.dvd_of_mod_eq_zero hr)]
  exact Nat.mod_eq_of_lt hn

/-- Every integer below `2 ^ 53` is held exactly. -/
theorem exactInFloat64_small (n : Nat) (h : n < 2 ^ 53) : exactInFloat64 n = true := by
  have he : excessBits n 64 = 0 := by
    show (if n < 2 ^ 53 then 0 else 1 + excessBits (n / 2) 63) = 0
    rw [if_pos h]
  simp [exactInFloat64, he, Nat.mod_one]

/-- What `ParseValue` makes of a validated value after the JSON cycle: the value
itself, when its integer is held exactly and its address has 20 bytes. -/
theorem parseValue_jsonCycle (key : GovParamKey) (ty : govParamType)
    (h : govParamTypes key = some ty) (x : Value) (hv : ty.Validate x = .ok true)
    (hu : ∀ n, x = .uint64 n → n < 2 ^ 64 ∧ exactInFloat64 n = true)
    (ha : ∀ a, x = .address a → a < 2 ^ (8 * AddressLength)) :
    ty.ParseValue (jsonCycleValue x) = .ok (x, true) := by
  have hty := validate_true_type ty x hv
  cases x with
  | uint64 n =>
    obtain ⟨hn, hex⟩ := hu n rfl
    have hty2 : ty = govParamTypeUint64 := by
      rcases registry_cases key ty h with h | h | h | h | h | h <;> subst h <;>
        first | rfl | (simp [govParamTypeGovMode, govParamTypeAddress,
          govParamTypeBigInt, govParamTypeRatio, govParamTypeBool, typeOf] at hty)
    subst hty2
    have hp : govParamTypeUint64.parseValue (jsonCycleValue (.uint64 n)) = (.uint64 n, true) := by
      simp only [jsonCycleValue, govParamTypeUint64, ofUint64_geZero,
        ofUint64_toUint64 n hn hex]
    unfold govParamType.ParseValue
    rw [hp]
    simp only [hv, run_pure]
  | address a =>
    have hty2 : ty = govParamTypeAddress := by
      rcases registry_cases key ty h with h | h | h | h | h | h <;> subst h <;>
        first | rfl | (simp [govParamTypeGovMode, govParamTypeUint64,
          govParamTypeBigInt, govParamTypeRatio, govParamTypeBool, typeOf] at hty)
    subst hty2
    have hp : govParamTypeAddress.parseValue (jsonCycleValue (.address a)) =
        (.address a, true) := by
      simp only [jsonCycleValue, govParamTypeAddress, isHexAddress_addressHex,
        hexToAddress_addressHex a (ha a rfl)]
    unfold govParamType.ParseValue
    rw [hp]
    simp only [hv, run_pure]
  | _ => exact parseValue_canonical key ty h _ hv

theorem valid_jsonCycle (key : GovParamKey) (value : Value) (h : validItem key value)
    (hu : ∀ n, value = .uint64 n → n < 2 ^ 64 ∧ exactInFloat64 n = true)
    (ha : ∀ a, value = .address a → a < 2 ^ (8 * AddressLength)) :
    entryAccepted key (jsonCycleValue value) = true ∧
      parsedValue key (jsonCycleValue value) = value := by
  obtain ⟨ty, hk, _, hv⟩ := h
  have := parseValue_jsonCycle key ty hk value hv hu ha
  simp [entryAccepted, parsedValue, hk, this]

/-- Claim C24, the counterexample. The set that holds the unit price `2 ^ 53 + 1`
is returned by a builder; after the JSON cycle of its export the rebuild
succeeds with the unit price `2 ^ 53`, so it does not yield the items of the
set: the nearest `float64` of `2 ^ 53 + 1` is `2 ^ 53`. -/
theorem json_roundtrip_counterexample :
    builtByBuilder ⟨[(.UnitPrice, .uint64 9007199254740993)]⟩ ∧
    jsonCycle (GovParamSet.StrMap ⟨[(.UnitPrice, .uint64 9007199254740993)]⟩) =
      [("governance.unitprice", .float64 (.finite false 4503599627370496 1))] ∧
    NewGovParamSetStrMap
        (jsonCycle (GovParamSet.StrMap ⟨[(.UnitPrice, .uint64 9007199254740993)]⟩)) =
      .ok (.ok ⟨[(.UnitPrice, .uint64 9007199254740992)]⟩) ∧
    ¬ (∀ p : GovParamSet, builtByBuilder p →
        NewGovParamSetStrMap (jsonCycle p.StrMap) = .ok (.ok p)) := by
  have hb : builtByBuilder ⟨[(.UnitPrice, .uint64 9007199254740993)]⟩ :=
    Or.inr (Or.inl ⟨[(.UnitPrice, .uint64 9007199254740993)], by decide⟩)
  refine ⟨hb, by decide, by decide, ?_⟩
  intro hall
  have h1 := hall _ hb
  revert h1
  decide

/-- Claim C24, as amended. For every parameter set that a builder returned, whose
unsigned integers are 64-bit values that a `float64` holds exactly and whose
addresses have 20 bytes, rebuilding from the name-keyed export after the JSON
cycle succeeds and yields exactly the items of the set. Every integer below
`2 ^ 53` is held exactly. -/
theorem json_roundtrip (p : GovParamSet) (h : builtByBuilder p)
    (hx : ∀ e ∈ p.items, jsonExact e.2 = true) :
    NewGovParamSetStrMap (jsonCycle p.StrMap) = .ok (.ok p) ∧
      (∀ n, n < 2 ^ 53 → exactInFloat64 n = true) := by
  refine ⟨?_, exactInFloat64_small⟩
  obtain ⟨hvalid, hnodup⟩ := builtByBuilder_wellFormed p h
  obtain ⟨items⟩ := p
  simp only at hvalid hnodup hx
  have hcyc : ∀ e ∈ items, entryAccepted e.1 (jsonCycleValue e.2) = true ∧
      parsedValue e.1 (jsonCycleValue e.2) = e.2 := by
    intro e he
    apply valid_jsonCycle e.1 e.2 (hvalid e he)
    · intro n hn
      have := hx e he
      rw [hn] at this
      simpa [jsonExact] using this
    · intro a hn
      have := hx e he
      rw [hn] at this
      simpa [jsonExact] using this
  have hnames : (items.map (fun e => reverseName e.1)).Nodup := by
    have hm : items.map (fun e => reverseName e.1) = (mapKeys items).map reverseName := by
      simp [mapKeys, List.map_map, Function.comp]
    rw [hm]
    apply List.Nodup.map_on _ hnodup
    intro k1 h1 k2 h2 heq
    simp only [mapKeys, List.mem_map] at h1 h2
    obtain ⟨e1, he1, rfl⟩ := h1
    obtain ⟨e2, he2, rfl⟩ := h2
    rw [← resolvedKey_reverseName e1.1 (valid_registered _ _ (hvalid e1 he1)),
      ← resolvedKey_reverseName e2.1 (valid_registered _ _ (hvalid e2 he2)), heq]
  have hexport : jsonCycle (GovParamSet.StrMap ⟨items⟩) =
      items.map (fun e => (reverseName e.1, jsonCycleValue e.2)) := by
    unfold GovParamSet.StrMap jsonCycle
    have := foldl_mapSet_fresh (fun e : GovParamKey × Value => reverseName e.1)
      (fun e => e.2) items [] hnames (by simp [mapKeys])
    simp only [List.nil_append] at this
    rw [this, List.map_map]
    rfl
  have hacc : ∀ e ∈ items.map (fun e => (reverseName e.1, jsonCycleValue e.2)),
      namedEntryAccepted e.1 e.2 = true := by
    intro e he
    obtain ⟨e0, he0, rfl⟩ := List.mem_map.1 he
    rw [namedEntryAccepted_iff]
    have hreg := valid_registered _ _ (hvalid e0 he0)
    simp only [resolvedKey_reverseName e0.1 hreg]
    exact ⟨reverse_names e0.1 hreg, (hcyc e0 he0).1⟩
  have hnd2 : (mapKeys (items.map (fun e => (reverseName e.1, jsonCycleValue e.2)))).Nodup := by
    simpa [mapKeys, List.map_map, Function.comp] using hnames
  rw [hexport, (construction_like_strMap _ hnd2 hacc)]
  have hback : (items.map (fun e => (reverseName e.1, jsonCycleValue e.2))).map
      (fun e => (resolvedKey e.1, parsedValue (resolvedKey e.1) e.2)) = items := by
    rw [List.map_map]
    conv_rhs => rw [← List.map_id items]
    apply List.map_congr_left
    intro e he
    have hreg := valid_registered _ _ (hvalid e he)
    simp [resolvedKey_reverseName e.1 hreg, (hcyc e he).2]
  rw [hback]

theorem json_roundtrip_witness :
    NewGovParamSetStrMap (jsonCycle (GovParamSet.StrMap
        ⟨[(.Epoch, .uint64 604800), (.UnitPrice, .uint64 25000000000),
          (.GoverningNode, .address 1024), (.GovernanceMode, .str "single"),
          (.MintingAmount, .str "9600000000000000000"), (.Ratio, .str "34/54/12"),
          (.UseGiniCoeff, .bool true),
          (.StakeUpdateInterval, .uint64 18014398509481984)]⟩)) =
      .ok (.ok ⟨[(.Epoch, .uint64 604800), (.UnitPrice, .uint64 25000000000),
          (.GoverningNode, .address 1024), (.GovernanceMode, .str "single"),
          (.MintingAmount, .str "9600000000000000000"), (.Ratio, .str "34/54/12"),
          (.UseGiniCoeff, .bool true),
          (.StakeUpdateInterval, .uint64 18014398509481984)]⟩) ∧
      (∀ n, n < 2 ^ 53 → exactInFloat64 n = true) :=
  json_roundtrip _
    (Or.inr (Or.inl ⟨[(.Epoch, .uint64 604800), (.UnitPrice, .uint64 25000000000),
          (.GoverningNode, .address 1024), (.GovernanceMode, .str "single"),
          (.MintingAmount, .str "9600000000000000000"), (.Ratio, .str "34/54/12"),
          (.UseGiniCoeff, .bool true),
          (.StakeUpdateInterval, .uint64 18014398509481984)], by decide⟩))
    (by decide)

/-! ### The two ratio checks side by side -/

/-- On a slice without a sign, within the range of `int`, `strconv.Atoi` and
`strconv.ParseUint` read the same number or both fail. -/
theorem atoi_eq_parseUint (seg : String) (hs : unsignedSlice seg = true)
    (hr : withinIntRange seg = true) :
    strconvAtoi seg = (strconvParseUint seg).map (fun n : Nat => (n : Int)) := by
  have hsigned : parseSignedDecimal seg.data =
      (parseDecimal seg.data).map (fun n : Nat => (n : Int)) := by
    unfold unsignedSlice at hs
    unfold parseSignedDecimal
    split
    · rename_i heq; rw [heq] at hs; cases hs
    · rename_i heq; rw [heq] at hs; cases hs
    · cases parseDecimal seg.data <;> rfl
  unfold withinIntRange at hr
  unfold strconvAtoi
  unfold strconvParseUint at hr ⊢
  rw [hsigned]
  cases hp : parseDecimal seg.data with
  | none => rfl
  | some n =>
    rw [hp] at hr
    simp only [Option.map_some', uint64Size] at hr ⊢
    by_cases h64 : n < 2 ^ 64
    · rw [if_pos h64] at hr ⊢
      have h63 : n < 2 ^ 63 := by simpa using hr
      rw [if_pos (by constructor <;> omega)]
      rfl
    · rw [if_neg h64]
      rw [if_neg (by intro h; omega)]
      rfl

/-- The vote check returns a verdict on every string. -/
theorem checkRatio_total (k s : String) : ∃ b, checkRatio k (.str s) = .ok b := by
  simp only [checkRatio, run_pure]
  split
  · exact ⟨_, rfl⟩
  · split
    · exact ⟨_, rfl⟩
    · split <;> exact ⟨_, rfl⟩

/-- The two checks accept the same strings among those whose slices carry no
sign and lie in the range of `int`. -/
theorem ratio_checks_iff (k s : String)
    (hsign : ∀ seg ∈ stringsSplit s '/', unsignedSlice seg = true)
    (hrange : ∀ seg ∈ stringsSplit s '/', withinIntRange seg = true) :
    checkRatio k (.str s) = .ok true ↔ govParamTypeRatio.Validate (.str s) = .ok true := by
  rw [checkRatio_iff, ratio_validate_iff]
  constructor
  · rintro ⟨a, b, c, x, y, z, habc, hx, hy, hz, hsum⟩
    have ha := atoi_eq_parseUint a (hsign a (by simp [habc])) (hrange a (by simp [habc]))
    have hb := atoi_eq_parseUint b (hsign b (by simp [habc])) (hrange b (by simp [habc]))
    have hc := atoi_eq_parseUint c (hsign c (by simp [habc])) (hrange c (by simp [habc]))
    rw [hx] at ha
    rw [hy] at hb
    rw [hz] at hc
    refine ⟨a, b, c, (x : Int), (y : Int), (z : Int), habc, ha, hb, hc,
      Int.ofNat_nonneg x, Int.ofNat_nonneg y, Int.ofNat_nonneg z, ?_⟩
    omega
  · rintro ⟨a, b, c, x, y, z, habc, hx, hy, hz, h0x, h0y, h0z, hsum⟩
    have ha := atoi_eq_parseUint a (hsign a (by simp [habc])) (hrange a (by simp [habc]))
    have hb := atoi_eq_parseUint b (hsign b (by simp [habc])) (hrange b (by simp [habc]))
    have hc := atoi_eq_parseUint c (hsign c (by simp [habc])) (hrange c (by simp [habc]))
    rw [hx] at ha
    rw [hy] at hb
    rw [hz] at hc
    cases hpa : strconvParseUint a with
    | none => rw [hpa] at ha; cases ha
    | some x1 =>
      cases hpb : strconvParseUint b with
      | none => rw [hpb] at hb; cases hb
      | some y1 =>
        cases hpc : strconvParseUint c with
        | none => rw [hpc] at hc; cases hc
        | some z1 =>
          rw [hpa] at ha
          rw [hpb] at hb
          rw [hpc] at hc
          simp only [Option.map_some', Option.some.injEq] at ha hb hc
          refine ⟨a, b, c, x1, y1, z1, habc, hpa, hpb, hpc, ?_⟩
          omega

/-- Claim C31, the counterexample. The registry check reads its slices with
`strconv.Atoi`, which takes a sign, and tests the sign of the number: it
accepts `+100/0/0` and `-0/100/0`. The vote check reads them with
`strconv.ParseUint`, which takes no sign, and rejects both; the vote for
`+100/0/0` is invalid while the builder stores the string. In the other
direction the vote check accepts `18446744073709551615/1/100`, whose first slice
is outside the range of `int`, and the registry check rejects it. So the two
checks do not accept the same strings. -/
theorem ratio_validators_counterexample :
    govParamTypeRatio.Validate (.str "+100/0/0") = .ok true ∧
    checkRatio "reward.ratio" (.str "+100/0/0") = .ok false ∧
    govParamTypeRatio.Validate (.str "-0/100/0") = .ok true ∧
    checkRatio "reward.ratio" (.str "-0/100/0") = .ok false ∧
    NewGovParamSetStrMap [("reward.ratio", .str "+100/0/0")] =
      .ok (.ok ⟨[(.Ratio, .str "+100/0/0")]⟩) ∧
    ValidateVote (sampleGov .GovernanceMode_Ballot 1) ⟨1, "reward.ratio", .str "+100/0/0"⟩ =
      .ok (⟨1, "reward.ratio", .str "+100/0/0"⟩, false) ∧
    checkRatio "reward.ratio" (.str "18446744073709551615/1/100") = .ok true ∧
    govParamTypeRatio.Validate (.str "18446744073709551615/1/100") = .ok false ∧
    ¬ (∀ s : String, checkRatio "reward.ratio" (.str s) = .ok true ↔
        govParamTypeRatio.Validate (.str s) = .ok true) := by
  refine ⟨by decide, by decide, by decide, by decide, by decide, by decide, by decide,
    by decide, ?_⟩
  intro hall
  have h := (hall "+100/0/0").2 (by decide)
  revert h
  decide

/-- Claim C31, as amended. For every string whose slices carry no sign and,
where they read as unsigned numbers, lie in the range of `int`, the vote check
`checkRatio` and the registry check `govParamTypeRatio.Validate` both return,
with the same verdict, and `ParseValue` of the registry reports that verdict:
the string is accepted as a vote value exactly when it is accepted in a
parameter set. -/
theorem ratio_validators_agree (k s : String)
    (hsign : ∀ seg ∈ stringsSplit s '/', unsignedSlice seg = true)
    (hrange : ∀ seg ∈ stringsSplit s '/', withinIntRange seg = true) :
    (checkRatio k (.str s) = .ok true ↔ govParamTypeRatio.Validate (.str s) = .ok true) ∧
      ∃ b, checkRatio k (.str s) = .ok b ∧ govParamTypeRatio.Validate (.str s) = .ok b ∧
        govParamTypeRatio.ParseValue (.str s) = .ok (.str s, b) := by
  have hiff := ratio_checks_iff k s hsign hrange
  refine ⟨hiff, ?_⟩
  obtain ⟨b1, h1⟩ := checkRatio_total k s
  obtain ⟨b2, h2⟩ := validate_ratio_total (.str s)
  have hb : b1 = b2 := by
    cases b1 with
    | true =>
      have := hiff.1 h1
      rw [h2] at this
      simp only [Except.ok.injEq] at this
      exact this.symm
    | false =>
      cases b2 with
      | false => rfl
      | true =>
        have := hiff.2 h2
        rw [h1] at this
        simp only [Except.ok.injEq] at this
        exact this
  subst hb
  refine ⟨b1, h1, h2, ?_⟩
  unfold govParamType.ParseValue
  have hp : govParamTypeRatio.parseValue (.str s) = (.str s, true) := rfl
  rw [hp]
  simp only [h2, run_pure]

theorem ratio_validators_agree_witness :
    (checkRatio "reward.ratio" (.str "34/54/12") = .ok true ↔
        govParamTypeRatio.Validate (.str "34/54/12") = .ok true) ∧
      ∃ b, checkRatio "reward.ratio" (.str "34/54/12") = .ok b ∧
        govParamTypeRatio.Validate (.str "34/54/12") = .ok b ∧
        govParamTypeRatio.ParseValue (.str "34/54/12") = .ok (.str "34/54/12", b) :=
  ratio_validators_agree "reward.ratio" "34/54/12" (by decide) (by decide)

end Properties

end Klaytn
